import Mathlib

/-!
Verification of the BEN background-removal network (`src/demo.py`).

Tensors are modelled shallowly as a shape (a list of dimension sizes) together
with a total indexing function; an operation built in the source from
`view` / `permute` / `rearrange` is translated to the composite index map of
those steps, recorded in a comment at each definition.  Floating point is
modelled by the real numbers (and by the rationals where a claim needs
computation).  `Tensor.SEq` is equality of tensors: equal shapes and equal
entries at every in-range index.
-/

set_option maxHeartbeats 1000000

namespace BEN

/-- A dense tensor: a shape `[d0, d1, ...]` and a total indexing function.
Entries at out-of-range indices are junk and are never compared. -/
structure Tensor (α : Type) where
  shape : List ℕ
  data : List ℕ → α

/-- `idx` is an in-range multi-index for `shape`: same length, each
coordinate below the corresponding dimension. -/
def ValidIdx (shape idx : List ℕ) : Prop :=
  List.Forall₂ (fun i d => i < d) idx shape

instance (shape idx : List ℕ) : Decidable (ValidIdx shape idx) := by
  unfold ValidIdx; infer_instance

/-- Tensor equality: same shape and same entries at every in-range index. -/
def Tensor.SEq {α : Type} (t s : Tensor α) : Prop :=
  t.shape = s.shape ∧ ∀ idx, ValidIdx t.shape idx → t.data idx = s.data idx

/-- The all-zero real tensor of a given shape (used as a concrete input). -/
def zerosR (shape : List ℕ) : Tensor ℝ :=
  { shape := shape, data := fun _ => 0 }

/-- The all-zero rational tensor of a given shape (used as a concrete input). -/
def zerosQ (shape : List ℕ) : Tensor ℚ :=
  { shape := shape, data := fun _ => 0 }

/-- `window_partition(x, window_size)` (demo.py:52-56).
Source: `x.view(B, H//ws, ws, W//ws, ws, C).permute(0,1,3,2,4,5).view(-1, ws, ws, C)`;
the composite index map sends window-batch index `b` of the output to batch
`b / (nH*nW)`, window row `b / nW % nH` and window column `b % nW` of the input. -/
def window_partition {α : Type} (x : Tensor α) (window_size : ℕ) : Tensor α :=
  match x.shape with
  | [B, H, W, C] =>
    let nH := H / window_size
    let nW := W / window_size
    { shape := [B * nH * nW, window_size, window_size, C]
      data := fun idx =>
        match idx with
        | [b, i, j, c] =>
            x.data [b / (nH * nW), (b / nW % nH) * window_size + i,
                    (b % nW) * window_size + j, c]
        | _ => x.data idx }
  | _ => x

/-- `window_reverse(windows, window_size, H, W)` (demo.py:58-62).
Source: `B = int(windows.shape[0] / (H*W/ws/ws))` (exact when `ws ∣ H, ws ∣ W`,
modelled as natural division by `(H/ws)*(W/ws)`), then
`windows.view(B, H//ws, W//ws, ws, ws, -1).permute(0,1,3,2,4,5).view(B, H, W, -1)`;
the composite index map sends `(b, h, w, c)` to window
`(b*nH + h/ws)*nW + w/ws`, intra-window position `(h%ws, w%ws)`. -/
def window_reverse {α : Type} (windows : Tensor α) (window_size H W : ℕ) : Tensor α :=
  match windows.shape with
  | [N, _w1, _w2, C] =>
    let nH := H / window_size
    let nW := W / window_size
    let B := N / (nH * nW)
    { shape := [B, H, W, C]
      data := fun idx =>
        match idx with
        | [b, h, w, c] =>
            windows.data [(b * nH + h / window_size) * nW + w / window_size,
                          h % window_size, w % window_size, c]
        | _ => windows.data idx }
  | _ => windows

/-- `image2patches(x)` (demo.py:333-334):
`rearrange(x, 'b c (hg h) (wg w) -> (hg wg b) c h w', hg=2, wg=2)`.
Output batch index `o = (hg*2 + wg)*B + b` reads quadrant `(hg, wg)` of image `b`. -/
def image2patches {α : Type} (x : Tensor α) : Tensor α :=
  match x.shape with
  | [B, C, H, W] =>
    { shape := [2 * 2 * B, C, H / 2, W / 2]
      data := fun idx =>
        match idx with
        | [o, c, h, w] =>
            x.data [o % B, c, (o / (2 * B)) * (H / 2) + h, (o / B % 2) * (W / 2) + w]
        | _ => x.data idx }
  | _ => x

/-- `patches2image(x)` (demo.py:336-337):
`rearrange(x, '(hg wg b) c h w -> b c (hg h) (wg w)', hg=2, wg=2)`. -/
def patches2image {α : Type} (x : Tensor α) : Tensor α :=
  match x.shape with
  | [N, C, h, w] =>
    { shape := [N / (2 * 2), C, 2 * h, 2 * w]
      data := fun idx =>
        match idx with
        | [b, c, hh, ww] =>
            x.data [((hh / h) * 2 + ww / w) * (N / (2 * 2)) + b, c, hh % h, ww % w]
        | _ => x.data idx }
  | _ => x

/-- Flattened intra-window coordinates (demo.py:74-77):
`coords = stack(meshgrid([arange(ws), arange(ws)]))`, `coords_flatten = flatten(coords, 1)`;
flattened position `p` has row `p / ws` and column `p % ws`. -/
def coords_flatten (window_size p : ℕ) : ℕ × ℕ :=
  (p / window_size, p % window_size)

/-- The relative-position index table of `WindowAttention.__init__` (demo.py:78-83):
`relative_coords = coords_flatten[:, :, None] - coords_flatten[:, None, :]`, then
both components are shifted by `ws - 1`, the row component is multiplied by
`2*ws - 1`, and the two components are summed. -/
def relative_position_index (window_size i j : ℕ) : ℤ :=
  let rc0 : ℤ := ((coords_flatten window_size i).1 : ℤ)
                 - ((coords_flatten window_size j).1 : ℤ) + ((window_size : ℤ) - 1)
  let rc1 : ℤ := ((coords_flatten window_size i).2 : ℤ)
                 - ((coords_flatten window_size j).2 : ℤ) + ((window_size : ℤ) - 1)
  rc0 * (2 * (window_size : ℤ) - 1) + rc1

/-- The relative-position index table as a nested list (row `i`, column `j`),
for comparison with a literal expected table. -/
def relative_position_index_table (window_size : ℕ) : List (List ℤ) :=
  (List.range (window_size * window_size)).map fun i =>
    (List.range (window_size * window_size)).map fun j =>
      relative_position_index window_size i j

/-- Python slice boundary with negative-index semantics: for an axis of
length `n`, the boundary `i` denotes `n + i` when `i < 0`, else `i`. -/
def pyIdx (n : ℕ) (i : ℤ) : ℕ :=
  (if i < 0 then (n : ℤ) + i else i).toNat

/-- The three slices per axis used in the mask construction of
`BasicLayer.forward` (demo.py:207-208):
`(slice(0, -ws), slice(-ws, -shift), slice(-shift, None))`. -/
def mask_slices (n ws shift : ℕ) : List (ℕ × ℕ) :=
  [(0, pyIdx n (-(ws : ℤ))),
   (pyIdx n (-(ws : ℤ)), pyIdx n (-(shift : ℤ))),
   (pyIdx n (-(shift : ℤ)), n)]

/-- The label written into `img_mask` at position `(h, w)` by the double loop
of `BasicLayer.forward` (demo.py:206-213): the grid starts at 0 and each of
the 9 `(h_slice, w_slice)` rectangles is assigned the running counter in
order, later assignments overwriting earlier ones. -/
def img_mask_label (Hp Wp ws shift : ℕ) (h w : ℕ) : ℕ :=
  (((mask_slices Hp ws shift).flatMap fun hr =>
      (mask_slices Wp ws shift).map fun wr => (hr, wr)).enum).foldl
    (fun acc x =>
      if x.2.1.1 ≤ h ∧ h < x.2.1.2 ∧ x.2.2.1 ≤ w ∧ w < x.2.2.2 then x.1 else acc) 0

/-- The `img_mask` tensor of `BasicLayer.forward`: shape `(1, Hp, Wp, 1)`,
entry `(0, h, w, 0)` holding the region label as a scalar. -/
def img_mask (α : Type) [Zero α] [NatCast α] (Hp Wp ws shift : ℕ) : Tensor α :=
  { shape := [1, Hp, Wp, 1]
    data := fun idx =>
      match idx with
      | [_, h, w, _] => (img_mask_label Hp Wp ws shift h w : α)
      | _ => 0 }

/-- `mask_windows` (demo.py:214-215): `window_partition(img_mask, ws)`
followed by `.view(-1, ws*ws)`; the view flattens the trailing
`(ws, ws, 1)` block row-major, and its inferred first dimension is the
window count, the head of the partitioned shape. -/
def mask_windows (α : Type) [Zero α] [NatCast α] (Hp Wp ws shift : ℕ) : Tensor α :=
  let w := window_partition (img_mask α Hp Wp ws shift) ws
  { shape := [w.shape.headD 0, ws * ws]
    data := fun idx =>
      match idx with
      | [b, n] => w.data [b, n / ws, n % ws, 0]
      | _ => 0 }

/-- The additive attention mask of `BasicLayer.forward` (demo.py:216-217):
`attn_mask = mask_windows.unsqueeze(1) - mask_windows.unsqueeze(2)`, so entry
`(w, i, j)` is `mask_windows[w][j] - mask_windows[w][i]`, then
`.masked_fill(attn_mask != 0, -100.0).masked_fill(attn_mask == 0, 0.0)`
(both fill conditions test the original difference). -/
def attention_mask (α : Type) [Ring α] [DecidableEq α] (Hp Wp ws shift : ℕ) : Tensor α :=
  let mw := mask_windows α Hp Wp ws shift
  { shape := [mw.shape.headD 0, ws * ws, ws * ws]
    data := fun idx =>
      match idx with
      | [b, i, j] =>
          let d0 := mw.data [b, j] - mw.data [b, i]
          let d1 := if d0 ≠ 0 then (-100 : α) else d0
          if d0 = 0 then 0 else d1
      | _ => 0 }

/-- Region number (0, 1 or 2) of a coordinate along one axis of length `n`,
split at the shift boundaries `n - ws` and `n - shift` (the 3-region
partition the mask construction encodes). -/
def region3 (n ws shift x : ℕ) : ℕ :=
  if x < n - ws then 0 else if x < n - shift then 1 else 2

/-- The 3×3 shift-boundary region labeling of the claim: each of the 9
(row-region, column-region) cells gets a distinct label. -/
def spec_region_label (Hp Wp ws shift h w : ℕ) : ℕ :=
  3 * region3 Hp ws shift h + region3 Wp ws shift w

/-- Absolute grid position of intra-window position `i` of window `wdw`,
for a grid partitioned into windows of size `ws` with `nW` windows per row
(the inverse of the `window_partition` index map at batch 1). -/
def window_abs_pos (nW ws wdw i : ℕ) : ℕ × ℕ :=
  ((wdw / nW) * ws + i / ws, (wdw % nW) * ws + i % ws)

/- ------------------------------------------------------------------ -/
/- Generic tensor combinators used by the network layers.              -/
/- ------------------------------------------------------------------ -/

/-- Elementwise map. -/
def tmap {α : Type} (f : α → α) (t : Tensor α) : Tensor α :=
  { shape := t.shape, data := fun idx => f (t.data idx) }

/-- Elementwise addition of two same-shaped tensors (residual adds). -/
def tadd {α : Type} [Add α] (a b : Tensor α) : Tensor α :=
  { shape := a.shape, data := fun idx => a.data idx + b.data idx }

/-- `x[start:start+len]` along the batch (first) dimension. -/
def slice0 {α : Type} (t : Tensor α) (start len : ℕ) : Tensor α :=
  { shape := len :: t.shape.tail
    data := fun idx =>
      match idx with
      | b :: rest => t.data ((start + b) :: rest)
      | [] => t.data [] }

/-- `torch.cat(ts, dim=0)`. -/
def cat0 {α : Type} [Zero α] (ts : List (Tensor α)) : Tensor α :=
  { shape := (ts.map fun t => t.shape.headD 0).sum :: (ts.headD ⟨[], fun _ => 0⟩).shape.tail
    data := fun idx =>
      match idx with
      | b :: rest => cat0.go ts b rest
      | [] => 0 }
where
  go : List (Tensor α) → ℕ → List ℕ → α
  | [], _, _ => 0
  | t :: ts, b, rest =>
      if b < t.shape.headD 0 then t.data (b :: rest) else go ts (b - t.shape.headD 0) rest

/-- `torch.cat` along dimension `d` (`List.set`/`getD` pick out coordinate `d`). -/
def catD {α : Type} [Zero α] (d : ℕ) (ts : List (Tensor α)) : Tensor α :=
  { shape :=
      (ts.headD ⟨[], fun _ => 0⟩).shape.set d (ts.map fun t => t.shape.getD d 0).sum
    data := fun idx => catD.go d ts (idx.getD d 0) idx }
where
  go : ℕ → List (Tensor α) → ℕ → List ℕ → α
  | _, [], _, _ => 0
  | d, t :: ts, i, idx =>
      if i < t.shape.getD d 0 then t.data (idx.set d i)
      else go d ts (i - t.shape.getD d 0) idx

/-- `F.pad(x, (0, 0, pl, pr, pt, pb))` on a `(B, H, W, C)` tensor: zero-pad
the `W` axis by `(pl, pr)` and the `H` axis by `(pt, pb)`. -/
def pad_hw {α : Type} [Zero α] (t : Tensor α) (pl pr pt pb : ℕ) : Tensor α :=
  match t.shape with
  | [B, H, W, C] =>
    { shape := [B, H + pt + pb, W + pl + pr, C]
      data := fun idx =>
        match idx with
        | [b, h, w, c] =>
            if pt ≤ h ∧ h < pt + H ∧ pl ≤ w ∧ w < pl + W then
              t.data [b, h - pt, w - pl, c]
            else 0
        | _ => 0 }
  | _ => t

/-- `F.pad(x, (pl, pr, pt, pb))` on a `(B, C, H, W)` tensor: zero-pad the
`W` axis by `(pl, pr)` and the `H` axis by `(pt, pb)`. -/
def pad_chw {α : Type} [Zero α] (t : Tensor α) (pl pr pt pb : ℕ) : Tensor α :=
  match t.shape with
  | [B, C, H, W] =>
    { shape := [B, C, H + pt + pb, W + pl + pr]
      data := fun idx =>
        match idx with
        | [b, c, h, w] =>
            if pt ≤ h ∧ h < pt + H ∧ pl ≤ w ∧ w < pl + W then
              t.data [b, c, h - pt, w - pl]
            else 0
        | _ => 0 }
  | _ => t

/-- `torch.roll(x, shifts=(s1, s2), dims=(1, 2))` on a `(B, H, W, C)` tensor:
`out[i] = in[(i - s) mod n]` along each rolled axis. -/
def roll_hw {α : Type} (t : Tensor α) (s1 s2 : ℤ) : Tensor α :=
  match t.shape with
  | [B, H, W, C] =>
    { shape := [B, H, W, C]
      data := fun idx =>
        match idx with
        | [b, h, w, c] =>
            t.data [b, (((h : ℤ) - s1).emod (H : ℤ)).toNat,
                    (((w : ℤ) - s2).emod (W : ℤ)).toNat, c]
        | _ => t.data idx }
  | _ => t

/-- `x.view(B, H, W, C)` of a `(B, H*W, C)` token tensor. -/
def view_grid {α : Type} (t : Tensor α) (H W : ℕ) : Tensor α :=
  match t.shape with
  | [B, _L, C] =>
    { shape := [B, H, W, C]
      data := fun idx =>
        match idx with
        | [b, h, w, c] => t.data [b, h * W + w, c]
        | _ => t.data idx }
  | _ => t

/-- `x.view(B, H*W, C)` of a `(B, H, W, C)` grid tensor. -/
def view_tokens {α : Type} (t : Tensor α) : Tensor α :=
  match t.shape with
  | [B, H, W, C] =>
    { shape := [B, H * W, C]
      data := fun idx =>
        match idx with
        | [b, l, c] => t.data [b, l / W, l % W, c]
        | _ => t.data idx }
  | _ => t

/-- `x.view(-1, ws*ws, C)` of an `(N, ws, ws, C)` window tensor. -/
def win_to_tokens {α : Type} (t : Tensor α) (ws : ℕ) : Tensor α :=
  match t.shape with
  | [N, _a, _b, C] =>
    { shape := [N, ws * ws, C]
      data := fun idx =>
        match idx with
        | [n, l, c] => t.data [n, l / ws, l % ws, c]
        | _ => t.data idx }
  | _ => t

/-- `x.view(-1, ws, ws, C)` of an `(N, ws*ws, C)` window-token tensor. -/
def tokens_to_win {α : Type} (t : Tensor α) (ws : ℕ) : Tensor α :=
  match t.shape with
  | [N, _L, C] =>
    { shape := [N, ws, ws, C]
      data := fun idx =>
        match idx with
        | [n, i, j, c] => t.data [n, i * ws + j, c]
        | _ => t.data idx }
  | _ => t

/-- `x[:, :H, :W, :]` crop of a `(B, Hp, Wp, C)` tensor. -/
def crop_hw {α : Type} (t : Tensor α) (H W : ℕ) : Tensor α :=
  match t.shape with
  | [B, _Hp, _Wp, C] =>
    { shape := [B, H, W, C], data := t.data }
  | _ => t

end BEN

noncomputable section

namespace BEN

/- ------------------------------------------------------------------ -/
/- Real-valued primitives (floats are modelled by the real numbers).   -/
/- ------------------------------------------------------------------ -/

/-- Logistic sigmoid, `torch.sigmoid`. -/
def sigmoid (x : ℝ) : ℝ := 1 / (1 + Real.exp (-x))

/-- Standard normal CDF, used by the exact (erf-based) `nn.GELU`. -/
def stdNormCdf (x : ℝ) : ℝ :=
  (Real.sqrt (2 * Real.pi))⁻¹ * ∫ t in Set.Iic x, Real.exp (-(t ^ 2) / 2)

/-- `nn.GELU` (exact form): `x * Φ(x)`. -/
def gelu (x : ℝ) : ℝ := x * stdNormCdf x

/-- `nn.Linear(inF, outF)` applied over the last axis:
`y[o] = Σ_k w[o][k] · x[k] + b[o]`.  The output shape replaces the last
axis size by `outF`. -/
def linear (inF outF : ℕ) (w : ℕ → ℕ → ℝ) (b : ℕ → ℝ) (t : Tensor ℝ) : Tensor ℝ :=
  { shape := t.shape.dropLast ++ [outF]
    data := fun idx =>
      (∑ k ∈ Finset.range inF, w (idx.getLastD 0) k * t.data (idx.dropLast ++ [k]))
        + b (idx.getLastD 0) }

/-- Affine parameters of `nn.LayerNorm`. -/
structure LayerNormW where
  weight : ℕ → ℝ
  bias : ℕ → ℝ

/-- `nn.LayerNorm(n)` over the last axis with `eps = 1e-5`:
`(x - μ) / sqrt(σ² + eps) * weight + bias`, biased variance. -/
def layerNorm (n : ℕ) (p : LayerNormW) (t : Tensor ℝ) : Tensor ℝ :=
  { shape := t.shape
    data := fun idx =>
      let base := idx.dropLast
      let μ := (∑ k ∈ Finset.range n, t.data (base ++ [k])) / n
      let v := (∑ k ∈ Finset.range n, (t.data (base ++ [k]) - μ) ^ 2) / n
      (t.data idx - μ) / Real.sqrt (v + 1 / 100000) * p.weight (idx.getLastD 0)
        + p.bias (idx.getLastD 0) }

/-- `softmax(dim=-1)` over the last axis of size `n`. -/
def softmaxLast (n : ℕ) (t : Tensor ℝ) : Tensor ℝ :=
  { shape := t.shape
    data := fun idx =>
      Real.exp (t.data idx)
        / ∑ k ∈ Finset.range n, Real.exp (t.data (idx.dropLast ++ [k])) }

/-- Batched matrix product over the last two axes (`a @ b` for
`(..., M, K) @ (..., K, N)`, equal leading axes). -/
def matmulLast (a b : Tensor ℝ) : Tensor ℝ :=
  let K := a.shape.getLastD 0
  { shape := a.shape.dropLast ++ [b.shape.getLastD 0]
    data := fun idx =>
      let pre := idx.dropLast.dropLast
      let m := idx.dropLast.getLastD 0
      let n := idx.getLastD 0
      ∑ k ∈ Finset.range K, a.data (pre ++ [m, k]) * b.data (pre ++ [k, n]) }

/-- `x.transpose(-2, -1)`. -/
def transposeLast2 {α : Type} (t : Tensor α) : Tensor α :=
  { shape := t.shape.dropLast.dropLast
      ++ [t.shape.getLastD 0, t.shape.dropLast.getLastD 0]
    data := fun idx =>
      t.data (idx.dropLast.dropLast ++ [idx.getLastD 0, idx.dropLast.getLastD 0]) }

/-- Parameters of `WindowAttention` (demo.py:64-90): the fused `qkv` linear
map, the output projection, and the learned relative-position bias table of
shape `((2·ws-1)², num_heads)`. -/
structure WindowAttention where
  dim : ℕ
  window_size : ℕ
  num_heads : ℕ
  qkv_w : ℕ → ℕ → ℝ
  qkv_b : ℕ → ℝ
  proj_w : ℕ → ℕ → ℝ
  proj_b : ℕ → ℝ
  rpb_table : ℕ → ℕ → ℝ

/-- `WindowAttention.forward(x, mask)` (demo.py:92-113) for `x` of shape
`(B_, N, C)`.  The `qkv` output is reshaped to `(B_, N, 3, nH, hd)` and
permuted to `(3, B_, nH, N, hd)` — slice `s` of the last axis of the fused
projection is `s*nH*hd + h*hd + d` — `q` is scaled by `head_dim ** -0.5`,
logits gain the gathered relative-position bias (broadcast over the batch),
the optional mask is added per window group (`attn.view(B_//nW, nW, ...)`
adds `mask[b % nW]` at flat batch `b`), softmax, weighted sum with `v`,
head-merge (`transpose(1, 2).reshape(B_, N, C)`), output projection. -/
def WindowAttention.forward (m : WindowAttention) (x : Tensor ℝ)
    (mask : Option (Tensor ℝ)) : Tensor ℝ :=
  match x.shape with
  | [B_, N, C] =>
    let nH := m.num_heads
    let hd := C / nH
    let scale := (Real.sqrt (hd : ℝ))⁻¹
    let qkv := linear C (3 * C) m.qkv_w m.qkv_b x
    let q : Tensor ℝ :=
      ⟨[B_, nH, N, hd], fun idx =>
        match idx with
        | [b, h, n, d] => qkv.data [b, n, 0 * (nH * hd) + h * hd + d] * scale
        | _ => 0⟩
    let k : Tensor ℝ :=
      ⟨[B_, nH, N, hd], fun idx =>
        match idx with
        | [b, h, n, d] => qkv.data [b, n, 1 * (nH * hd) + h * hd + d]
        | _ => 0⟩
    let v : Tensor ℝ :=
      ⟨[B_, nH, N, hd], fun idx =>
        match idx with
        | [b, h, n, d] => qkv.data [b, n, 2 * (nH * hd) + h * hd + d]
        | _ => 0⟩
    let attn := matmulLast q (transposeLast2 k)
    -- relative_position_bias_table[relative_position_index.view(-1)]
    --   .view(ws*ws, ws*ws, -1).permute(2, 0, 1), broadcast over batch:
    let attn1 : Tensor ℝ :=
      ⟨attn.shape, fun idx =>
        match idx with
        | [b, h, i, j] =>
            attn.data [b, h, i, j]
              + m.rpb_table (relative_position_index m.window_size i j).toNat h
        | _ => attn.data idx⟩
    let attn2 : Tensor ℝ :=
      match mask with
      | some msk =>
          let nW := msk.shape.headD 0
          softmaxLast N
            ⟨attn1.shape, fun idx =>
              match idx with
              | [b, h, i, j] => attn1.data [b, h, i, j] + msk.data [b % nW, i, j]
              | _ => attn1.data idx⟩
      | none => softmaxLast N attn1
    let out := matmulLast attn2 v
    -- (attn @ v).transpose(1, 2).reshape(B_, N, C):
    let merged : Tensor ℝ :=
      ⟨[B_, N, C], fun idx =>
        match idx with
        | [b, n, c] => out.data [b, c / hd, n, c % hd]
        | _ => 0⟩
    linear C C m.proj_w m.proj_b merged
  | _ => x

/-- Parameters of `Mlp` (demo.py:34-50): two linear layers. -/
structure Mlp where
  in_features : ℕ
  hidden_features : ℕ
  fc1_w : ℕ → ℕ → ℝ
  fc1_b : ℕ → ℝ
  fc2_w : ℕ → ℕ → ℝ
  fc2_b : ℕ → ℝ

/-- `Mlp.forward` (demo.py:44-50): `fc2(drop(act(fc1(x))))`, GELU activation,
dropout the identity in inference mode. -/
def Mlp.forward (m : Mlp) (x : Tensor ℝ) : Tensor ℝ :=
  linear m.hidden_features m.in_features m.fc2_w m.fc2_b
    (tmap gelu (linear m.in_features m.hidden_features m.fc1_w m.fc1_b x))

/-- Parameters of `SwinTransformerBlock` (demo.py:115-131). -/
structure SwinTransformerBlock where
  dim : ℕ
  num_heads : ℕ
  window_size : ℕ
  shift_size : ℕ
  norm1 : LayerNormW
  attn : WindowAttention
  norm2 : LayerNormW
  mlp : Mlp

/-- The windowed-attention branch of `SwinTransformerBlock.forward`
(demo.py:138-162), the value of the local `x` just before the residual add:
norm, reshape to the grid, bottom/right zero-pad to window-size multiples,
optional cyclic shift (negative roll), window partition, attention (masked
only when shifted), window reverse, inverse shift, crop the padding back to
`(H, W)`, reshape to tokens. -/
def SwinTransformerBlock.attn_branch (m : SwinTransformerBlock) (H W : ℕ)
    (x : Tensor ℝ) (mask_matrix : Tensor ℝ) : Tensor ℝ :=
  let xn := layerNorm m.dim m.norm1 x
    let xg := view_grid xn H W
    let pad_r := (m.window_size - W % m.window_size) % m.window_size
    let pad_b := (m.window_size - H % m.window_size) % m.window_size
    let xp := pad_hw xg 0 pad_r 0 pad_b
    let shifted :=
      if 0 < m.shift_size then
        roll_hw xp (-(m.shift_size : ℤ)) (-(m.shift_size : ℤ))
      else xp
    let attn_mask : Option (Tensor ℝ) :=
      if 0 < m.shift_size then some mask_matrix else none
    let xw := window_partition shifted m.window_size
    let xwt := win_to_tokens xw m.window_size
    let aw := m.attn.forward xwt attn_mask
    let awg := tokens_to_win aw m.window_size
    let rev := window_reverse awg m.window_size (H + pad_b) (W + pad_r)
    let unshifted :=
      if 0 < m.shift_size then roll_hw rev (m.shift_size : ℤ) (m.shift_size : ℤ)
      else rev
    let cropped := crop_hw unshifted H W
    view_tokens cropped

/-- `SwinTransformerBlock.forward(x, mask_matrix)` (demo.py:133-165): the
attention branch, a residual add to the input (`drop_path` is the identity in
inference mode), then a second residual of the MLP over a normalized copy. -/
def SwinTransformerBlock.forward (m : SwinTransformerBlock) (H W : ℕ)
    (x : Tensor ℝ) (mask_matrix : Tensor ℝ) : Tensor ℝ :=
  let shortcut := x
  let xt := m.attn_branch H W x mask_matrix
  let x1 := tadd shortcut xt
  tadd x1 (m.mlp.forward (layerNorm m.dim m.norm2 x1))

/-- Parameters of `PatchMerging` (demo.py:167-172): a `LayerNorm(4·dim)` and
a bias-free `Linear(4·dim, 2·dim)`. -/
structure PatchMerging where
  dim : ℕ
  norm : LayerNormW
  reduction_w : ℕ → ℕ → ℝ

/-- `PatchMerging.forward(x, H, W)` (demo.py:174-189): reshape to the grid,
pad bottom/right to even `H`, `W`, gather the four 2×2-offset sub-grids
(`x0 = x[:,0::2,0::2]`, `x1 = x[:,1::2,0::2]`, `x2 = x[:,0::2,1::2]`,
`x3 = x[:,1::2,1::2]`, so channel block `q` of the concatenation reads row
offset `q % 2` and column offset `q / 2`), flatten spatial, normalize,
project bias-free to `2·dim` channels. -/
def PatchMerging.forward (m : PatchMerging) (x : Tensor ℝ) (H W : ℕ) : Tensor ℝ :=
  match x.shape with
  | [B, _L, C] =>
    let xg := view_grid x H W
    -- pad_input: F.pad(x, (0, 0, 0, W % 2, 0, H % 2))
    let xp := pad_hw xg 0 (W % 2) 0 (H % 2)
    let Hp := H + H % 2
    let Wp := W + W % 2
    let xc : Tensor ℝ :=
      ⟨[B, Hp / 2, Wp / 2, 4 * C], fun idx =>
        match idx with
        | [b, i, j, c4] =>
            xp.data [b, 2 * i + c4 / C % 2, 2 * j + c4 / C / 2, c4 % C]
        | _ => 0⟩
    -- x.view(B, -1, 4*C): the inferred dim is (Hp/2)·(Wp/2)
    let xt : Tensor ℝ :=
      ⟨[B, Hp / 2 * (Wp / 2), 4 * C], fun idx =>
        match idx with
        | [b, l, c4] => xc.data [b, l / (Wp / 2), l % (Wp / 2), c4]
        | _ => 0⟩
    -- self.reduction has bias=False
    linear (4 * C) (2 * C) m.reduction_w (fun _ => 0) (layerNorm (4 * C) m.norm xt)
  | _ => x

/-- All-zero layer-norm parameters (concrete instance for witnesses). -/
def zeroLayerNorm : LayerNormW := { weight := fun _ => 0, bias := fun _ => 0 }

/-- All-zero window-attention parameters (concrete instance for witnesses). -/
def zeroWindowAttention (dim ws heads : ℕ) : WindowAttention :=
  { dim := dim, window_size := ws, num_heads := heads
    qkv_w := fun _ _ => 0, qkv_b := fun _ => 0
    proj_w := fun _ _ => 0, proj_b := fun _ => 0
    rpb_table := fun _ _ => 0 }

/-- All-zero MLP parameters (concrete instance for witnesses). -/
def zeroMlp (dim hidden : ℕ) : Mlp :=
  { in_features := dim, hidden_features := hidden
    fc1_w := fun _ _ => 0, fc1_b := fun _ => 0
    fc2_w := fun _ _ => 0, fc2_b := fun _ => 0 }

/-- A small concrete Swin block (dim 1, window 3, shift 1) for witnesses. -/
def zeroSwinBlock : SwinTransformerBlock :=
  { dim := 1, num_heads := 1, window_size := 3, shift_size := 1
    norm1 := zeroLayerNorm, attn := zeroWindowAttention 1 3 1
    norm2 := zeroLayerNorm, mlp := zeroMlp 1 4 }

/-- A concrete patch-merging module (dim 16) for witnesses. -/
def zeroPatchMerging : PatchMerging :=
  { dim := 16, norm := zeroLayerNorm, reduction_w := fun _ _ => 0 }

/-- `WindowAttention.__init__` (demo.py:65-90) as a fallible constructor:
the body contains no validity check (no assert, no raise) — `head_dim` is
computed by floor division and the parameter tensors are allocated — so
construction succeeds for every argument combination.  The learned
parameters (randomly initialized in the source) are taken as inputs. -/
def WindowAttention.construct (dim window_size num_heads : ℕ)
    (qkv_w : ℕ → ℕ → ℝ) (qkv_b : ℕ → ℝ) (proj_w : ℕ → ℕ → ℝ) (proj_b : ℕ → ℝ)
    (rpb_table : ℕ → ℕ → ℝ) : Except String WindowAttention :=
  .ok { dim := dim, window_size := window_size, num_heads := num_heads
        qkv_w := qkv_w, qkv_b := qkv_b, proj_w := proj_w, proj_b := proj_b
        rpb_table := rpb_table }

/-- `SwinTransformerBlock.__init__` (demo.py:116-131) as a fallible
constructor: demo.py:123 asserts `0 <= shift_size < window_size` (the lower
bound is vacuous over ℕ) and fails construction otherwise. -/
def SwinTransformerBlock.construct (dim num_heads window_size shift_size : ℕ)
    (norm1 : LayerNormW) (attn : WindowAttention) (norm2 : LayerNormW) (mlp : Mlp) :
    Except String SwinTransformerBlock :=
  if shift_size < window_size then
    .ok { dim := dim, num_heads := num_heads, window_size := window_size
          shift_size := shift_size, norm1 := norm1, attn := attn
          norm2 := norm2, mlp := mlp }
  else .error "shift_size must in 0-window_size"

/-- `WindowAttention.forward` with the element-count check of its `qkv`
reshape made explicit (demo.py:94): `reshape(B_, N, 3, nH, C // nH)` is legal
in torch exactly when the element counts agree,
`B_·N·3C = B_·N·3·nH·(C/nH)`; otherwise forward raises at runtime. -/
def WindowAttention.forwardChecked (m : WindowAttention) (x : Tensor ℝ)
    (mask : Option (Tensor ℝ)) : Except String (Tensor ℝ) :=
  match x.shape with
  | [B_, N, C] =>
      if B_ * N * (3 * C) = B_ * N * 3 * m.num_heads * (C / m.num_heads) then
        .ok (m.forward x mask)
      else .error "qkv reshape size mismatch"
  | _ => .error "input is not three dimensional"

/-- `e.isOk`: whether an `Except` value is a success. -/
def isOkE {ε σ : Type} : Except ε σ → Bool
  | .ok _ => true
  | .error _ => false

/-- All in-range multi-indices of a shape, row-major. -/
def allIdx : List ℕ → List (List ℕ)
  | [] => [[]]
  | d :: ds => (List.range d).flatMap fun i => (allIdx ds).map fun rest => i :: rest

/-- The list of all in-range entries of a tensor (`torch.max`/`torch.min`
reduce over exactly these). -/
def tvals {α : Type} (t : Tensor α) : List α := (allIdx t.shape).map t.data

/-- `torch.max(t)`: the largest entry (0 for an empty tensor). -/
def tmax (t : Tensor ℚ) : ℚ := (tvals t).maximum.unbot' 0

/-- `torch.min(t)`: the smallest entry (0 for an empty tensor). -/
def tmin (t : Tensor ℚ) : ℚ := (tvals t).minimum.untop' 0

/-- `torch.squeeze(t, 0)`: drop the leading axis when it has size 1. -/
def squeeze0 {α : Type} (t : Tensor α) : Tensor α :=
  match t.shape with
  | b :: rest =>
      if b = 1 then { shape := rest, data := fun idx => t.data (0 :: idx) } else t
  | [] => t

/-- `F.interpolate(t, size=(outH, outW), mode='bilinear')` with the default
`align_corners=False`: source coordinate `(i + 1/2)·(in/out) − 1/2` clamped
below at 0, floor and floor+1 neighbours (the upper neighbour clamped to the
last row/column), linear weights `λ = src − floor(src)` in each axis. -/
def bilinear_resize {α : Type} [LinearOrderedField α] [FloorRing α]
    (t : Tensor α) (outH outW : ℕ) : Tensor α :=
  match t.shape with
  | [B, C, H, W] =>
    { shape := [B, C, outH, outW]
      data := fun idx =>
        match idx with
        | [b, c, i, j] =>
            let sh : α := max 0 (((i : α) + 1 / 2) * ((H : α) / (outH : α)) - 1 / 2)
            let sw : α := max 0 (((j : α) + 1 / 2) * ((W : α) / (outW : α)) - 1 / 2)
            let i0 : ℕ := min (⌊sh⌋.toNat) (H - 1)
            let j0 : ℕ := min (⌊sw⌋.toNat) (W - 1)
            let i1 : ℕ := min (i0 + 1) (H - 1)
            let j1 : ℕ := min (j0 + 1) (W - 1)
            let lh : α := sh - (i0 : α)
            let lw : α := sw - (j0 : α)
            (1 - lh) * ((1 - lw) * t.data [b, c, i0, j0] + lw * t.data [b, c, i0, j1])
              + lh * ((1 - lw) * t.data [b, c, i1, j0] + lw * t.data [b, c, i1, j1])
        | _ => t.data idx }
  | _ => t

/-- The resized-and-squeezed mask inside `postprocess_image` (demo.py:668):
`torch.squeeze(F.interpolate(result, size=im_size, mode='bilinear'), 0)`.
Floats are modelled by rationals here so the arithmetic is exact. -/
def postprocess_resized (result : Tensor ℚ) (outH outW : ℕ) : Tensor ℚ :=
  squeeze0 (bilinear_resize result outH outW)

/-- `postprocess_image(result, im_size)` (demo.py:667-673): resize, squeeze,
then min-max normalize by `(ma - mi)` with no guard against `ma = mi`,
multiply by 255, `permute(1, 2, 0)` (entry `(i, j, c)` reads channel `c` at
`(i, j)`), cast to `uint8` (truncation, equal to the floor on the in-range
non-negative values), and `np.squeeze` the size-1 trailing axis away. -/
def postprocess_image (result : Tensor ℚ) (outH outW : ℕ) : Tensor ℤ :=
  let sq := postprocess_resized result outH outW
  let ma := tmax sq
  let mi := tmin sq
  let normed : Tensor ℚ := { shape := sq.shape, data := fun idx => (sq.data idx - mi) / (ma - mi) }
  { shape := [sq.shape.getD 1 0, sq.shape.getD 2 0]
    data := fun idx =>
      match idx with
      | [i, j] => ⌊normed.data [0, i, j] * 255⌋
      | _ => 0 }

/-- Python `round(h / r)` for naturals `h`, `r` (banker's rounding of the
exact quotient, as used for the adaptive-pool target sizes in MCLM/MCRM):
compare twice the remainder with the divisor, ties go to the even quotient. -/
def round_div (h r : ℕ) : ℕ :=
  let q := h / r
  let rem := h % r
  if 2 * rem < r then q
  else if r < 2 * rem then q + 1
  else if q % 2 = 0 then q else q + 1

/-- `F.interpolate(t, size=(outH, outW), mode='nearest')`: source index
`min(floor(i · in/out), in - 1)` along each axis. -/
def nearest_resize {α : Type} (t : Tensor α) (outH outW : ℕ) : Tensor α :=
  match t.shape with
  | [B, C, H, W] =>
    { shape := [B, C, outH, outW]
      data := fun idx =>
        match idx with
        | [b, c, i, j] => t.data [b, c, min (i * H / outH) (H - 1), min (j * W / outW) (W - 1)]
        | _ => t.data idx }
  | _ => t

/-- `resize_as(x, y)` (demo.py:330-331): bilinear interpolation to `y`'s last
two axis sizes. -/
def resize_as (x y : Tensor ℝ) : Tensor ℝ :=
  bilinear_resize x (y.shape.getD 2 0) (y.shape.getD 3 0)

/-- `rescale_to(x, scale_factor=0.5, interpolation='bilinear')` (demo.py:327-328,
used at demo.py:520): output size `floor(H·0.5) = H/2`. -/
def rescale_half_bilinear (x : Tensor ℝ) : Tensor ℝ :=
  bilinear_resize x (x.shape.getD 2 0 / 2) (x.shape.getD 3 0 / 2)

/-- `rescale_to(x)` with the default `scale_factor=2, interpolation='nearest'`. -/
def rescale_double_nearest (x : Tensor ℝ) : Tensor ℝ :=
  nearest_resize x (2 * x.shape.getD 2 0) (2 * x.shape.getD 3 0)

/-- `F.adaptive_avg_pool2d(t, (outH, outW))`: output cell `(i, j)` averages
the input over rows `[⌊i·H/outH⌋, ⌈(i+1)·H/outH⌉)` and the analogous
columns. -/
def adaptive_avg_pool2d (t : Tensor ℝ) (outH outW : ℕ) : Tensor ℝ :=
  match t.shape with
  | [B, C, H, W] =>
    { shape := [B, C, outH, outW]
      data := fun idx =>
        match idx with
        | [b, c, i, j] =>
            let h0 := i * H / outH
            let h1 := ((i + 1) * H + outH - 1) / outH
            let w0 := j * W / outW
            let w1 := ((j + 1) * W + outW - 1) / outW
            (∑ u ∈ Finset.Ico h0 h1, ∑ v ∈ Finset.Ico w0 w1, t.data [b, c, u, v])
              / (((h1 - h0) * (w1 - w0) : ℕ) : ℝ)
        | _ => t.data idx }
  | _ => t

/-- `nn.Conv2d` parameters (square kernel, no dilation, no groups). -/
structure Conv2d where
  in_channels : ℕ
  out_channels : ℕ
  kernel : ℕ
  stride : ℕ
  padding : ℕ
  weight : ℕ → ℕ → ℕ → ℕ → ℝ
  bias : ℕ → ℝ

/-- `Conv2d` applied to a `(B, C, H, W)` tensor: output spatial size
`(H + 2·pad - k)/stride + 1`, entries the biased window dot product over the
zero-padded input. -/
def Conv2d.forward (m : Conv2d) (t : Tensor ℝ) : Tensor ℝ :=
  match t.shape with
  | [B, _C, H, W] =>
    { shape := [B, m.out_channels, (H + 2 * m.padding - m.kernel) / m.stride + 1,
                (W + 2 * m.padding - m.kernel) / m.stride + 1]
      data := fun idx =>
        match idx with
        | [b, o, i, j] =>
            m.bias o + ∑ c ∈ Finset.range m.in_channels, ∑ u ∈ Finset.range m.kernel,
              ∑ v ∈ Finset.range m.kernel,
                m.weight o c u v *
                  (if m.padding ≤ i * m.stride + u ∧ i * m.stride + u < H + m.padding
                      ∧ m.padding ≤ j * m.stride + v ∧ j * m.stride + v < W + m.padding then
                     t.data [b, c, i * m.stride + u - m.padding, j * m.stride + v - m.padding]
                   else 0)
        | _ => 0 }
  | _ => t

/-- `nn.InstanceNorm2d` with the default `affine=False`,
`track_running_stats=False`, `eps=1e-5`: per-(batch, channel) spatial
normalization with biased variance. -/
def instance_norm2d (t : Tensor ℝ) : Tensor ℝ :=
  match t.shape with
  | [B, C, H, W] =>
    { shape := [B, C, H, W]
      data := fun idx =>
        match idx with
        | [b, c, i, j] =>
            let n : ℝ := ((H * W : ℕ) : ℝ)
            let μ := (∑ u ∈ Finset.range H, ∑ v ∈ Finset.range W, t.data [b, c, u, v]) / n
            let va := (∑ u ∈ Finset.range H, ∑ v ∈ Finset.range W,
                        (t.data [b, c, u, v] - μ) ^ 2) / n
            (t.data [b, c, i, j] - μ) / Real.sqrt (va + 1 / 100000)
        | _ => t.data idx }
  | _ => t

/-- A `make_cbr`/`make_cbg` block (demo.py:321-325): 3×3 convolution with
padding 1, instance norm, GELU. -/
structure CBR where
  conv : Conv2d

/-- Build a `make_cbr` block from its convolution weights. -/
def mkCBR (ic oc : ℕ) (w : ℕ → ℕ → ℕ → ℕ → ℝ) (b : ℕ → ℝ) : CBR :=
  { conv := { in_channels := ic, out_channels := oc, kernel := 3, stride := 1,
              padding := 1, weight := w, bias := b } }

def CBR.forward (m : CBR) (t : Tensor ℝ) : Tensor ℝ :=
  tmap gelu (instance_norm2d (m.conv.forward t))

/-- `PositionEmbeddingSine(num_pos_feats, normalize=True)` (demo.py:339-367):
the cumulative sums of the all-ones mask give `y_embed[i] = i + 1` and
`x_embed[j] = j + 1`; these are normalized by the last row/column value plus
`eps = 1e-6` and scaled by `2π`; channel `c < npf` holds `sin`/`cos` (even/odd
`c`) of `y / dim_t[c]`, channels `npf ≤ c` the same of `x`, with
`dim_t[k] = 10000^(2·(k/2)/npf)`. -/
def position_embedding_sine (num_pos_feats : ℕ) (b h w : ℕ) : Tensor ℝ :=
  { shape := [b, 2 * num_pos_feats, h, w]
    data := fun idx =>
      match idx with
      | [_, c, i, j] =>
          let dim_t : ℕ → ℝ := fun k =>
            (10000 : ℝ) ^ (((2 * (k / 2) : ℕ) : ℝ) / (num_pos_feats : ℝ))
          let yn : ℝ := (((i + 1 : ℕ) : ℝ) - 1 / 2) / ((h : ℝ) + 1 / 1000000) * (2 * Real.pi)
          let xn : ℝ := (((j + 1 : ℕ) : ℝ) - 1 / 2) / ((w : ℝ) + 1 / 1000000) * (2 * Real.pi)
          if c < num_pos_feats then
            if c % 2 = 0 then Real.sin (yn / dim_t c) else Real.cos (yn / dim_t c)
          else
            if (c - num_pos_feats) % 2 = 0 then Real.sin (xn / dim_t (c - num_pos_feats))
            else Real.cos (xn / dim_t (c - num_pos_feats))
      | _ => 0 }

/-- `nn.MultiheadAttention(embed_dim, num_heads)` parameters (fused input
projection of shape `(3E, E)`, output projection). -/
structure MultiheadAttention where
  embed_dim : ℕ
  num_heads : ℕ
  in_proj_weight : ℕ → ℕ → ℝ
  in_proj_bias : ℕ → ℝ
  out_proj_w : ℕ → ℕ → ℝ
  out_proj_b : ℕ → ℝ

/-- `MultiheadAttention.forward(q, k, v)[0]` for `(L, N, E)` inputs
(`batch_first=False`), dropout inactive in inference mode: project `q`/`k`/`v`
with rows `[0,E)`, `[E,2E)`, `[2E,3E)` of the fused projection, split into
heads (flat head-batch index `n·h + head`), scale `q` by `head_dim^(-1/2)`,
softmax attention, merge heads, output projection. -/
def MultiheadAttention.forward (m : MultiheadAttention) (q k v : Tensor ℝ) : Tensor ℝ :=
  match q.shape, k.shape with
  | [L, N, E], [S, _N2, _E2] =>
    let h := m.num_heads
    let hd := E / h
    let qp := linear E E (fun o i => m.in_proj_weight o i) (fun o => m.in_proj_bias o) q
    let kp := linear E E (fun o i => m.in_proj_weight (E + o) i)
      (fun o => m.in_proj_bias (E + o)) k
    let vp := linear E E (fun o i => m.in_proj_weight (2 * E + o) i)
      (fun o => m.in_proj_bias (2 * E + o)) v
    let qh : Tensor ℝ :=
      ⟨[N * h, L, hd], fun idx =>
        match idx with
        | [bh, l, dd] => qp.data [l, bh / h, bh % h * hd + dd] * (Real.sqrt (hd : ℝ))⁻¹
        | _ => 0⟩
    let kh : Tensor ℝ :=
      ⟨[N * h, S, hd], fun idx =>
        match idx with
        | [bh, s, dd] => kp.data [s, bh / h, bh % h * hd + dd]
        | _ => 0⟩
    let vh : Tensor ℝ :=
      ⟨[N * h, S, hd], fun idx =>
        match idx with
        | [bh, s, dd] => vp.data [s, bh / h, bh % h * hd + dd]
        | _ => 0⟩
    let attn := softmaxLast S (matmulLast qh (transposeLast2 kh))
    let oh := matmulLast attn vh
    let merged : Tensor ℝ :=
      ⟨[L, N, E], fun idx =>
        match idx with
        | [l, n, e] => oh.data [n * h + e / hd, l, e % hd]
        | _ => 0⟩
    linear E E m.out_proj_w m.out_proj_b merged
  | _, _ => q

/-- `t.unbind(dim=0)[i]`: drop the leading axis at index `i`. -/
def unbind0 {α : Type} (t : Tensor α) (i : ℕ) : Tensor α :=
  { shape := t.shape.tail, data := fun idx => t.data (i :: idx) }

/-- A contiguous slice `[start, start+len)` along dimension `d`
(`torch.chunk` pieces). -/
def narrowD {α : Type} (d : ℕ) (t : Tensor α) (start len : ℕ) : Tensor α :=
  { shape := t.shape.set d len
    data := fun idx => t.data (idx.set d (start + idx.getD d 0)) }

/-- Parameters of `MCLM` (demo.py:369-386): five attentions (the `ModuleList`
entries `attention[0..4]`), two feed-forward pairs, two norms, the pool
ratios. -/
structure MCLM where
  d_model : ℕ
  pool_ratios : List ℕ
  att0 : MultiheadAttention
  att1 : MultiheadAttention
  att2 : MultiheadAttention
  att3 : MultiheadAttention
  att4 : MultiheadAttention
  linear1_w : ℕ → ℕ → ℝ
  linear1_b : ℕ → ℝ
  linear2_w : ℕ → ℕ → ℝ
  linear2_b : ℕ → ℝ
  linear3_w : ℕ → ℕ → ℝ
  linear3_b : ℕ → ℝ
  linear4_w : ℕ → ℕ → ℝ
  linear4_b : ℕ → ℝ
  norm1 : LayerNormW
  norm2 : LayerNormW

/-- `MCLM.forward(l, g)` (demo.py:388-427), dropout inactive in inference
mode.  `l` is the `(4, C, h, w)` stack of local quadrants, `g` the `(1, C,
h, w)` global view.  The 2×2 stitch `concated_locs` is pooled at each ratio
(target sizes by Python `round`), the pooled tokens and their sinusoidal
position embeddings are concatenated; the global tokens cross-attend to them
(`attention[0]`), residual + norm + feed-forward + norm; the refreshed global
grid is split into 2×2 sub-grids (`'(ng h) (nw w) b c -> (h w) (ng nw b) c'`,
sub-grid batch `(ng·2 + nw)·gB + b`), each local quadrant cross-attends to
its own aligned context (`attention[1..4]`), residual + norm + feed-forward +
norm; local and global token streams are concatenated on the batch axis and
reshaped back to `(5, C, h, w)`. -/
def MCLM.forward (m : MCLM) (l g : Tensor ℝ) : Tensor ℝ :=
  match l.shape with
  | [b, c, h, w] =>
    let concated_locs := patches2image l
    let gB := g.shape.headD 0
    let pools : Tensor ℝ := catD 0 (m.pool_ratios.map fun pr =>
      let th := round_div h pr
      let tw := round_div w pr
      let pool := adaptive_avg_pool2d concated_locs th tw
      -- rearrange(pool, 'b c h w -> (h w) b c')
      (⟨[th * tw, concated_locs.shape.headD 0, c], fun idx =>
        match idx with
        | [t, bb, cc] => pool.data [bb, cc, t / tw, t % tw]
        | _ => 0⟩ : Tensor ℝ))
    let p_poses : Tensor ℝ := catD 0 (m.pool_ratios.map fun pr =>
      let th := round_div h pr
      let tw := round_div w pr
      let pe := position_embedding_sine (m.d_model / 2) (concated_locs.shape.headD 0) th tw
      (⟨[th * tw, concated_locs.shape.headD 0, m.d_model], fun idx =>
        match idx with
        | [t, bb, cc] => pe.data [bb, cc, t / tw, t % tw]
        | _ => 0⟩ : Tensor ℝ))
    let g_pos : Tensor ℝ :=
      let pe := position_embedding_sine (m.d_model / 2) gB
        (g.shape.getD 2 0) (g.shape.getD 3 0)
      ⟨[g.shape.getD 2 0 * g.shape.getD 3 0, gB, m.d_model], fun idx =>
        match idx with
        | [t, bb, cc] => pe.data [bb, cc, t / g.shape.getD 3 0, t % g.shape.getD 3 0]
        | _ => 0⟩
    let g_hw_b_c : Tensor ℝ :=
      ⟨[g.shape.getD 2 0 * g.shape.getD 3 0, gB, c], fun idx =>
        match idx with
        | [t, bb, cc] => g.data [bb, cc, t / g.shape.getD 3 0, t % g.shape.getD 3 0]
        | _ => 0⟩
    let g1 := tadd g_hw_b_c (m.att0.forward (tadd g_hw_b_c g_pos) (tadd pools p_poses) pools)
    let g2 := layerNorm m.d_model m.norm1 g1
    let g3 := tadd g2 (linear (2 * m.d_model) m.d_model m.linear2_w m.linear2_b
      (tmap gelu (linear m.d_model (2 * m.d_model) m.linear1_w m.linear1_b g2)))
    let g4 := layerNorm m.d_model m.norm2 g3
    let l_hw_b_c : Tensor ℝ :=
      ⟨[h * w, b, c], fun idx =>
        match idx with
        | [t, bb, cc] => l.data [bb, cc, t / w, t % w]
        | _ => 0⟩
    let _g_hw_b_c : Tensor ℝ :=
      ⟨[h / 2 * (w / 2), 2 * 2 * gB, c], fun idx =>
        match idx with
        | [t, bb, cc] =>
            let ng := bb / (2 * gB)
            let nw := bb / gB % 2
            let b0 := bb % gB
            g4.data [(ng * (h / 2) + t / (w / 2)) * w + (nw * (w / 2) + t % (w / 2)), b0, cc]
        | _ => 0⟩
    -- zip(l.chunk(4, dim=1), _g.chunk(4, dim=1)): chunk sizes b/4 and gB
    let outputs_re : Tensor ℝ := catD 1 [
      m.att1.forward (narrowD 1 l_hw_b_c 0 (b / 4)) (narrowD 1 _g_hw_b_c 0 gB)
        (narrowD 1 _g_hw_b_c 0 gB),
      m.att2.forward (narrowD 1 l_hw_b_c (b / 4) (b / 4)) (narrowD 1 _g_hw_b_c gB gB)
        (narrowD 1 _g_hw_b_c gB gB),
      m.att3.forward (narrowD 1 l_hw_b_c (2 * (b / 4)) (b / 4))
        (narrowD 1 _g_hw_b_c (2 * gB) gB) (narrowD 1 _g_hw_b_c (2 * gB) gB),
      m.att4.forward (narrowD 1 l_hw_b_c (3 * (b / 4)) (b / 4))
        (narrowD 1 _g_hw_b_c (3 * gB) gB) (narrowD 1 _g_hw_b_c (3 * gB) gB)]
    let l1 := tadd l_hw_b_c outputs_re
    let l2 := layerNorm m.d_model m.norm1 l1
    let l3 := tadd l2 (linear (2 * m.d_model) m.d_model m.linear4_w m.linear4_b
      (tmap gelu (linear m.d_model (2 * m.d_model) m.linear3_w m.linear3_b l2)))
    let l4 := layerNorm m.d_model m.norm2 l3
    let lg := catD 1 [l4, g4]
    -- rearrange(l, '(h w) b c -> b c h w', h=h, w=w)
    ⟨[lg.shape.getD 1 0, c, h, w], fun idx =>
      match idx with
      | [bb, cc, i, j] => lg.data [i * w + j, bb, cc]
      | _ => 0⟩
  | _ => l

/-- Parameters of `MCRM` (demo.py:429-443): four attentions, one
feed-forward pair, two norms, the 1×1 saliency convolution, pool ratios. -/
structure MCRM where
  d_model : ℕ
  pool_ratios : List ℕ
  att0 : MultiheadAttention
  att1 : MultiheadAttention
  att2 : MultiheadAttention
  att3 : MultiheadAttention
  linear3_w : ℕ → ℕ → ℝ
  linear3_b : ℕ → ℝ
  linear4_w : ℕ → ℕ → ℝ
  linear4_b : ℕ → ℝ
  norm1 : LayerNormW
  norm2 : LayerNormW
  sal_conv : Conv2d

/-- `MCRM.forward(x)` (demo.py:445-472) on the `(5, C, h, w)` tile stack:
split 4 local + 1 global, saliency map `sigmoid(sal_conv(glb))` upsampled
(nearest) to the stitched-local size and multiplied into each quadrant
(channel-broadcast), adaptive-pooled pyramid of the re-tiled global as
key/value for four per-quadrant attentions, residual + norm + feed-forward +
norm, the refreshed locals added back (nearest) into the global; returns the
updated `(5, C, h, w)` stack and the saliency map. -/
def MCRM.forward (m : MCRM) (x : Tensor ℝ) : Tensor ℝ × Tensor ℝ :=
  match x.shape with
  | [_b, c, h, w] =>
    let loc := slice0 x 0 4
    let glb := slice0 x 4 1
    let patched_glb := image2patches glb
    let tam := tmap sigmoid (m.sal_conv.forward glb)
    -- F.interpolate(tam, size=patches2image(loc).shape[-2:], mode='nearest')
    let tam_up := nearest_resize tam ((patches2image loc).shape.getD 2 0)
      ((patches2image loc).shape.getD 3 0)
    let tam4 := image2patches tam_up
    -- loc * rearrange(tam_up, ...): the saliency map has one channel, broadcast
    let loc_g : Tensor ℝ :=
      ⟨loc.shape, fun idx =>
        match idx with
        | [bb, cc, i, j] => loc.data [bb, cc, i, j] * tam4.data [bb, 0, i, j]
        | _ => loc.data idx⟩
    -- pools: 'nl c h w -> nl c (h w)', cat on the token axis, 'nl c nphw -> nl nphw 1 c'
    let pools : Tensor ℝ := catD 1 (m.pool_ratios.map fun pr =>
      let th := round_div h pr
      let tw := round_div w pr
      let pool := adaptive_avg_pool2d patched_glb th tw
      (⟨[2 * 2 * 1, th * tw, 1, c], fun idx =>
        match idx with
        | [nl, t, _, cc] => pool.data [nl, cc, t / tw, t % tw]
        | _ => 0⟩ : Tensor ℝ))
    -- loc_ = rearrange(loc, 'nl c h w -> nl (h w) 1 c')
    let loc_ : Tensor ℝ :=
      ⟨[4, h * w, 1, c], fun idx =>
        match idx with
        | [nl, t, _, cc] => loc_g.data [nl, cc, t / w, t % w]
        | _ => 0⟩
    let outputs : Tensor ℝ := catD 1 [
      m.att0.forward (unbind0 loc_ 0) (unbind0 pools 0) (unbind0 pools 0),
      m.att1.forward (unbind0 loc_ 1) (unbind0 pools 1) (unbind0 pools 1),
      m.att2.forward (unbind0 loc_ 2) (unbind0 pools 2) (unbind0 pools 2),
      m.att3.forward (unbind0 loc_ 3) (unbind0 pools 3) (unbind0 pools 3)]
    -- loc.view(4, c, -1).permute(2, 0, 1) + dropout1(outputs)
    let src0 : Tensor ℝ :=
      ⟨[h * w, 4, c], fun idx =>
        match idx with
        | [t, nl, cc] => loc_g.data [nl, cc, t / w, t % w]
        | _ => 0⟩
    let src1 := tadd src0 outputs
    let src2 := layerNorm m.d_model m.norm1 src1
    let src3 := tadd src2 (linear (2 * m.d_model) m.d_model m.linear4_w m.linear4_b
      (tmap gelu (linear m.d_model (2 * m.d_model) m.linear3_w m.linear3_b src2)))
    let src4 := layerNorm m.d_model m.norm2 src3
    -- src.permute(1, 2, 0).reshape(4, c, h, w)
    let src5 : Tensor ℝ :=
      ⟨[4, c, h, w], fun idx =>
        match idx with
        | [nl, cc, i, j] => src4.data [i * w + j, nl, cc]
        | _ => 0⟩
    -- glb + F.interpolate(patches2image(src), size=glb.shape[-2:], 'nearest')
    let glb2 := tadd glb (nearest_resize (patches2image src5) (glb.shape.getD 2 0)
      (glb.shape.getD 3 0))
    (catD 0 [src5, glb2], tam)
  | _ => (x, x)

/-- `PatchEmbed` (demo.py:227-249): strided-convolution tokenizer with
`patch_norm` layer norm (flatten, norm, reshape back). -/
structure PatchEmbed where
  patch_size : ℕ
  in_chans : ℕ
  embed_dim : ℕ
  proj : Conv2d
  norm : LayerNormW

/-- `PatchEmbed.forward(x)` (demo.py:237-249): pad `W` then `H` up to
multiples of `patch_size` (demo.py writes the pad as `ps - X % ps` guarded by
`X % ps != 0`, i.e. `(ps - X % ps) % ps`), strided convolution, flatten +
layer norm + reshape back to `(B, embed_dim, Wh, Ww)`. -/
def PatchEmbed.forward (m : PatchEmbed) (x : Tensor ℝ) : Tensor ℝ :=
  match x.shape with
  | [_B, _C, H, W] =>
    let pw := (m.patch_size - W % m.patch_size) % m.patch_size
    let ph := (m.patch_size - H % m.patch_size) % m.patch_size
    let xc := m.proj.forward (pad_chw x 0 pw 0 ph)
    let Wh := xc.shape.getD 2 0
    let Ww := xc.shape.getD 3 0
    let tokens : Tensor ℝ :=
      ⟨[xc.shape.headD 0, Wh * Ww, m.embed_dim], fun idx =>
        match idx with
        | [b, t, cc] => xc.data [b, cc, t / Ww, t % Ww]
        | _ => 0⟩
    let normed := layerNorm m.embed_dim m.norm tokens
    ⟨[xc.shape.headD 0, m.embed_dim, Wh, Ww], fun idx =>
      match idx with
      | [b, cc, i, j] => normed.data [b, i * Ww + j, cc]
      | _ => 0⟩
  | _ => x

/-- `BasicLayer` (demo.py:191-201): one stage of blocks (alternating shift 0
and `window_size / 2`) with an optional patch-merging downsample. -/
structure BasicLayer where
  window_size : ℕ
  blocks : List SwinTransformerBlock
  downsample : Option PatchMerging

/-- `BasicLayer.forward(x, H, W)` (demo.py:203-225): the attention mask is
built once from the padded resolution `Hp = ceil(H/ws)·ws` with shift
`ws / 2` and shared by every block of the stage; the blocks run in sequence;
the optional downsample yields the `( (H+1)/2, (W+1)/2 )` resolution.
Returns `(x_out, H, W, x_down, Wh, Ww)`. -/
def BasicLayer.forward (m : BasicLayer) (x : Tensor ℝ) (H W : ℕ) :
    Tensor ℝ × ℕ × ℕ × Tensor ℝ × ℕ × ℕ :=
  let Hp := (H + m.window_size - 1) / m.window_size * m.window_size
  let Wp := (W + m.window_size - 1) / m.window_size * m.window_size
  let attn_mask : Tensor ℝ := attention_mask ℝ Hp Wp m.window_size (m.window_size / 2)
  let x' := m.blocks.foldl (fun acc blk => blk.forward H W acc attn_mask) x
  match m.downsample with
  | some ds => (x', H, W, ds.forward x' H W, (H + 1) / 2, (W + 1) / 2)
  | none => (x', H, W, x', H, W)

/-- `SwinTransformer` (demo.py:251-314) with the configuration BEN uses:
`ape=False`, `patch_norm=True`, `out_indices=(0,1,2,3)` — every stage output
is normalized and returned, so each layer is paired with its `norm{i}`
parameters and its feature width `num_features[i]`. -/
structure SwinTransformer where
  patch_embed : PatchEmbed
  layers : List (BasicLayer × LayerNormW × ℕ)

/-- The stage loop of `SwinTransformer.forward` (demo.py:306-313): run each
layer, layer-norm its `x_out`, reshape `(B, H·W, C) → (B, C, H, W)`
(`view(-1, H, W, C).permute(0, 3, 1, 2)`), and collect the outputs. -/
def SwinTransformer.run : List (BasicLayer × LayerNormW × ℕ) → Tensor ℝ → ℕ → ℕ →
    List (Tensor ℝ)
  | [], _, _, _ => []
  | (layer, nrm, nf) :: rest, x, Wh, Ww =>
    match layer.forward x Wh Ww with
    | (x_out, H, W, x_down, Wh', Ww') =>
      let xn := layerNorm nf nrm x_out
      let out : Tensor ℝ :=
        ⟨[xn.shape.headD 0, nf, H, W], fun idx =>
          match idx with
          | [b, cc, i, j] => xn.data [b, i * W + j, cc]
          | _ => 0⟩
      out :: SwinTransformer.run rest x_down Wh' Ww'

/-- `SwinTransformer.forward(x)` (demo.py:297-314): patch embedding
(`ape=False`, `pos_drop` inactive), the embedding itself first in the output
list, tokens flattened (`flatten(2).transpose(1, 2)`), then the stage loop. -/
def SwinTransformer.forward (m : SwinTransformer) (x : Tensor ℝ) : List (Tensor ℝ) :=
  let xe := m.patch_embed.forward x
  let Wh := xe.shape.getD 2 0
  let Ww := xe.shape.getD 3 0
  let tokens : Tensor ℝ :=
    ⟨[xe.shape.headD 0, Wh * Ww, xe.shape.getD 1 0], fun idx =>
      match idx with
      | [b, t, cc] => xe.data [b, cc, t / Ww, t % Ww]
      | _ => 0⟩
  xe :: SwinTransformer.run m.layers tokens Wh Ww

/- ------------------------------------------------------------------ -/
/- Weight records and builders for the concrete BEN configuration.     -/
/- ------------------------------------------------------------------ -/

/-- Weights of one convolution. -/
structure ConvW where
  w : ℕ → ℕ → ℕ → ℕ → ℝ
  b : ℕ → ℝ

/-- Weights of one linear layer. -/
structure LinW where
  w : ℕ → ℕ → ℝ
  b : ℕ → ℝ

/-- Weights of one `nn.MultiheadAttention`. -/
structure MhaW where
  in_w : ℕ → ℕ → ℝ
  in_b : ℕ → ℝ
  out_w : ℕ → ℕ → ℝ
  out_b : ℕ → ℝ

/-- Weights of one Swin block. -/
structure BlockW where
  norm1 : LayerNormW
  attn_qkv_w : ℕ → ℕ → ℝ
  attn_qkv_b : ℕ → ℝ
  attn_proj_w : ℕ → ℕ → ℝ
  attn_proj_b : ℕ → ℝ
  attn_rpb : ℕ → ℕ → ℝ
  norm2 : LayerNormW
  fc1_w : ℕ → ℕ → ℝ
  fc1_b : ℕ → ℝ
  fc2_w : ℕ → ℕ → ℝ
  fc2_b : ℕ → ℝ

/-- Weights of the backbone: patch embedding, per-(stage, block) block
weights, per-stage patch-merging weights, per-stage output norms. -/
structure SwinW where
  patch : ConvW
  patch_norm : LayerNormW
  blocks : ℕ → ℕ → BlockW
  merge_norm : ℕ → LayerNormW
  merge_w : ℕ → ℕ → ℕ → ℝ
  out_norm : ℕ → LayerNormW

/-- Weights of one MCLM (five attentions, four linears, two norms). -/
structure MCLMW where
  att : ℕ → MhaW
  lin1 : LinW
  lin2 : LinW
  lin3 : LinW
  lin4 : LinW
  norm1 : LayerNormW
  norm2 : LayerNormW

/-- Weights of one MCRM (four attentions, two linears, two norms, the 1×1
saliency convolution). -/
structure MCRMW where
  att : ℕ → MhaW
  lin3 : LinW
  lin4 : LinW
  norm1 : LayerNormW
  norm2 : LayerNormW
  sal : ConvW

/-- All learned parameters of `BEN_Base.__init__` (demo.py:474-510). -/
structure BENW where
  swin : SwinW
  out5 : ConvW
  out4 : ConvW
  out3 : ConvW
  out2 : ConvW
  out1 : ConvW
  mclm : MCLMW
  cv1 : ConvW
  cv2 : ConvW
  cv3 : ConvW
  cv4 : ConvW
  dec1 : MCRMW
  dec2 : MCRMW
  dec3 : MCRMW
  dec4 : MCRMW
  ins1 : ConvW
  ins2 : ConvW
  ins3 : ConvW
  shallow : ConvW
  up1 : ConvW
  up2 : ConvW
  out_conv : ConvW

/-- A `SwinTransformerBlock` with given hyperparameters and weights
(`mlp_ratio = 4.0`, so the MLP hidden width is `dim·4`). -/
def mkBlock (dim num_heads window_size shift_size : ℕ) (w : BlockW) :
    SwinTransformerBlock :=
  { dim := dim, num_heads := num_heads, window_size := window_size
    shift_size := shift_size
    norm1 := w.norm1
    attn := { dim := dim, window_size := window_size, num_heads := num_heads
              qkv_w := w.attn_qkv_w, qkv_b := w.attn_qkv_b
              proj_w := w.attn_proj_w, proj_b := w.attn_proj_b
              rpb_table := w.attn_rpb }
    norm2 := w.norm2
    mlp := { in_features := dim, hidden_features := dim * 4
             fc1_w := w.fc1_w, fc1_b := w.fc1_b, fc2_w := w.fc2_w, fc2_b := w.fc2_b } }

/-- A `BasicLayer`: `depth` blocks alternating shift 0 / `ws / 2`
(demo.py:198-200). -/
def mkBasicLayer (dim depth num_heads window_size : ℕ) (bw : ℕ → BlockW)
    (ds : Option PatchMerging) : BasicLayer :=
  { window_size := window_size
    blocks := (List.range depth).map fun i =>
      mkBlock dim num_heads window_size (if i % 2 = 0 then 0 else window_size / 2) (bw i)
    downsample := ds }

/-- The BEN backbone: `SwinTransformer(embed_dim=128, depths=[2,2,18,2],
num_heads=[4,8,16,32], window_size=12)` with patch size 4 and patch merging
after stages 0-2 (demo.py:477, 251-280). -/
def mkSwinBEN (w : SwinW) : SwinTransformer :=
  { patch_embed :=
      { patch_size := 4, in_chans := 3, embed_dim := 128
        proj := { in_channels := 3, out_channels := 128, kernel := 4, stride := 4
                  padding := 0, weight := w.patch.w, bias := w.patch.b }
        norm := w.patch_norm }
    layers := [
      (mkBasicLayer 128 2 4 12 (w.blocks 0)
        (some { dim := 128, norm := w.merge_norm 0, reduction_w := w.merge_w 0 }),
       w.out_norm 0, 128),
      (mkBasicLayer 256 2 8 12 (w.blocks 1)
        (some { dim := 256, norm := w.merge_norm 1, reduction_w := w.merge_w 1 }),
       w.out_norm 1, 256),
      (mkBasicLayer 512 18 16 12 (w.blocks 2)
        (some { dim := 512, norm := w.merge_norm 2, reduction_w := w.merge_w 2 }),
       w.out_norm 2, 512),
      (mkBasicLayer 1024 2 32 12 (w.blocks 3) none, w.out_norm 3, 1024)] }

/-- An `nn.MultiheadAttention(128, 1)` from its weights (every attention in
the BEN decoder has `d_model = 128` and one head). -/
def mkMha1 (w : MhaW) : MultiheadAttention :=
  { embed_dim := 128, num_heads := 1, in_proj_weight := w.in_w
    in_proj_bias := w.in_b, out_proj_w := w.out_w, out_proj_b := w.out_b }

/-- `MCLM(128, 1, [1, 4, 8])` (demo.py:489). -/
def mkMCLM (w : MCLMW) : MCLM :=
  { d_model := 128, pool_ratios := [1, 4, 8]
    att0 := mkMha1 (w.att 0), att1 := mkMha1 (w.att 1), att2 := mkMha1 (w.att 2)
    att3 := mkMha1 (w.att 3), att4 := mkMha1 (w.att 4)
    linear1_w := w.lin1.w, linear1_b := w.lin1.b
    linear2_w := w.lin2.w, linear2_b := w.lin2.b
    linear3_w := w.lin3.w, linear3_b := w.lin3.b
    linear4_w := w.lin4.w, linear4_b := w.lin4.b
    norm1 := w.norm1, norm2 := w.norm2 }

/-- `MCRM(128, 1, [2, 4, 8])` (demo.py:494-497); `sal_conv` is a 1×1
convolution from 128 channels to 1. -/
def mkMCRM (w : MCRMW) : MCRM :=
  { d_model := 128, pool_ratios := [2, 4, 8]
    att0 := mkMha1 (w.att 0), att1 := mkMha1 (w.att 1)
    att2 := mkMha1 (w.att 2), att3 := mkMha1 (w.att 3)
    linear3_w := w.lin3.w, linear3_b := w.lin3.b
    linear4_w := w.lin4.w, linear4_b := w.lin4.b
    norm1 := w.norm1, norm2 := w.norm2
    sal_conv := { in_channels := 128, out_channels := 1, kernel := 1, stride := 1
                  padding := 0, weight := w.sal.w, bias := w.sal.b } }

/-- The modules of `BEN_Base` (demo.py:474-510); the unused `sideout*` heads
are omitted (they do not participate in `forward`). -/
structure BEN_Base where
  backbone : SwinTransformer
  output5 : CBR
  output4 : CBR
  output3 : CBR
  output2 : CBR
  output1 : CBR
  multifieldcrossatt : MCLM
  conv1 : CBR
  conv2 : CBR
  conv3 : CBR
  conv4 : CBR
  dec_blk1 : MCRM
  dec_blk2 : MCRM
  dec_blk3 : MCRM
  dec_blk4 : MCRM
  ins1 : Conv2d
  ins2 : Conv2d
  ins3 : Conv2d
  shallow : Conv2d
  upsample1 : CBR
  upsample2 : CBR
  output : Conv2d

/-- `BEN_Base` with the concrete channel configuration of demo.py:474-510. -/
def mkBEN (w : BENW) : BEN_Base :=
  { backbone := mkSwinBEN w.swin
    output5 := mkCBR 1024 128 w.out5.w w.out5.b
    output4 := mkCBR 512 128 w.out4.w w.out4.b
    output3 := mkCBR 256 128 w.out3.w w.out3.b
    output2 := mkCBR 128 128 w.out2.w w.out2.b
    output1 := mkCBR 128 128 w.out1.w w.out1.b
    multifieldcrossatt := mkMCLM w.mclm
    conv1 := mkCBR 128 128 w.cv1.w w.cv1.b
    conv2 := mkCBR 128 128 w.cv2.w w.cv2.b
    conv3 := mkCBR 128 128 w.cv3.w w.cv3.b
    conv4 := mkCBR 128 128 w.cv4.w w.cv4.b
    dec_blk1 := mkMCRM w.dec1
    dec_blk2 := mkMCRM w.dec2
    dec_blk3 := mkMCRM w.dec3
    dec_blk4 := mkMCRM w.dec4
    ins1 := { in_channels := 128, out_channels := 384, kernel := 3, stride := 1
              padding := 1, weight := w.ins1.w, bias := w.ins1.b }
    ins2 := { in_channels := 384, out_channels := 384, kernel := 3, stride := 1
              padding := 1, weight := w.ins2.w, bias := w.ins2.b }
    ins3 := { in_channels := 384, out_channels := 128, kernel := 3, stride := 1
              padding := 1, weight := w.ins3.w, bias := w.ins3.b }
    shallow := { in_channels := 3, out_channels := 128, kernel := 3, stride := 1
                 padding := 1, weight := w.shallow.w, bias := w.shallow.b }
    upsample1 := mkCBR 128 128 w.up1.w w.up1.b
    upsample2 := mkCBR 128 128 w.up2.w w.up2.b
    output := { in_channels := 128, out_channels := 1, kernel := 3, stride := 1
                padding := 1, weight := w.out_conv.w, bias := w.out_conv.b } }

/-- `self.insmask_head` (demo.py:498-506): conv, instance norm, GELU, conv,
instance norm, GELU, conv. -/
def insmask_head_forward (m : BEN_Base) (t : Tensor ℝ) : Tensor ℝ :=
  m.ins3.forward (tmap gelu (instance_norm2d
    (m.ins2.forward (tmap gelu (instance_norm2d (m.ins1.forward t))))))

/-- The per-image decoder of `BEN_Base.forward` (demo.py:533-565), up to but
not including the final sigmoid: slice the five-tile block `[5i, 5i+5)` of
each pyramid level, channel-align with `output5..1`, long-range fusion at the
coarsest level, then the four MCRM stages coarse-to-fine with resize-add and
a refinement convolution each, quadrant reassembly plus resized global add,
the `insmask_head`, shallow-skip add, two ×2 nearest upsample/refine/skip
stages, and the final single-channel convolution. -/
def BEN_decode_pre (m : BEN_Base) (features : List (Tensor ℝ))
    (shallow_batch : Tensor ℝ) (i : ℕ) : Tensor ℝ :=
  let tz : Tensor ℝ := ⟨[0], fun _ => 0⟩
  let f4 := slice0 (features.getD 4 tz) (i * 5) 5
  let f3 := slice0 (features.getD 3 tz) (i * 5) 5
  let f2 := slice0 (features.getD 2 tz) (i * 5) 5
  let f1 := slice0 (features.getD 1 tz) (i * 5) 5
  let f0 := slice0 (features.getD 0 tz) (i * 5) 5
  let e5 := m.output5.forward f4
  let e4 := m.output4.forward f3
  let e3 := m.output3.forward f2
  let e2 := m.output2.forward f1
  let e1 := m.output1.forward f0
  let loc_e5 := slice0 e5 0 4
  let glb_e5 := slice0 e5 4 1
  let e5f := m.multifieldcrossatt.forward loc_e5 glb_e5
  let e4f := m.conv4.forward (m.dec_blk4.forward (tadd e4 (resize_as e5f e4))).1
  let e3f := m.conv3.forward (m.dec_blk3.forward (tadd e3 (resize_as e4f e3))).1
  let e2f := m.conv2.forward (m.dec_blk2.forward (tadd e2 (resize_as e3f e2))).1
  let e1f := m.conv1.forward (m.dec_blk1.forward (tadd e1 (resize_as e2f e1))).1
  let loc_e1 := slice0 e1f 0 4
  let glb_e1 := slice0 e1f 4 1
  let oc0 := patches2image loc_e1
  let oc1 := tadd oc0 (resize_as glb_e1 oc0)
  let fo0 := insmask_head_forward m oc1
  let shallow_i := slice0 shallow_batch i 1
  let fo1 := tadd fo0 (resize_as shallow_i fo0)
  let fo2 := m.upsample1.forward (rescale_double_nearest fo1)
  let fo3 := rescale_double_nearest (tadd fo2 (resize_as shallow_i fo2))
  let fo4 := m.upsample2.forward fo3
  m.output.forward fo4

/-- One image's output mask (demo.py:566): the decoder output through the
elementwise sigmoid. -/
def BEN_decode (m : BEN_Base) (features : List (Tensor ℝ))
    (shallow_batch : Tensor ℝ) (i : ℕ) : Tensor ℝ :=
  tmap sigmoid (BEN_decode_pre m features shallow_batch i)

/-- `BEN_Base.forward(x)` (demo.py:515-568): per image, four full-resolution
quadrants (`image2patches`) followed by the half-resolution bilinear global
view, concatenated along the batch axis (the loop of demo.py:522-530 builds
`final_input` by repeated concatenation); one backbone call on the whole
`5·B` batch; per-image decoding; outputs concatenated along the batch. -/
def BEN_Base.forward (m : BEN_Base) (x : Tensor ℝ) : Tensor ℝ :=
  let real_batch := x.shape.headD 0
  let shallow_batch := m.shallow.forward x
  let glb_batch := rescale_half_bilinear x
  let final_input := cat0 ((List.range real_batch).map fun i =>
      cat0 [image2patches (slice0 x i 1), slice0 glb_batch i 1])
  let features := m.backbone.forward final_input
  cat0 ((List.range real_batch).map fun i => BEN_decode m features shallow_batch i)

/-- The five-tile input batch built by the loop of demo.py:522-530. -/
def BEN_final_input (x : Tensor ℝ) : Tensor ℝ :=
  cat0 ((List.range (x.shape.headD 0)).map fun i =>
    cat0 [image2patches (slice0 x i 1), slice0 (rescale_half_bilinear x) i 1])

/-- All-zero weight records for concrete witnesses. -/
def zeroConvW : ConvW := { w := fun _ _ _ _ => 0, b := fun _ => 0 }

def zeroLinW : LinW := { w := fun _ _ => 0, b := fun _ => 0 }

def zeroMhaW : MhaW :=
  { in_w := fun _ _ => 0, in_b := fun _ => 0, out_w := fun _ _ => 0, out_b := fun _ => 0 }

def zeroBlockW : BlockW :=
  { norm1 := zeroLayerNorm, attn_qkv_w := fun _ _ => 0, attn_qkv_b := fun _ => 0
    attn_proj_w := fun _ _ => 0, attn_proj_b := fun _ => 0, attn_rpb := fun _ _ => 0
    norm2 := zeroLayerNorm, fc1_w := fun _ _ => 0, fc1_b := fun _ => 0
    fc2_w := fun _ _ => 0, fc2_b := fun _ => 0 }

def zeroSwinW : SwinW :=
  { patch := zeroConvW, patch_norm := zeroLayerNorm, blocks := fun _ _ => zeroBlockW
    merge_norm := fun _ => zeroLayerNorm, merge_w := fun _ _ _ => 0
    out_norm := fun _ => zeroLayerNorm }

def zeroMCLMW : MCLMW :=
  { att := fun _ => zeroMhaW, lin1 := zeroLinW, lin2 := zeroLinW, lin3 := zeroLinW
    lin4 := zeroLinW, norm1 := zeroLayerNorm, norm2 := zeroLayerNorm }

def zeroMCRMW : MCRMW :=
  { att := fun _ => zeroMhaW, lin3 := zeroLinW, lin4 := zeroLinW
    norm1 := zeroLayerNorm, norm2 := zeroLayerNorm, sal := zeroConvW }

def zeroBENW : BENW :=
  { swin := zeroSwinW, out5 := zeroConvW, out4 := zeroConvW, out3 := zeroConvW
    out2 := zeroConvW, out1 := zeroConvW, mclm := zeroMCLMW, cv1 := zeroConvW
    cv2 := zeroConvW, cv3 := zeroConvW, cv4 := zeroConvW, dec1 := zeroMCRMW
    dec2 := zeroMCRMW, dec3 := zeroMCRMW, dec4 := zeroMCRMW, ins1 := zeroConvW
    ins2 := zeroConvW, ins3 := zeroConvW, shallow := zeroConvW, up1 := zeroConvW
    up2 := zeroConvW, out_conv := zeroConvW }

end BEN

end

namespace BEN

/- ------------------------------------------------------------------ -/
/- Arithmetic helper lemmas for the index computations.                -/
/- ------------------------------------------------------------------ -/

theorem mul_add_div_eq (a r n : ℕ) (hn : 0 < n) (hr : r < n) : (a * n + r) / n = a := by
  rw [mul_comm, Nat.mul_add_div hn, Nat.div_eq_of_lt hr, Nat.add_zero]

theorem mul_add_mod_eq (a r n : ℕ) (hr : r < n) : (a * n + r) % n = r := by
  rw [mul_comm, Nat.mul_add_mod, Nat.mod_eq_of_lt hr]

/-- C2, window round trip, data part: decoding the window-batch index built by
`window_reverse` recovers the original coordinates. -/
theorem window_decode (b hq wq nH nW : ℕ) (hh : hq < nH) (hw : wq < nW) :
    ((b * nH + hq) * nW + wq) / (nH * nW) = b ∧
    ((b * nH + hq) * nW + wq) / nW % nH = hq ∧
    ((b * nH + hq) * nW + wq) % nW = wq := by
  have hnW : 0 < nW := by omega
  have hnH : 0 < nH := by omega
  refine ⟨?_, ?_, ?_⟩
  · have h1 : (b * nH + hq) * nW + wq = b * (nH * nW) + (hq * nW + wq) := by ring
    have h2 : hq * nW + wq < nH * nW := by
      calc hq * nW + wq < hq * nW + nW := by omega
        _ = (hq + 1) * nW := by ring
        _ ≤ nH * nW := Nat.mul_le_mul_right _ (by omega)
    rw [h1, mul_add_div_eq _ _ _ (Nat.mul_pos hnH hnW) h2]
  · rw [mul_add_div_eq _ _ _ hnW hw, mul_add_mod_eq _ _ _ hh]
  · rw [mul_add_mod_eq _ _ _ hw]

end BEN

namespace BEN

/-- C2: for every tensor `x` of shape `(B, H, W, C)` with `H` and `W` positive
exact multiples of the window size `ws`,
`window_reverse (window_partition x ws) ws H W` equals `x`:
the partition/reverse pair is a round trip. -/
theorem C2_window_partition_reverse_roundtrip {α : Type} (x : Tensor α)
    (B H W C ws : ℕ) (hx : x.shape = [B, H, W, C]) (hws : 0 < ws)
    (hH : ws ∣ H) (hW : ws ∣ W) (hH0 : 0 < H) (hW0 : 0 < W) :
    Tensor.SEq (window_reverse (window_partition x ws) ws H W) x := by
  obtain ⟨sh, d⟩ := x
  simp only [Tensor.shape] at hx
  subst hx
  have hnH : 0 < H / ws := Nat.div_pos (Nat.le_of_dvd hH0 hH) hws
  have hnW : 0 < W / ws := Nat.div_pos (Nat.le_of_dvd hW0 hW) hws
  have hBrec : B * (H / ws) * (W / ws) / (H / ws * (W / ws)) = B := by
    rw [mul_assoc, Nat.mul_div_cancel _ (Nat.mul_pos hnH hnW)]
  constructor
  · simp only [window_partition, window_reverse, hBrec]
  · intro idx hvalid
    simp only [window_partition, window_reverse, hBrec] at hvalid ⊢
    -- a valid index for shape [B, H, W, C] is a 4-element list with bounds
    obtain ⟨b, rest, rfl, hb, hrest⟩ :
        ∃ b rest, idx = b :: rest ∧ b < B ∧ List.Forall₂ (fun i d => i < d) rest [H, W, C] := by
      cases hvalid with
      | cons hb h => exact ⟨_, _, rfl, hb, h⟩
    obtain ⟨h, rest2, rfl, hh, hrest2⟩ :
        ∃ h rest2, rest = h :: rest2 ∧ h < H ∧ List.Forall₂ (fun i d => i < d) rest2 [W, C] := by
      cases hrest with
      | cons hh h2 => exact ⟨_, _, rfl, hh, h2⟩
    obtain ⟨w, rest3, rfl, hw, hrest3⟩ :
        ∃ w rest3, rest2 = w :: rest3 ∧ w < W ∧ List.Forall₂ (fun i d => i < d) rest3 [C] := by
      cases hrest2 with
      | cons hw h3 => exact ⟨_, _, rfl, hw, h3⟩
    obtain ⟨c, rfl, hc⟩ : ∃ c, rest3 = [c] ∧ c < C := by
      cases hrest3 with
      | cons hc h4 => cases h4; exact ⟨_, rfl, hc⟩
    have hhq : h / ws < H / ws := Nat.div_lt_div_of_lt_of_dvd hH hh
    have hwq : w / ws < W / ws := Nat.div_lt_div_of_lt_of_dvd hW hw
    obtain ⟨e1, e2, e3⟩ := window_decode b (h / ws) (w / ws) (H / ws) (W / ws) hhq hwq
    simp only [e1, e2, e3, Nat.div_add_mod']

/-- Witness for C2 at a concrete input: a 1×4×4×1 tensor with window size 2. -/
theorem C2_witness :
    Tensor.SEq (window_reverse (window_partition (zerosR [1, 4, 4, 1]) 2) 2 4 4)
      (zerosR [1, 4, 4, 1]) :=
  C2_window_partition_reverse_roundtrip (zerosR [1, 4, 4, 1]) 1 4 4 1 2 rfl
    (by decide) (by decide) (by decide) (by decide) (by decide)

/-- C6: for every tensor `x` of shape `(B, C, H, W)` with `H` and `W` even,
`patches2image (image2patches x)` equals `x` exactly: the 2×2 quadrant split
and the quadrant reassembly are exact inverses. -/
theorem C6_quadrant_roundtrip {α : Type} (x : Tensor α) (B C H W : ℕ)
    (hx : x.shape = [B, C, H, W]) (hH : 2 ∣ H) (hW : 2 ∣ W) :
    Tensor.SEq (patches2image (image2patches x)) x := by
  obtain ⟨sh, d⟩ := x
  simp only [Tensor.shape] at hx
  subst hx
  have hBrec : 2 * 2 * B / (2 * 2) = B := by omega
  have hHrec : 2 * (H / 2) = H := Nat.mul_div_cancel' hH
  have hWrec : 2 * (W / 2) = W := Nat.mul_div_cancel' hW
  constructor
  · simp only [patches2image, image2patches, hBrec, hHrec, hWrec]
  · intro idx hvalid
    simp only [patches2image, image2patches, hBrec, hHrec, hWrec] at hvalid ⊢
    obtain ⟨b, rest, rfl, hb, hrest⟩ :
        ∃ b rest, idx = b :: rest ∧ b < B ∧ List.Forall₂ (fun i d => i < d) rest [C, H, W] := by
      cases hvalid with
      | cons hb h => exact ⟨_, _, rfl, hb, h⟩
    obtain ⟨c, rest2, rfl, hc, hrest2⟩ :
        ∃ c rest2, rest = c :: rest2 ∧ c < C ∧ List.Forall₂ (fun i d => i < d) rest2 [H, W] := by
      cases hrest with
      | cons hc h2 => exact ⟨_, _, rfl, hc, h2⟩
    obtain ⟨hh, rest3, rfl, hhh, hrest3⟩ :
        ∃ hh rest3, rest2 = hh :: rest3 ∧ hh < H ∧ List.Forall₂ (fun i d => i < d) rest3 [W] := by
      cases hrest2 with
      | cons hhh h3 => exact ⟨_, _, rfl, hhh, h3⟩
    obtain ⟨ww, rfl, hww⟩ : ∃ ww, rest3 = [ww] ∧ ww < W := by
      cases hrest3 with
      | cons hww h4 => cases h4; exact ⟨_, rfl, hww⟩
    have hB0 : 0 < B := by omega
    have hhg : hh / (H / 2) < 2 := by
      apply Nat.div_lt_of_lt_mul; omega
    have hwg : ww / (W / 2) < 2 := by
      apply Nat.div_lt_of_lt_mul; omega
    set hg := hh / (H / 2) with hhg_def
    set wg := ww / (W / 2) with hwg_def
    have e1 : ((hg * 2 + wg) * B + b) % B = b := mul_add_mod_eq _ _ _ hb
    have e2 : ((hg * 2 + wg) * B + b) / (2 * B) = hg := by
      have h1 : (hg * 2 + wg) * B + b = hg * (2 * B) + (wg * B + b) := by ring
      have h2 : wg * B + b < 2 * B := by
        calc wg * B + b < wg * B + B := by omega
          _ = (wg + 1) * B := by ring
          _ ≤ 2 * B := Nat.mul_le_mul_right _ (by omega)
      rw [h1, mul_add_div_eq _ _ _ (by omega) h2]
    have e3 : ((hg * 2 + wg) * B + b) / B % 2 = wg := by
      have h1 : (hg * 2 + wg) * B + b = (hg * 2 + wg) * B + b := rfl
      rw [mul_add_div_eq _ _ _ hB0 hb, mul_add_mod_eq _ _ _ hwg]
    simp only [e1, e2, e3, hhg_def, hwg_def, Nat.div_add_mod']

/-- Witness for C6 at a concrete input: a 1×1×4×4 tensor. -/
theorem C6_witness :
    Tensor.SEq (patches2image (image2patches (zerosR [1, 1, 4, 4])))
      (zerosR [1, 1, 4, 4]) :=
  C6_quadrant_roundtrip (zerosR [1, 1, 4, 4]) 1 1 4 4 rfl (by decide) (by decide)

/-- C7: the relative-position index table is a pure function of the window
size alone: for window size 2 it is the fixed 4×4 integer table
`[[4,3,1,0],[5,4,2,1],[7,6,4,3],[8,7,5,4]]`, and in general entry `[i][j]`
depends only on the 2D offset between intra-window positions `i` and `j`. -/
theorem C7_relative_position_index :
    relative_position_index_table 2 = [[4, 3, 1, 0], [5, 4, 2, 1], [7, 6, 4, 3], [8, 7, 5, 4]]
    ∧ ∀ ws i j i' j' : ℕ,
        ((coords_flatten ws i).1 : ℤ) - ((coords_flatten ws j).1 : ℤ)
          = ((coords_flatten ws i').1 : ℤ) - ((coords_flatten ws j').1 : ℤ) →
        ((coords_flatten ws i).2 : ℤ) - ((coords_flatten ws j).2 : ℤ)
          = ((coords_flatten ws i').2 : ℤ) - ((coords_flatten ws j').2 : ℤ) →
        relative_position_index ws i j = relative_position_index ws i' j' := by
  constructor
  · decide
  · intro ws i j i' j' h1 h2
    simp only [relative_position_index, h1, h2]

/-- Witness for C7: positions (0,4) and (4,8) at window size 3 share the
2D offset (−1,−1) and get the same index. -/
theorem C7_witness :
    relative_position_index 3 0 4 = relative_position_index 3 4 8 :=
  C7_relative_position_index.2 3 0 4 4 8 (by decide) (by decide)

/-- On the 14×14 grid with window size 7 and shift 3, the label the code's
slice loop writes agrees with the 3×3 region labeling at every position. -/
theorem img_mask_label_eq_region :
    ∀ h < 14, ∀ w < 14, img_mask_label 14 14 7 3 h w = spec_region_label 14 14 7 3 h w := by
  decide

/-- C3: for the 14×14 grid with window size 7 and shift size 3 (the shift
`BasicLayer` uses for window size 7), every entry of the attention mask is
0 or −100, an entry `(w, i, j)` is −100 exactly when the absolute positions
of `i` and `j` in window `w` carry different labels in the 3×3
shift-boundary region labeling, and 0 exactly when the labels agree. -/
theorem C3_attention_mask_14_7_3 :
    ∀ wdw < 4, ∀ i < 49, ∀ j < 49,
      ((attention_mask ℤ 14 14 7 3).data [wdw, i, j] = 0 ∨
        (attention_mask ℤ 14 14 7 3).data [wdw, i, j] = -100) ∧
      ((attention_mask ℤ 14 14 7 3).data [wdw, i, j] = -100 ↔
        spec_region_label 14 14 7 3 (window_abs_pos 2 7 wdw i).1 (window_abs_pos 2 7 wdw i).2 ≠
        spec_region_label 14 14 7 3 (window_abs_pos 2 7 wdw j).1 (window_abs_pos 2 7 wdw j).2) ∧
      ((attention_mask ℤ 14 14 7 3).data [wdw, i, j] = 0 ↔
        spec_region_label 14 14 7 3 (window_abs_pos 2 7 wdw i).1 (window_abs_pos 2 7 wdw i).2 =
        spec_region_label 14 14 7 3 (window_abs_pos 2 7 wdw j).1 (window_abs_pos 2 7 wdw j).2) := by
  decide

/-- Witness for C3 at a concrete entry: window 0, positions 0 and 48. -/
theorem C3_witness :
    ((attention_mask ℤ 14 14 7 3).data [0, 0, 48] = 0 ∨
      (attention_mask ℤ 14 14 7 3).data [0, 0, 48] = -100) ∧
    ((attention_mask ℤ 14 14 7 3).data [0, 0, 48] = -100 ↔
      spec_region_label 14 14 7 3 (window_abs_pos 2 7 0 0).1 (window_abs_pos 2 7 0 0).2 ≠
      spec_region_label 14 14 7 3 (window_abs_pos 2 7 0 48).1 (window_abs_pos 2 7 0 48).2) ∧
    ((attention_mask ℤ 14 14 7 3).data [0, 0, 48] = 0 ↔
      spec_region_label 14 14 7 3 (window_abs_pos 2 7 0 0).1 (window_abs_pos 2 7 0 0).2 =
      spec_region_label 14 14 7 3 (window_abs_pos 2 7 0 48).1 (window_abs_pos 2 7 0 48).2) :=
  C3_attention_mask_14_7_3 0 (by decide) 0 (by decide) 48 (by decide)

end BEN

namespace BEN

/- ------------------------------------------------------------------ -/
/- Shape lemmas for the tensor combinators.                            -/
/- ------------------------------------------------------------------ -/

theorem view_grid_shape {α : Type} (t : Tensor α) (B L C H W : ℕ)
    (h : t.shape = [B, L, C]) : (view_grid t H W).shape = [B, H, W, C] := by
  obtain ⟨sh, d⟩ := t
  simp only [Tensor.shape] at h
  subst h
  rfl

theorem pad_hw_shape {α : Type} [Zero α] (t : Tensor α) (B H W C pl pr pt pb : ℕ)
    (h : t.shape = [B, H, W, C]) :
    (pad_hw t pl pr pt pb).shape = [B, H + pt + pb, W + pl + pr, C] := by
  obtain ⟨sh, d⟩ := t
  simp only [Tensor.shape] at h
  subst h
  rfl

theorem roll_hw_shape {α : Type} (t : Tensor α) (B H W C : ℕ) (s1 s2 : ℤ)
    (h : t.shape = [B, H, W, C]) : (roll_hw t s1 s2).shape = [B, H, W, C] := by
  obtain ⟨sh, d⟩ := t
  simp only [Tensor.shape] at h
  subst h
  rfl

theorem window_partition_shape {α : Type} (t : Tensor α) (B H W C ws : ℕ)
    (h : t.shape = [B, H, W, C]) :
    (window_partition t ws).shape = [B * (H / ws) * (W / ws), ws, ws, C] := by
  obtain ⟨sh, d⟩ := t
  simp only [Tensor.shape] at h
  subst h
  rfl

theorem win_to_tokens_shape {α : Type} (t : Tensor α) (N a b C ws : ℕ)
    (h : t.shape = [N, a, b, C]) : (win_to_tokens t ws).shape = [N, ws * ws, C] := by
  obtain ⟨sh, d⟩ := t
  simp only [Tensor.shape] at h
  subst h
  rfl

theorem tokens_to_win_shape {α : Type} (t : Tensor α) (N L C ws : ℕ)
    (h : t.shape = [N, L, C]) : (tokens_to_win t ws).shape = [N, ws, ws, C] := by
  obtain ⟨sh, d⟩ := t
  simp only [Tensor.shape] at h
  subst h
  rfl

theorem window_reverse_shape {α : Type} (t : Tensor α) (N a b C ws H W : ℕ)
    (h : t.shape = [N, a, b, C]) :
    (window_reverse t ws H W).shape = [N / (H / ws * (W / ws)), H, W, C] := by
  obtain ⟨sh, d⟩ := t
  simp only [Tensor.shape] at h
  subst h
  rfl

theorem crop_hw_shape {α : Type} (t : Tensor α) (B H0 W0 C H W : ℕ)
    (h : t.shape = [B, H0, W0, C]) : (crop_hw t H W).shape = [B, H, W, C] := by
  obtain ⟨sh, d⟩ := t
  simp only [Tensor.shape] at h
  subst h
  rfl

theorem view_tokens_shape {α : Type} (t : Tensor α) (B H W C : ℕ)
    (h : t.shape = [B, H, W, C]) : (view_tokens t).shape = [B, H * W, C] := by
  obtain ⟨sh, d⟩ := t
  simp only [Tensor.shape] at h
  subst h
  rfl

/-- `WindowAttention.forward` preserves the `(B_, N, C)` input shape
(the final projection maps back to `C` channels). -/
theorem wattn_forward_shape (m : WindowAttention) (x : Tensor ℝ)
    (msk : Option (Tensor ℝ)) (B_ N C : ℕ) (h : x.shape = [B_, N, C]) :
    (m.forward x msk).shape = [B_, N, C] := by
  obtain ⟨sh, d⟩ := x
  simp only [Tensor.shape] at h
  subst h
  cases msk with
  | none => rfl
  | some mask_t => rfl

/-- Bottom/right padding makes the axis length an exact multiple of the
window size (the invariant of demo.py:141-144). -/
theorem pad_dvd (H ws : ℕ) (hws : 0 < ws) : ws ∣ H + (ws - H % ws) % ws := by
  rcases Nat.eq_zero_or_pos (H % ws) with h0 | hpos
  · have e : (ws - H % ws) % ws = 0 := by rw [h0, Nat.sub_zero, Nat.mod_self]
    rw [e, Nat.add_zero]
    exact Nat.dvd_of_mod_eq_zero h0
  · have hlt : H % ws < ws := Nat.mod_lt _ hws
    have e : (ws - H % ws) % ws = ws - H % ws := Nat.mod_eq_of_lt (by omega)
    rw [e]
    refine ⟨H / ws + 1, ?_⟩
    have h1 := Nat.div_add_mod H ws
    have h2 : ws * (H / ws + 1) = ws * (H / ws) + ws := by ring
    omega

end BEN

namespace BEN

/-- `SwinTransformerBlock.forward` and its attention branch preserve the
`(B, H·W, C)` token shape (shared helper: the padding added to reach
window-size multiples is cropped away before the residual add). -/
theorem swin_block_shape (m : SwinTransformerBlock) (B H W C : ℕ)
    (x mask_matrix : Tensor ℝ) (hx : x.shape = [B, H * W, C])
    (hH : 0 < H) (hW : 0 < W) (hws : 0 < m.window_size)
    (hshift : m.shift_size < m.window_size) :
    (m.forward H W x mask_matrix).shape = [B, H * W, C] ∧
    (m.attn_branch H W x mask_matrix).shape = [B, H * W, C] := by
  have hpdh := pad_dvd H m.window_size hws
  have hpdw := pad_dvd W m.window_size hws
  have hnH : 0 < (H + (m.window_size - H % m.window_size) % m.window_size) / m.window_size :=
    Nat.div_pos (Nat.le_of_dvd (by omega) hpdh) hws
  have hnW : 0 < (W + (m.window_size - W % m.window_size) % m.window_size) / m.window_size :=
    Nat.div_pos (Nat.le_of_dvd (by omega) hpdw) hws
  have hNw : B * ((H + (m.window_size - H % m.window_size) % m.window_size) / m.window_size)
      * ((W + (m.window_size - W % m.window_size) % m.window_size) / m.window_size)
      / ((H + (m.window_size - H % m.window_size) % m.window_size) / m.window_size
         * ((W + (m.window_size - W % m.window_size) % m.window_size) / m.window_size))
      = B := by
    rw [mul_assoc]
    have h0 := mul_add_div_eq B 0
      ((H + (m.window_size - H % m.window_size) % m.window_size) / m.window_size
        * ((W + (m.window_size - W % m.window_size) % m.window_size) / m.window_size))
      (Nat.mul_pos hnH hnW) (Nat.mul_pos hnH hnW)
    simpa using h0
  have h1 : (layerNorm m.dim m.norm1 x).shape = [B, H * W, C] := hx
  have h2 := view_grid_shape _ B (H * W) C H W h1
  have h3 : (pad_hw (view_grid (layerNorm m.dim m.norm1 x) H W) 0
      ((m.window_size - W % m.window_size) % m.window_size) 0
      ((m.window_size - H % m.window_size) % m.window_size)).shape
      = [B, H + (m.window_size - H % m.window_size) % m.window_size,
         W + (m.window_size - W % m.window_size) % m.window_size, C] := by
    simpa using pad_hw_shape _ B H W C 0
      ((m.window_size - W % m.window_size) % m.window_size) 0
      ((m.window_size - H % m.window_size) % m.window_size) h2
  have hbranch : (m.attn_branch H W x mask_matrix).shape = [B, H * W, C] := by
    by_cases hs : 0 < m.shift_size
    · have h4 := roll_hw_shape _ B _ _ C (-(m.shift_size : ℤ)) (-(m.shift_size : ℤ)) h3
      have h5 := window_partition_shape _ B _ _ C m.window_size h4
      have h6 := win_to_tokens_shape _ _ m.window_size m.window_size C m.window_size h5
      have h7 := wattn_forward_shape m.attn _ (some mask_matrix) _ _ C h6
      have h8 := tokens_to_win_shape _ _ _ C m.window_size h7
      have h9 := window_reverse_shape _ _ m.window_size m.window_size C m.window_size
        (H + (m.window_size - H % m.window_size) % m.window_size)
        (W + (m.window_size - W % m.window_size) % m.window_size) h8
      rw [hNw] at h9
      have h10 := roll_hw_shape _ B _ _ C (m.shift_size : ℤ) (m.shift_size : ℤ) h9
      have h11 := crop_hw_shape _ B _ _ C H W h10
      have h12 := view_tokens_shape _ B H W C h11
      simp only [SwinTransformerBlock.attn_branch, if_pos hs]
      exact h12
    · have h5 := window_partition_shape _ B _ _ C m.window_size h3
      have h6 := win_to_tokens_shape _ _ m.window_size m.window_size C m.window_size h5
      have h7 := wattn_forward_shape m.attn _ none _ _ C h6
      have h8 := tokens_to_win_shape _ _ _ C m.window_size h7
      have h9 := window_reverse_shape _ _ m.window_size m.window_size C m.window_size
        (H + (m.window_size - H % m.window_size) % m.window_size)
        (W + (m.window_size - W % m.window_size) % m.window_size) h8
      rw [hNw] at h9
      have h11 := crop_hw_shape _ B _ _ C H W h9
      have h12 := view_tokens_shape _ B H W C h11
      simp only [SwinTransformerBlock.attn_branch, if_neg hs]
      exact h12
  exact ⟨hx, hbranch⟩

/-- C4: `SwinTransformerBlock.forward` on an input of shape `(B, H·W, C)`
returns a tensor of the same shape, for every positive `H`, `W` (including
non-multiples of the window size) and every shift size in `[0, ws)`; and the
windowed-attention branch itself — pad, shift, attend, unshift, crop —
already has shape `(B, H·W, C)` before the residual add. -/
theorem C4_swin_block_shape (m : SwinTransformerBlock) (B H W C : ℕ)
    (x mask_matrix : Tensor ℝ) (hx : x.shape = [B, H * W, C])
    (hH : 0 < H) (hW : 0 < W) (hws : 0 < m.window_size)
    (hshift : m.shift_size < m.window_size) :
    (m.forward H W x mask_matrix).shape = [B, H * W, C] ∧
    (m.attn_branch H W x mask_matrix).shape = [B, H * W, C] :=
  swin_block_shape m B H W C x mask_matrix hx hH hW hws hshift

end BEN

namespace BEN

/-- Witness for C4: a 1×(2·2)×1 input through the concrete block with
window size 3 and shift 1 keeps its shape. -/
theorem C4_witness :
    (zeroSwinBlock.forward 2 2 (zerosR [1, 2 * 2, 1]) (zerosR [1, 9, 9])).shape
      = [1, 2 * 2, 1] ∧
    (zeroSwinBlock.attn_branch 2 2 (zerosR [1, 2 * 2, 1]) (zerosR [1, 9, 9])).shape
      = [1, 2 * 2, 1] :=
  C4_swin_block_shape zeroSwinBlock 1 2 2 1 (zerosR [1, 2 * 2, 1]) (zerosR [1, 9, 9])
    rfl (by decide) (by decide) (by decide) (by decide)

/-- `PatchMerging.forward` maps a `(B, H·W, C)` input to shape
`(B, ceil(H/2)·ceil(W/2), 2·C)` (shared helper). -/
theorem patch_merging_shape (m : PatchMerging) (B H W C : ℕ) (x : Tensor ℝ)
    (hx : x.shape = [B, H * W, C]) :
    (m.forward x H W).shape = [B, (H + 1) / 2 * ((W + 1) / 2), 2 * C] := by
  obtain ⟨sh, d⟩ := x
  simp only [Tensor.shape] at hx
  subst hx
  have e1 : (H + H % 2) / 2 = (H + 1) / 2 := by omega
  have e2 : (W + W % 2) / 2 = (W + 1) / 2 := by omega
  have h : (m.forward (⟨[B, H * W, C], d⟩ : Tensor ℝ) H W).shape
      = [B, (H + H % 2) / 2 * ((W + W % 2) / 2), 2 * C] := rfl
  rw [h, e1, e2]

/-- C5: `PatchMerging.forward` on a `(B, H·W, C)` input returns shape
`(B, ceil(H/2)·ceil(W/2), 2·C)` — odd `H` or `W` is first padded to even,
the four 2×2-offset sub-grids are concatenated to `4·C` channels, and the
bias-free linear projection maps to `2·C`. -/
theorem C5_patch_merging_shape (m : PatchMerging) (B H W C : ℕ) (x : Tensor ℝ)
    (hx : x.shape = [B, H * W, C]) :
    (m.forward x H W).shape = [B, (H + 1) / 2 * ((W + 1) / 2), 2 * C] :=
  patch_merging_shape m B H W C x hx

/-- Witness for C5 at the claim's instance: input `(1, 64, 16)` with
`H = W = 8` yields shape `(1, 16, 32)`. -/
theorem C5_witness :
    (zeroPatchMerging.forward (zerosR [1, 64, 16]) 8 8).shape = [1, 16, 32] := by
  have h := C5_patch_merging_shape zeroPatchMerging 1 8 8 16 (zerosR [1, 64, 16]) rfl
  simpa using h

end BEN

namespace BEN

/- ------------------------------------------------------------------ -/
/- Helpers for C9 and C10.                                             -/
/- ------------------------------------------------------------------ -/

theorem mem_allIdx_iff (shape idx : List ℕ) : idx ∈ allIdx shape ↔ ValidIdx shape idx := by
  induction shape generalizing idx with
  | nil =>
    simp only [allIdx, List.mem_singleton, ValidIdx, List.forall₂_nil_right_iff]
  | cons dd ds ih =>
    simp only [allIdx, List.mem_flatMap, List.mem_map, List.mem_range, ValidIdx]
    constructor
    · rintro ⟨i, hi, rest, hrest, rfl⟩
      exact List.Forall₂.cons hi ((ih rest).1 hrest)
    · intro h
      cases h with
      | cons h1 h2 => exact ⟨_, h1, _, (ih _).mpr h2, rfl⟩

theorem le_tmax_of_mem (t : Tensor ℚ) (v : ℚ) (h : v ∈ tvals t) : v ≤ tmax t := by
  unfold tmax
  cases hm : (tvals t).maximum with
  | bot =>
    have h' := List.le_maximum_of_mem' h
    rw [hm] at h'
    exact absurd h' (by simp)
  | coe m =>
    have h2 := List.le_maximum_of_mem h hm
    simpa using h2

theorem tmin_le_of_mem (t : Tensor ℚ) (v : ℚ) (h : v ∈ tvals t) : tmin t ≤ v := by
  unfold tmin
  cases hm : (tvals t).minimum with
  | top =>
    have h' := List.minimum_le_of_mem' h
    rw [hm] at h'
    exact absurd h' (by simp)
  | coe m =>
    have h2 := List.minimum_le_of_mem h hm
    simpa using h2

theorem postprocess_resized_shape (result : Tensor ℚ) (H W outH outW : ℕ)
    (hres : result.shape = [1, 1, H, W]) :
    (postprocess_resized result outH outW).shape = [1, outH, outW] := by
  obtain ⟨sh, d⟩ := result
  simp only [Tensor.shape] at hres
  subst hres
  rfl

end BEN

namespace BEN

/-- C9 counterexample: a `WindowAttention` with 5 channels and 2 heads (5 not
divisible by 2) constructs successfully — `__init__` performs no divisibility
check — and its forward then fails at runtime on a well-formed `(1, 4, 5)`
input, at the `qkv` reshape; this contradicts the claim that the error is
raised at construction time and that forward never fails. -/
theorem C9_counterexample :
    isOkE (WindowAttention.construct 5 2 2 (fun _ _ => 0) (fun _ => 0)
      (fun _ _ => 0) (fun _ => 0) (fun _ _ => 0)) = true
    ∧ isOkE (WindowAttention.forwardChecked (zeroWindowAttention 5 2 2)
        (zerosR [1, 4, 5]) none) = false :=
  ⟨rfl, rfl⟩

/-- C9 amended: `WindowAttention` construction never fails (no divisibility
check exists); a channel count not divisible by the head count instead makes
`WindowAttention.forward` fail at runtime (for any nonempty input) at the
`qkv` reshape; a shift size outside `[0, window_size)` is rejected at
`SwinTransformerBlock` construction by the assert, and accepted otherwise. -/
theorem C9_amended_construction_checks :
    (∀ (dim ws heads : ℕ) (qw : ℕ → ℕ → ℝ) (qb : ℕ → ℝ) (pw : ℕ → ℕ → ℝ)
        (pb : ℕ → ℝ) (rt : ℕ → ℕ → ℝ),
      isOkE (WindowAttention.construct dim ws heads qw qb pw pb rt) = true)
    ∧ (∀ (m : WindowAttention) (x : Tensor ℝ) (msk : Option (Tensor ℝ)) (B_ N C : ℕ),
        x.shape = [B_, N, C] → 0 < B_ → 0 < N → ¬ m.num_heads ∣ C →
        isOkE (m.forwardChecked x msk) = false)
    ∧ (∀ (dim heads ws shift : ℕ) (n1 : LayerNormW) (a2 : WindowAttention)
        (n2 : LayerNormW) (ml : Mlp), ws ≤ shift →
        isOkE (SwinTransformerBlock.construct dim heads ws shift n1 a2 n2 ml) = false)
    ∧ (∀ (dim heads ws shift : ℕ) (n1 : LayerNormW) (a2 : WindowAttention)
        (n2 : LayerNormW) (ml : Mlp), shift < ws →
        isOkE (SwinTransformerBlock.construct dim heads ws shift n1 a2 n2 ml) = true) := by
  refine ⟨fun _ _ _ _ _ _ _ _ => rfl, ?_, ?_, ?_⟩
  · intro m x msk B_ N C hx hB hN hdvd
    obtain ⟨sh, d⟩ := x
    simp only [Tensor.shape] at hx
    subst hx
    have h1 : m.num_heads * (C / m.num_heads) ≠ C := by
      intro he
      exact hdvd ⟨C / m.num_heads, he.symm⟩
    have hne : ¬ B_ * N * (3 * C) = B_ * N * 3 * m.num_heads * (C / m.num_heads) := by
      intro he
      apply h1
      have e1 : B_ * N * (3 * C) = B_ * N * 3 * C := by ring
      have e2 : B_ * N * 3 * m.num_heads * (C / m.num_heads)
          = B_ * N * 3 * (m.num_heads * (C / m.num_heads)) := by ring
      rw [e1, e2] at he
      exact (Nat.eq_of_mul_eq_mul_left
        (Nat.mul_pos (Nat.mul_pos hB hN) (by omega)) he).symm
    simp only [WindowAttention.forwardChecked, if_neg hne]
    rfl
  · intro dim heads ws shift n1 a2 n2 ml h
    have hneg : ¬ shift < ws := by omega
    simp only [SwinTransformerBlock.construct, if_neg hneg]
    rfl
  · intro dim heads ws shift n1 a2 n2 ml h
    simp only [SwinTransformerBlock.construct, if_pos h]
    rfl

/-- Witness for the amended C9 at concrete instances: 7 channels with 3 heads
fails in forward, shift 5 with window 3 is rejected at construction, shift 1
with window 3 is accepted. -/
theorem C9_witness :
    isOkE (WindowAttention.forwardChecked (zeroWindowAttention 7 2 3)
      (zerosR [2, 4, 7]) none) = false
    ∧ isOkE (SwinTransformerBlock.construct 1 1 3 5 zeroLayerNorm
        (zeroWindowAttention 1 3 1) zeroLayerNorm (zeroMlp 1 4)) = false
    ∧ isOkE (SwinTransformerBlock.construct 1 1 3 1 zeroLayerNorm
        (zeroWindowAttention 1 3 1) zeroLayerNorm (zeroMlp 1 4)) = true :=
  ⟨C9_amended_construction_checks.2.1 (zeroWindowAttention 7 2 3) (zerosR [2, 4, 7])
      none 2 4 7 rfl (by decide) (by decide) (by decide),
   C9_amended_construction_checks.2.2.1 1 1 3 5 zeroLayerNorm
      (zeroWindowAttention 1 3 1) zeroLayerNorm (zeroMlp 1 4) (by decide),
   C9_amended_construction_checks.2.2.2 1 1 3 1 zeroLayerNorm
      (zeroWindowAttention 1 3 1) zeroLayerNorm (zeroMlp 1 4) (by decide)⟩

end BEN

namespace BEN

/-- C10: `postprocess_image` min-max normalizes the resized mask dividing by
`(max - min)` with no guard.  When the resized tensor's maximum strictly
exceeds its minimum, every output byte lies in `[0, 255]`, a position holding
the minimum maps to 0 and one holding the maximum maps to 255.  When the
resized tensor is constant the divisor `max - min` is exactly zero (in real
float arithmetic a 0/0 NaN before the `uint8` cast). -/
theorem C10_postprocess_minmax (result : Tensor ℚ) (H W outH outW : ℕ)
    (hres : result.shape = [1, 1, H, W]) :
    ((tmin (postprocess_resized result outH outW)
        < tmax (postprocess_resized result outH outW)) →
      (∀ idx, ValidIdx (postprocess_image result outH outW).shape idx →
          0 ≤ (postprocess_image result outH outW).data idx ∧
          (postprocess_image result outH outW).data idx ≤ 255)
      ∧ (∀ i j, i < outH → j < outW →
          (postprocess_resized result outH outW).data [0, i, j]
            = tmin (postprocess_resized result outH outW) →
          (postprocess_image result outH outW).data [i, j] = 0)
      ∧ (∀ i j, i < outH → j < outW →
          (postprocess_resized result outH outW).data [0, i, j]
            = tmax (postprocess_resized result outH outW) →
          (postprocess_image result outH outW).data [i, j] = 255))
    ∧ (∀ c : ℚ, (∀ idx, ValidIdx (postprocess_resized result outH outW).shape idx →
          (postprocess_resized result outH outW).data idx = c) →
        0 < outH → 0 < outW →
        tmax (postprocess_resized result outH outW)
          - tmin (postprocess_resized result outH outW) = 0) := by
  have hsq := postprocess_resized_shape result H W outH outW hres
  have hdata : ∀ i j : ℕ, (postprocess_image result outH outW).data [i, j]
      = ⌊((postprocess_resized result outH outW).data [0, i, j]
            - tmin (postprocess_resized result outH outW))
          / (tmax (postprocess_resized result outH outW)
              - tmin (postprocess_resized result outH outW)) * 255⌋ := fun i j => rfl
  have hshape0 : (postprocess_image result outH outW).shape
      = [(postprocess_resized result outH outW).shape.getD 1 0,
         (postprocess_resized result outH outW).shape.getD 2 0] := rfl
  have hshape : (postprocess_image result outH outW).shape = [outH, outW] := by
    rw [hshape0, hsq]
    rfl
  have hmem : ∀ i j : ℕ, i < outH → j < outW →
      (postprocess_resized result outH outW).data [0, i, j]
        ∈ tvals (postprocess_resized result outH outW) := by
    intro i j hi hj
    apply List.mem_map_of_mem
    apply (mem_allIdx_iff _ _).2
    rw [hsq]
    exact List.Forall₂.cons (by omega)
      (List.Forall₂.cons hi (List.Forall₂.cons hj List.Forall₂.nil))
  constructor
  · intro hlt
    refine ⟨?_, ?_, ?_⟩
    · intro idx hv
      rw [hshape] at hv
      obtain ⟨i, rest, rfl, hi, hrest⟩ :
          ∃ i rest, idx = i :: rest ∧ i < outH ∧
            List.Forall₂ (fun a b => a < b) rest [outW] := by
        cases hv with
        | cons h1 h2 => exact ⟨_, _, rfl, h1, h2⟩
      obtain ⟨j, rfl, hj⟩ : ∃ j, rest = [j] ∧ j < outW := by
        cases hrest with
        | cons h1 h2 => cases h2; exact ⟨_, rfl, h1⟩
      have hvmem := hmem i j hi hj
      have hlo := tmin_le_of_mem _ _ hvmem
      have hhi := le_tmax_of_mem _ _ hvmem
      rw [hdata]
      constructor
      · apply Int.floor_nonneg.2
        apply mul_nonneg _ (by norm_num)
        apply div_nonneg (by linarith) (by linarith)
      · have hq : ((postprocess_resized result outH outW).data [0, i, j]
              - tmin (postprocess_resized result outH outW))
            / (tmax (postprocess_resized result outH outW)
                - tmin (postprocess_resized result outH outW)) ≤ 1 := by
          rw [div_le_one (by linarith)]
          linarith
        have h255 : ((postprocess_resized result outH outW).data [0, i, j]
              - tmin (postprocess_resized result outH outW))
            / (tmax (postprocess_resized result outH outW)
                - tmin (postprocess_resized result outH outW)) * 255 ≤ 255 := by
          nlinarith [div_nonneg (show (0:ℚ) ≤ (postprocess_resized result outH outW).data [0, i, j] - tmin (postprocess_resized result outH outW) by linarith) (show (0:ℚ) ≤ tmax (postprocess_resized result outH outW) - tmin (postprocess_resized result outH outW) by linarith)]
        calc ⌊((postprocess_resized result outH outW).data [0, i, j]
                - tmin (postprocess_resized result outH outW))
              / (tmax (postprocess_resized result outH outW)
                  - tmin (postprocess_resized result outH outW)) * 255⌋
            ≤ ⌊(255 : ℚ)⌋ := Int.floor_le_floor h255
          _ = 255 := by norm_num
    · intro i j hi hj he
      rw [hdata, he]
      simp
    · intro i j hi hj he
      rw [hdata, he]
      rw [div_self (by
        have := sub_pos.2 hlt
        exact ne_of_gt this)]
      norm_num
  · intro c hc hoH hoW
    have hz : [0, 0, 0] ∈ allIdx (postprocess_resized result outH outW).shape := by
      apply (mem_allIdx_iff _ _).2
      rw [hsq]
      exact List.Forall₂.cons (by omega)
        (List.Forall₂.cons hoH (List.Forall₂.cons hoW List.Forall₂.nil))
    have hmem0 : (postprocess_resized result outH outW).data [0, 0, 0]
        ∈ tvals (postprocess_resized result outH outW) := List.mem_map_of_mem _ hz
    have hall : ∀ v ∈ tvals (postprocess_resized result outH outW), v = c := by
      intro v hv
      obtain ⟨idx, hidx, rfl⟩ := List.mem_map.1 hv
      exact hc idx ((mem_allIdx_iff _ _).1 hidx)
    have hmax : tmax (postprocess_resized result outH outW) = c := by
      unfold tmax
      cases hm : (tvals (postprocess_resized result outH outW)).maximum with
      | bot =>
        exfalso
        have h' := List.le_maximum_of_mem' hmem0
        rw [hm] at h'
        simp at h'
      | coe m =>
        have hmm : m ∈ tvals (postprocess_resized result outH outW) :=
          List.maximum_mem hm
        simpa using hall m hmm
    have hmin : tmin (postprocess_resized result outH outW) = c := by
      unfold tmin
      cases hm : (tvals (postprocess_resized result outH outW)).minimum with
      | top =>
        exfalso
        have h' := List.minimum_le_of_mem' hmem0
        rw [hm] at h'
        simp at h'
      | coe m =>
        have hmm : m ∈ tvals (postprocess_resized result outH outW) :=
          List.minimum_mem hm
        simpa using hall m hmm
    rw [hmax, hmin, sub_self]

/-- Witness for C10 at a concrete constant input: a `(1,1,1,1)` all-zero
tensor resized to 1×1 has divisor `max - min = 0`. -/
theorem C10_witness :
    tmax (postprocess_resized (zerosQ [1, 1, 1, 1]) 1 1)
      - tmin (postprocess_resized (zerosQ [1, 1, 1, 1]) 1 1) = 0 := by
  apply (C10_postprocess_minmax (zerosQ [1, 1, 1, 1]) 1 1 1 1 rfl).2 0 _
    (by decide) (by decide)
  intro idx hv
  have hsq := postprocess_resized_shape (zerosQ [1, 1, 1, 1]) 1 1 1 1 rfl
  rw [hsq] at hv
  obtain ⟨a, rest, rfl, ha, hrest⟩ :
      ∃ a rest, idx = a :: rest ∧ a < 1 ∧
        List.Forall₂ (fun x y => x < y) rest [1, 1] := by
    cases hv with
    | cons h1 h2 => exact ⟨_, _, rfl, h1, h2⟩
  obtain ⟨b, rest2, rfl, hb, hrest2⟩ :
      ∃ b rest2, rest = b :: rest2 ∧ b < 1 ∧
        List.Forall₂ (fun x y => x < y) rest2 [1] := by
    cases hrest with
    | cons h1 h2 => exact ⟨_, _, rfl, h1, h2⟩
  obtain ⟨cc, rfl, hcc⟩ : ∃ cc, rest2 = [cc] ∧ cc < 1 := by
    cases hrest2 with
    | cons h1 h2 => cases h2; exact ⟨_, rfl, h1⟩
  interval_cases a
  interval_cases b
  interval_cases cc
  show (postprocess_resized (zerosQ [1, 1, 1, 1]) 1 1).data [0, 0, 0] = 0
  simp only [postprocess_resized, squeeze0, bilinear_resize, zerosQ]
  norm_num

end BEN

namespace BEN

/- ------------------------------------------------------------------ -/
/- Shape lemmas for the backbone and decoder operators (C1).           -/
/- ------------------------------------------------------------------ -/

/-- `slice0` keeps the trailing dimensions and sets the batch to `len`. -/
theorem slice0_shape {α : Type} (t : Tensor α) (s len hd : ℕ) (tl : List ℕ)
    (h : t.shape = hd :: tl) : (slice0 t s len).shape = len :: tl := by
  simp [slice0, h]

/-- The sum of a constant map. -/
theorem sum_map_const {α : Type} (l : List α) (f : α → ℕ) (n : ℕ)
    (h : ∀ a ∈ l, f a = n) : (l.map f).sum = n * l.length := by
  induction l with
  | nil => simp
  | cons a l ih =>
      have ha := h a (List.mem_cons_self a l)
      have ih2 := ih fun b hb => h b (List.mem_cons_of_mem a hb)
      simp only [List.map_cons, List.sum_cons, List.length_cons, ha, ih2]
      ring

/-- `torch.cat(dim=0)` of a nonempty list of equally shaped blocks. -/
theorem cat0_shape_const {α : Type} [Zero α] (ts : List (Tensor α)) (n : ℕ)
    (tl : List ℕ) (hne : ts ≠ []) (h : ∀ t ∈ ts, t.shape = n :: tl) :
    (cat0 ts).shape = n * ts.length :: tl := by
  match ts, hne with
  | t :: ts, _ =>
    have hsum : ((t :: ts).map fun u => u.shape.headD 0).sum = n * (t :: ts).length :=
      sum_map_const _ _ n fun a ha => by rw [h a ha]; rfl
    show ((t :: ts).map fun u => u.shape.headD 0).sum
        :: ((t :: ts).headD ⟨[], fun _ => 0⟩).shape.tail = _
    rw [hsum, List.headD_cons, h t (List.mem_cons_self t ts), List.tail_cons]

/-- `torch.cat(dim=0)` of two blocks sharing trailing dimensions. -/
theorem cat0_pair_shape {α : Type} [Zero α] (a b : Tensor α) (n m : ℕ) (tl : List ℕ)
    (ha : a.shape = n :: tl) (hb : b.shape = m :: tl) :
    (cat0 [a, b]).shape = (n + m) :: tl := by
  simp [cat0, ha, hb]

theorem image2patches_shape {α : Type} (t : Tensor α) (B C H W : ℕ)
    (h : t.shape = [B, C, H, W]) :
    (image2patches t).shape = [2 * 2 * B, C, H / 2, W / 2] := by
  obtain ⟨sh, d⟩ := t
  simp only [Tensor.shape] at h
  subst h
  rfl

theorem patches2image_shape {α : Type} (t : Tensor α) (N C h w : ℕ)
    (hs : t.shape = [N, C, h, w]) :
    (patches2image t).shape = [N / (2 * 2), C, 2 * h, 2 * w] := by
  obtain ⟨sh, d⟩ := t
  simp only [Tensor.shape] at hs
  subst hs
  rfl

theorem bilinear_resize_shape {α : Type} [LinearOrderedField α] [FloorRing α]
    (t : Tensor α) (B C H W outH outW : ℕ) (h : t.shape = [B, C, H, W]) :
    (bilinear_resize t outH outW).shape = [B, C, outH, outW] := by
  obtain ⟨sh, d⟩ := t
  simp only [Tensor.shape] at h
  subst h
  rfl

theorem nearest_resize_shape {α : Type} (t : Tensor α) (B C H W outH outW : ℕ)
    (h : t.shape = [B, C, H, W]) :
    (nearest_resize t outH outW).shape = [B, C, outH, outW] := by
  obtain ⟨sh, d⟩ := t
  simp only [Tensor.shape] at h
  subst h
  rfl

theorem rescale_half_bilinear_shape (t : Tensor ℝ) (B C H W : ℕ)
    (h : t.shape = [B, C, H, W]) :
    (rescale_half_bilinear t).shape = [B, C, H / 2, W / 2] := by
  obtain ⟨sh, d⟩ := t
  simp only [Tensor.shape] at h
  subst h
  rfl

theorem rescale_double_nearest_shape (t : Tensor ℝ) (B C H W : ℕ)
    (h : t.shape = [B, C, H, W]) :
    (rescale_double_nearest t).shape = [B, C, 2 * H, 2 * W] := by
  obtain ⟨sh, d⟩ := t
  simp only [Tensor.shape] at h
  subst h
  rfl

theorem conv2d_forward_shape (m : Conv2d) (t : Tensor ℝ) (B C H W : ℕ)
    (h : t.shape = [B, C, H, W]) :
    (m.forward t).shape
      = [B, m.out_channels, (H + 2 * m.padding - m.kernel) / m.stride + 1,
         (W + 2 * m.padding - m.kernel) / m.stride + 1] := by
  obtain ⟨sh, d⟩ := t
  simp only [Tensor.shape] at h
  subst h
  rfl

theorem instance_norm2d_shape (t : Tensor ℝ) (B C H W : ℕ)
    (h : t.shape = [B, C, H, W]) :
    (instance_norm2d t).shape = [B, C, H, W] := by
  obtain ⟨sh, d⟩ := t
  simp only [Tensor.shape] at h
  subst h
  rfl

theorem pad_chw_shape {α : Type} [Zero α] (t : Tensor α) (B C H W pl pr pt pb : ℕ)
    (h : t.shape = [B, C, H, W]) :
    (pad_chw t pl pr pt pb).shape = [B, C, H + pt + pb, W + pl + pr] := by
  obtain ⟨sh, d⟩ := t
  simp only [Tensor.shape] at h
  subst h
  rfl

/-- A `make_cbr` block keeps the batch/channel grid of its 3×3 `padding=1`
convolution: instance norm and GELU are shape-preserving. -/
theorem cbr_forward_shape (m : CBR) (t : Tensor ℝ) (B C H W : ℕ)
    (h : t.shape = [B, C, H, W]) :
    (m.forward t).shape
      = [B, m.conv.out_channels,
         (H + 2 * m.conv.padding - m.conv.kernel) / m.conv.stride + 1,
         (W + 2 * m.conv.padding - m.conv.kernel) / m.conv.stride + 1] := by
  have h1 := conv2d_forward_shape m.conv t B C H W h
  exact instance_norm2d_shape _ _ _ _ _ h1

/-- `PatchEmbed.forward`: pad to patch-size multiples, strided convolution,
norm; the output grid is the convolution's output grid. -/
theorem patch_embed_forward_shape (m : PatchEmbed) (x : Tensor ℝ) (B C H W : ℕ)
    (h : x.shape = [B, C, H, W]) :
    (m.forward x).shape
      = [B, m.embed_dim,
         (H + 0 + (m.patch_size - H % m.patch_size) % m.patch_size
            + 2 * m.proj.padding - m.proj.kernel) / m.proj.stride + 1,
         (W + 0 + (m.patch_size - W % m.patch_size) % m.patch_size
            + 2 * m.proj.padding - m.proj.kernel) / m.proj.stride + 1] := by
  obtain ⟨sh, d⟩ := x
  simp only [Tensor.shape] at h
  subst h
  rfl

/-- `MCLM.forward` returns the local and refreshed-global streams stacked on
the batch axis: `b + gB` tiles at the local resolution. -/
theorem mclm_forward_shape (m : MCLM) (l g : Tensor ℝ) (b bg c h w : ℕ)
    (hl : l.shape = [b, c, h, w]) (hg : g.shape.headD 0 = bg) :
    (m.forward l g).shape = [b + bg, c, h, w] := by
  obtain ⟨sh, dl⟩ := l
  simp only [Tensor.shape] at hl
  subst hl
  subst hg
  rfl

/-- `MCRM.forward` returns the four refreshed quadrants and the updated
global stacked back into a five-tile batch of the input resolution. -/
theorem mcrm_forward_fst_shape (m : MCRM) (x : Tensor ℝ) (b c h w : ℕ)
    (hx : x.shape = [b, c, h, w]) :
    (m.forward x).1.shape = [5, c, h, w] := by
  obtain ⟨sh, d⟩ := x
  simp only [Tensor.shape] at hx
  subst hx
  show [4 + (1 + 0), c, h, w] = [5, c, h, w]
  norm_num

/-- The logistic sigmoid takes values in `[0, 1]`. -/
theorem sigmoid_mem (x : ℝ) : 0 ≤ sigmoid x ∧ sigmoid x ≤ 1 := by
  unfold sigmoid
  have hp := Real.exp_pos (-x)
  constructor
  · positivity
  · rw [div_le_one (by linarith)]
    linarith

/-- Entries of a `torch.cat(dim=0)` stay in `[0, 1]` when every block's
entries do (out-of-range reads give the padding value `0`). -/
theorem cat0_go_bounds (ts : List (Tensor ℝ)) :
    (∀ t ∈ ts, ∀ idx, 0 ≤ t.data idx ∧ t.data idx ≤ 1) →
    ∀ (b : ℕ) (rest : List ℕ), 0 ≤ cat0.go ts b rest ∧ cat0.go ts b rest ≤ 1 := by
  induction ts with
  | nil => intro _ b rest; simp [cat0.go]
  | cons t ts ih =>
      intro h b rest
      simp only [cat0.go]
      split
      · exact h t (List.mem_cons_self t ts) _
      · exact ih (fun u hu => h u (List.mem_cons_of_mem t hu)) _ _

/-- A stage's block sequence preserves the token shape (demo.py:219-221). -/
theorem blocks_foldl_shape (blocks : List SwinTransformerBlock) (M : Tensor ℝ)
    (B H W C : ℕ) (hH : 0 < H) (hW : 0 < W) :
    ∀ x : Tensor ℝ, x.shape = [B, H * W, C] →
    (∀ blk ∈ blocks, 0 < blk.window_size ∧ blk.shift_size < blk.window_size) →
    (blocks.foldl (fun acc blk => blk.forward H W acc M) x).shape = [B, H * W, C] := by
  induction blocks with
  | nil =>
      intro x hx _
      simpa using hx
  | cons blk rest ih =>
      intro x hx hb
      simp only [List.foldl_cons]
      exact ih _
        ((swin_block_shape blk B H W C x M hx hH hW
          (hb blk (List.mem_cons_self blk rest)).1
          (hb blk (List.mem_cons_self blk rest)).2).1)
        fun b hm => hb b (List.mem_cons_of_mem blk hm)

/-- Every block built by `mkBasicLayer` has a positive window size and a
shift size (`0` or `ws / 2`) strictly below it. -/
theorem mkBasicLayer_blocks_cond (dim depth nh ws : ℕ) (hws : 0 < ws)
    (bw : ℕ → BlockW) (ds : Option PatchMerging) :
    ∀ blk ∈ (mkBasicLayer dim depth nh ws bw ds).blocks,
      0 < blk.window_size ∧ blk.shift_size < blk.window_size := by
  intro blk hm
  simp only [mkBasicLayer, List.mem_map] at hm
  obtain ⟨i, _, rfl⟩ := hm
  constructor
  · exact hws
  · show (if i % 2 = 0 then 0 else ws / 2) < ws
    split
    · exact hws
    · exact Nat.div_lt_self hws (by norm_num)

/-- `BasicLayer.forward` with a downsample module, as an explicit tuple. -/
theorem basic_layer_forward_eq_some (m : BasicLayer) (ds : PatchMerging)
    (hds : m.downsample = some ds) (x : Tensor ℝ) (H W : ℕ) :
    m.forward x H W =
      (m.blocks.foldl (fun acc blk => blk.forward H W acc
          (attention_mask ℝ ((H + m.window_size - 1) / m.window_size * m.window_size)
            ((W + m.window_size - 1) / m.window_size * m.window_size)
            m.window_size (m.window_size / 2))) x,
       H, W,
       ds.forward (m.blocks.foldl (fun acc blk => blk.forward H W acc
          (attention_mask ℝ ((H + m.window_size - 1) / m.window_size * m.window_size)
            ((W + m.window_size - 1) / m.window_size * m.window_size)
            m.window_size (m.window_size / 2))) x) H W,
       (H + 1) / 2, (W + 1) / 2) := by
  simp only [BasicLayer.forward, hds]

/-- `BasicLayer.forward` without a downsample module, as an explicit tuple. -/
theorem basic_layer_forward_eq_none (m : BasicLayer)
    (hds : m.downsample = none) (x : Tensor ℝ) (H W : ℕ) :
    m.forward x H W =
      (m.blocks.foldl (fun acc blk => blk.forward H W acc
          (attention_mask ℝ ((H + m.window_size - 1) / m.window_size * m.window_size)
            ((W + m.window_size - 1) / m.window_size * m.window_size)
            m.window_size (m.window_size / 2))) x,
       H, W,
       m.blocks.foldl (fun acc blk => blk.forward H W acc
          (attention_mask ℝ ((H + m.window_size - 1) / m.window_size * m.window_size)
            ((W + m.window_size - 1) / m.window_size * m.window_size)
            m.window_size (m.window_size / 2))) x,
       H, W) := by
  simp only [BasicLayer.forward, hds]

/-- One downsampling stage of the `SwinTransformer` loop: the head output is
the stage's normalized `(B, nf, Wh, Ww)` grid and the recursion continues on
the patch-merged tokens at the halved resolution. -/
theorem run_stage_some (layer : BasicLayer) (ds : PatchMerging) (nrm : LayerNormW)
    (nf : ℕ) (rest : List (BasicLayer × LayerNormW × ℕ)) (x : Tensor ℝ)
    (Wh Ww B C : ℕ) (hx : x.shape = [B, Wh * Ww, C]) (hWh : 0 < Wh) (hWw : 0 < Ww)
    (hds : layer.downsample = some ds)
    (hb : ∀ blk ∈ layer.blocks, 0 < blk.window_size ∧ blk.shift_size < blk.window_size) :
    ∃ out xd,
      SwinTransformer.run ((layer, nrm, nf) :: rest) x Wh Ww
        = out :: SwinTransformer.run rest xd ((Wh + 1) / 2) ((Ww + 1) / 2)
      ∧ out.shape = [B, nf, Wh, Ww]
      ∧ xd.shape = [B, (Wh + 1) / 2 * ((Ww + 1) / 2), 2 * C] := by
  obtain ⟨F, hF, hFs⟩ : ∃ F : Tensor ℝ,
      (layer.blocks.foldl (fun acc blk => blk.forward Wh Ww acc
        (attention_mask ℝ
          ((Wh + layer.window_size - 1) / layer.window_size * layer.window_size)
          ((Ww + layer.window_size - 1) / layer.window_size * layer.window_size)
          layer.window_size (layer.window_size / 2))) x) = F
        ∧ F.shape = [B, Wh * Ww, C] :=
    ⟨_, rfl, blocks_foldl_shape layer.blocks _ B Wh Ww C hWh hWw x hx hb⟩
  have hfw := basic_layer_forward_eq_some layer ds hds x Wh Ww
  rw [hF] at hfw
  refine ⟨⟨[(layerNorm nf nrm F).shape.headD 0, nf, Wh, Ww], fun idx =>
      match idx with
      | [b, cc, i, j] => (layerNorm nf nrm F).data [b, i * Ww + j, cc]
      | _ => 0⟩, ds.forward F Wh Ww, ?_, ?_, ?_⟩
  · simp only [SwinTransformer.run, hfw]
  · show [(layerNorm nf nrm F).shape.headD 0, nf, Wh, Ww] = [B, nf, Wh, Ww]
    have h2 : (layerNorm nf nrm F).shape = [B, Wh * Ww, C] := hFs
    rw [h2]
    rfl
  · exact patch_merging_shape ds B Wh Ww C F hFs

/-- The final (no-downsample) stage of the `SwinTransformer` loop. -/
theorem run_stage_none (layer : BasicLayer) (nrm : LayerNormW) (nf : ℕ)
    (x : Tensor ℝ) (Wh Ww B C : ℕ) (hx : x.shape = [B, Wh * Ww, C])
    (hWh : 0 < Wh) (hWw : 0 < Ww) (hds : layer.downsample = none)
    (hb : ∀ blk ∈ layer.blocks, 0 < blk.window_size ∧ blk.shift_size < blk.window_size) :
    ∃ out, SwinTransformer.run [(layer, nrm, nf)] x Wh Ww = [out]
      ∧ out.shape = [B, nf, Wh, Ww] := by
  obtain ⟨F, hF, hFs⟩ : ∃ F : Tensor ℝ,
      (layer.blocks.foldl (fun acc blk => blk.forward Wh Ww acc
        (attention_mask ℝ
          ((Wh + layer.window_size - 1) / layer.window_size * layer.window_size)
          ((Ww + layer.window_size - 1) / layer.window_size * layer.window_size)
          layer.window_size (layer.window_size / 2))) x) = F
        ∧ F.shape = [B, Wh * Ww, C] :=
    ⟨_, rfl, blocks_foldl_shape layer.blocks _ B Wh Ww C hWh hWw x hx hb⟩
  have hfw := basic_layer_forward_eq_none layer hds x Wh Ww
  rw [hF] at hfw
  refine ⟨⟨[(layerNorm nf nrm F).shape.headD 0, nf, Wh, Ww], fun idx =>
      match idx with
      | [b, cc, i, j] => (layerNorm nf nrm F).data [b, i * Ww + j, cc]
      | _ => 0⟩, ?_, ?_⟩
  · simp only [SwinTransformer.run, hfw]
  · show [(layerNorm nf nrm F).shape.headD 0, nf, Wh, Ww] = [B, nf, Wh, Ww]
    have h2 : (layerNorm nf nrm F).shape = [B, Wh * Ww, C] := hFs
    rw [h2]
    rfl

/-- `SwinTransformer.forward` as the embedding followed by the stage loop on
the flattened tokens. -/
theorem swin_forward_eq (m : SwinTransformer) (x : Tensor ℝ) :
    m.forward x = m.patch_embed.forward x ::
      SwinTransformer.run m.layers
        ⟨[(m.patch_embed.forward x).shape.headD 0,
          (m.patch_embed.forward x).shape.getD 2 0
            * (m.patch_embed.forward x).shape.getD 3 0,
          (m.patch_embed.forward x).shape.getD 1 0],
         fun idx =>
           match idx with
           | [b, t, cc] => (m.patch_embed.forward x).data
               [b, cc, t / (m.patch_embed.forward x).shape.getD 3 0,
                t % (m.patch_embed.forward x).shape.getD 3 0]
           | _ => 0⟩
        ((m.patch_embed.forward x).shape.getD 2 0)
        ((m.patch_embed.forward x).shape.getD 3 0) := rfl

/-- The backbone feature pyramid of BEN on an `(n, 3, 512, 512)` tile batch
(demo.py:297-314 with the demo.py:477 configuration `embed_dim=128`,
`depths=[2,2,18,2]`, `window_size=12`, patch size 4): the patch embedding
plus four stage outputs, at strides 4, 4, 8, 16, 32 with widths 128, 128,
256, 512, 1024. -/
theorem mkSwinBEN_feature_shapes (w : SwinW) (x : Tensor ℝ) (n : ℕ)
    (hx : x.shape = [n, 3, 512, 512]) :
    ∃ f0 f1 f2 f3 f4, (mkSwinBEN w).forward x = [f0, f1, f2, f3, f4]
      ∧ f0.shape = [n, 128, 128, 128] ∧ f1.shape = [n, 128, 128, 128]
      ∧ f2.shape = [n, 256, 64, 64] ∧ f3.shape = [n, 512, 32, 32]
      ∧ f4.shape = [n, 1024, 16, 16] := by
  have hxe : ((mkSwinBEN w).patch_embed.forward x).shape = [n, 128, 128, 128] := by
    rw [patch_embed_forward_shape (mkSwinBEN w).patch_embed x n 3 512 512 hx]
    norm_num [mkSwinBEN]
  have hhd : ((mkSwinBEN w).patch_embed.forward x).shape.headD 0 = n := by
    rw [hxe]
    rfl
  have hg1 : ((mkSwinBEN w).patch_embed.forward x).shape.getD 1 0 = 128 := by
    rw [hxe]
    rfl
  have hg2 : ((mkSwinBEN w).patch_embed.forward x).shape.getD 2 0 = 128 := by
    rw [hxe]
    rfl
  have hg3 : ((mkSwinBEN w).patch_embed.forward x).shape.getD 3 0 = 128 := by
    rw [hxe]
    rfl
  have hlay : (mkSwinBEN w).layers = [
      (mkBasicLayer 128 2 4 12 (w.blocks 0)
        (some { dim := 128, norm := w.merge_norm 0, reduction_w := w.merge_w 0 }),
       w.out_norm 0, 128),
      (mkBasicLayer 256 2 8 12 (w.blocks 1)
        (some { dim := 256, norm := w.merge_norm 1, reduction_w := w.merge_w 1 }),
       w.out_norm 1, 256),
      (mkBasicLayer 512 18 16 12 (w.blocks 2)
        (some { dim := 512, norm := w.merge_norm 2, reduction_w := w.merge_w 2 }),
       w.out_norm 2, 512),
      (mkBasicLayer 1024 2 32 12 (w.blocks 3) none, w.out_norm 3, 1024)] := rfl
  rw [swin_forward_eq, hhd, hg1, hg2, hg3, hlay]
  obtain ⟨out0, xd0, he0, ho0, hd0⟩ :=
    run_stage_some
      (mkBasicLayer 128 2 4 12 (w.blocks 0)
        (some { dim := 128, norm := w.merge_norm 0, reduction_w := w.merge_w 0 }))
      { dim := 128, norm := w.merge_norm 0, reduction_w := w.merge_w 0 }
      (w.out_norm 0) 128
      [(mkBasicLayer 256 2 8 12 (w.blocks 1)
          (some { dim := 256, norm := w.merge_norm 1, reduction_w := w.merge_w 1 }),
        w.out_norm 1, 256),
       (mkBasicLayer 512 18 16 12 (w.blocks 2)
          (some { dim := 512, norm := w.merge_norm 2, reduction_w := w.merge_w 2 }),
        w.out_norm 2, 512),
       (mkBasicLayer 1024 2 32 12 (w.blocks 3) none, w.out_norm 3, 1024)]
      (⟨[n, 128 * 128, 128], fun idx =>
        match idx with
        | [b, t, cc] => ((mkSwinBEN w).patch_embed.forward x).data [b, cc, t / 128, t % 128]
        | _ => 0⟩ : Tensor ℝ)
      128 128 n 128 rfl (by norm_num) (by norm_num) rfl
      (mkBasicLayer_blocks_cond 128 2 4 12 (by norm_num) (w.blocks 0) _)
  rw [he0, show (128 + 1) / 2 = 64 from by norm_num]
  have hd0' : xd0.shape = [n, 64 * 64, 256] := by
    rw [hd0]
  obtain ⟨out1, xd1, he1, ho1, hd1⟩ :=
    run_stage_some
      (mkBasicLayer 256 2 8 12 (w.blocks 1)
        (some { dim := 256, norm := w.merge_norm 1, reduction_w := w.merge_w 1 }))
      { dim := 256, norm := w.merge_norm 1, reduction_w := w.merge_w 1 }
      (w.out_norm 1) 256
      [(mkBasicLayer 512 18 16 12 (w.blocks 2)
          (some { dim := 512, norm := w.merge_norm 2, reduction_w := w.merge_w 2 }),
        w.out_norm 2, 512),
       (mkBasicLayer 1024 2 32 12 (w.blocks 3) none, w.out_norm 3, 1024)]
      xd0 64 64 n 256 hd0' (by norm_num) (by norm_num) rfl
      (mkBasicLayer_blocks_cond 256 2 8 12 (by norm_num) (w.blocks 1) _)
  rw [he1, show (64 + 1) / 2 = 32 from by norm_num]
  have hd1' : xd1.shape = [n, 32 * 32, 512] := by
    rw [hd1]
  obtain ⟨out2, xd2, he2, ho2, hd2⟩ :=
    run_stage_some
      (mkBasicLayer 512 18 16 12 (w.blocks 2)
        (some { dim := 512, norm := w.merge_norm 2, reduction_w := w.merge_w 2 }))
      { dim := 512, norm := w.merge_norm 2, reduction_w := w.merge_w 2 }
      (w.out_norm 2) 512
      [(mkBasicLayer 1024 2 32 12 (w.blocks 3) none, w.out_norm 3, 1024)]
      xd1 32 32 n 512 hd1' (by norm_num) (by norm_num) rfl
      (mkBasicLayer_blocks_cond 512 18 16 12 (by norm_num) (w.blocks 2) _)
  rw [he2, show (32 + 1) / 2 = 16 from by norm_num]
  have hd2' : xd2.shape = [n, 16 * 16, 1024] := by
    rw [hd2]
  obtain ⟨out3, he3, ho3⟩ :=
    run_stage_none (mkBasicLayer 1024 2 32 12 (w.blocks 3) none)
      (w.out_norm 3) 1024 xd2 16 16 n 1024 hd2' (by norm_num) (by norm_num) rfl
      (mkBasicLayer_blocks_cond 1024 2 32 12 (by norm_num) (w.blocks 3) _)
  rw [he3]
  exact ⟨_, _, _, _, _, rfl, hxe, ho0, ho1, ho2, ho3⟩

/-- The per-image decoder of demo.py:533-566 (without the final sigmoid it
is `BEN_decode_pre`; `BEN_decode` adds the sigmoid, which is
shape-preserving): the five-tile feature pyramid is channel-aligned to 128,
fused coarse-to-fine, reassembled, refined and upsampled to a single-channel
`1024×1024` mask. -/
theorem mkBEN_decode_shape (w : BENW) (f0 f1 f2 f3 f4 sb : Tensor ℝ) (i B' : ℕ)
    (h0 : f0.shape = [B', 128, 128, 128]) (h1 : f1.shape = [B', 128, 128, 128])
    (h2 : f2.shape = [B', 256, 64, 64]) (h3 : f3.shape = [B', 512, 32, 32])
    (h4 : f4.shape = [B', 1024, 16, 16]) :
    (BEN_decode (mkBEN w) [f0, f1, f2, f3, f4] sb i).shape = [1, 1, 1024, 1024] := by
  have a4 : (slice0 f4 (i * 5) 5).shape = [5, 1024, 16, 16] :=
    slice0_shape f4 (i * 5) 5 B' [1024, 16, 16] h4
  let e5 : Tensor ℝ := (mkBEN w).output5.forward (slice0 f4 (i * 5) 5)
  have b5 : e5.shape = [5, 128, 16, 16] :=
    (cbr_forward_shape (mkBEN w).output5 (slice0 f4 (i * 5) 5) 5 1024 16 16 a4).trans
      (by norm_num [mkBEN, mkCBR])
  have a5l : (slice0 e5 0 4).shape = [4, 128, 16, 16] :=
    slice0_shape e5 0 4 5 [128, 16, 16] b5
  have hglbhd : (slice0 e5 4 1).shape.headD 0 = 1 := by
    rw [slice0_shape e5 4 1 5 [128, 16, 16] b5]
    rfl
  let e5f : Tensor ℝ :=
    (mkBEN w).multifieldcrossatt.forward (slice0 e5 0 4) (slice0 e5 4 1)
  have c5 : e5f.shape = [5, 128, 16, 16] :=
    (mclm_forward_shape (mkBEN w).multifieldcrossatt (slice0 e5 0 4) (slice0 e5 4 1)
      4 1 128 16 16 a5l hglbhd).trans (by norm_num)
  -- stage 4 (32×32)
  have a3 : (slice0 f3 (i * 5) 5).shape = [5, 512, 32, 32] :=
    slice0_shape f3 (i * 5) 5 B' [512, 32, 32] h3
  let e4 : Tensor ℝ := (mkBEN w).output4.forward (slice0 f3 (i * 5) 5)
  have b4 : e4.shape = [5, 128, 32, 32] :=
    (cbr_forward_shape (mkBEN w).output4 (slice0 f3 (i * 5) 5) 5 512 32 32 a3).trans
      (by norm_num [mkBEN, mkCBR])
  let t4 : Tensor ℝ := tadd e4 (resize_as e5f e4)
  have bt4 : t4.shape = [5, 128, 32, 32] := b4
  let d4 : Tensor ℝ := ((mkBEN w).dec_blk4.forward t4).1
  have m4 : d4.shape = [5, 128, 32, 32] :=
    mcrm_forward_fst_shape (mkBEN w).dec_blk4 t4 5 128 32 32 bt4
  let e4f : Tensor ℝ := (mkBEN w).conv4.forward d4
  have c4 : e4f.shape = [5, 128, 32, 32] :=
    (cbr_forward_shape (mkBEN w).conv4 d4 5 128 32 32 m4).trans
      (by norm_num [mkBEN, mkCBR])
  -- stage 3 (64×64)
  have a2 : (slice0 f2 (i * 5) 5).shape = [5, 256, 64, 64] :=
    slice0_shape f2 (i * 5) 5 B' [256, 64, 64] h2
  let e3 : Tensor ℝ := (mkBEN w).output3.forward (slice0 f2 (i * 5) 5)
  have b3 : e3.shape = [5, 128, 64, 64] :=
    (cbr_forward_shape (mkBEN w).output3 (slice0 f2 (i * 5) 5) 5 256 64 64 a2).trans
      (by norm_num [mkBEN, mkCBR])
  let t3 : Tensor ℝ := tadd e3 (resize_as e4f e3)
  have bt3 : t3.shape = [5, 128, 64, 64] := b3
  let d3 : Tensor ℝ := ((mkBEN w).dec_blk3.forward t3).1
  have m3 : d3.shape = [5, 128, 64, 64] :=
    mcrm_forward_fst_shape (mkBEN w).dec_blk3 t3 5 128 64 64 bt3
  let e3f : Tensor ℝ := (mkBEN w).conv3.forward d3
  have c3 : e3f.shape = [5, 128, 64, 64] :=
    (cbr_forward_shape (mkBEN w).conv3 d3 5 128 64 64 m3).trans
      (by norm_num [mkBEN, mkCBR])
  -- stage 2 (128×128)
  have a1 : (slice0 f1 (i * 5) 5).shape = [5, 128, 128, 128] :=
    slice0_shape f1 (i * 5) 5 B' [128, 128, 128] h1
  let e2 : Tensor ℝ := (mkBEN w).output2.forward (slice0 f1 (i * 5) 5)
  have b2 : e2.shape = [5, 128, 128, 128] :=
    (cbr_forward_shape (mkBEN w).output2 (slice0 f1 (i * 5) 5) 5 128 128 128 a1).trans
      (by norm_num [mkBEN, mkCBR])
  let t2 : Tensor ℝ := tadd e2 (resize_as e3f e2)
  have bt2 : t2.shape = [5, 128, 128, 128] := b2
  let d2 : Tensor ℝ := ((mkBEN w).dec_blk2.forward t2).1
  have m2 : d2.shape = [5, 128, 128, 128] :=
    mcrm_forward_fst_shape (mkBEN w).dec_blk2 t2 5 128 128 128 bt2
  let e2f : Tensor ℝ := (mkBEN w).conv2.forward d2
  have c2 : e2f.shape = [5, 128, 128, 128] :=
    (cbr_forward_shape (mkBEN w).conv2 d2 5 128 128 128 m2).trans
      (by norm_num [mkBEN, mkCBR])
  -- stage 1 (128×128)
  have a0 : (slice0 f0 (i * 5) 5).shape = [5, 128, 128, 128] :=
    slice0_shape f0 (i * 5) 5 B' [128, 128, 128] h0
  let e1 : Tensor ℝ := (mkBEN w).output1.forward (slice0 f0 (i * 5) 5)
  have b1 : e1.shape = [5, 128, 128, 128] :=
    (cbr_forward_shape (mkBEN w).output1 (slice0 f0 (i * 5) 5) 5 128 128 128 a0).trans
      (by norm_num [mkBEN, mkCBR])
  let t1 : Tensor ℝ := tadd e1 (resize_as e2f e1)
  have bt1 : t1.shape = [5, 128, 128, 128] := b1
  let d1 : Tensor ℝ := ((mkBEN w).dec_blk1.forward t1).1
  have m1 : d1.shape = [5, 128, 128, 128] :=
    mcrm_forward_fst_shape (mkBEN w).dec_blk1 t1 5 128 128 128 bt1
  let e1f : Tensor ℝ := (mkBEN w).conv1.forward d1
  have c1 : e1f.shape = [5, 128, 128, 128] :=
    (cbr_forward_shape (mkBEN w).conv1 d1 5 128 128 128 m1).trans
      (by norm_num [mkBEN, mkCBR])
  -- reassembly and refinement
  have bl1 : (slice0 e1f 0 4).shape = [4, 128, 128, 128] :=
    slice0_shape e1f 0 4 5 [128, 128, 128] c1
  let oc0 : Tensor ℝ := patches2image (slice0 e1f 0 4)
  have boc0 : oc0.shape = [1, 128, 256, 256] :=
    (patches2image_shape (slice0 e1f 0 4) 4 128 128 128 bl1).trans (by norm_num)
  let oc1 : Tensor ℝ := tadd oc0 (resize_as (slice0 e1f 4 1) oc0)
  have boc1 : oc1.shape = [1, 128, 256, 256] := boc0
  let j1 : Tensor ℝ := (mkBEN w).ins1.forward oc1
  have bj1 : j1.shape = [1, 384, 256, 256] :=
    (conv2d_forward_shape (mkBEN w).ins1 oc1 1 128 256 256 boc1).trans
      (by norm_num [mkBEN])
  have bj1n : (tmap gelu (instance_norm2d j1)).shape = [1, 384, 256, 256] :=
    instance_norm2d_shape j1 1 384 256 256 bj1
  let j2 : Tensor ℝ := (mkBEN w).ins2.forward (tmap gelu (instance_norm2d j1))
  have bj2 : j2.shape = [1, 384, 256, 256] :=
    (conv2d_forward_shape (mkBEN w).ins2 (tmap gelu (instance_norm2d j1))
      1 384 256 256 bj1n).trans (by norm_num [mkBEN])
  have bj2n : (tmap gelu (instance_norm2d j2)).shape = [1, 384, 256, 256] :=
    instance_norm2d_shape j2 1 384 256 256 bj2
  let fo0 : Tensor ℝ := (mkBEN w).ins3.forward (tmap gelu (instance_norm2d j2))
  have bfo0 : fo0.shape = [1, 128, 256, 256] :=
    (conv2d_forward_shape (mkBEN w).ins3 (tmap gelu (instance_norm2d j2))
      1 384 256 256 bj2n).trans (by norm_num [mkBEN])
  let fo1 : Tensor ℝ := tadd fo0 (resize_as (slice0 sb i 1) fo0)
  have bfo1 : fo1.shape = [1, 128, 256, 256] := bfo0
  have br1 : (rescale_double_nearest fo1).shape = [1, 128, 512, 512] :=
    (rescale_double_nearest_shape fo1 1 128 256 256 bfo1).trans (by norm_num)
  let fo2 : Tensor ℝ := (mkBEN w).upsample1.forward (rescale_double_nearest fo1)
  have bfo2 : fo2.shape = [1, 128, 512, 512] :=
    (cbr_forward_shape (mkBEN w).upsample1 (rescale_double_nearest fo1)
      1 128 512 512 br1).trans (by norm_num [mkBEN, mkCBR])
  have bt5 : (tadd fo2 (resize_as (slice0 sb i 1) fo2)).shape = [1, 128, 512, 512] := bfo2
  let fo3 : Tensor ℝ := rescale_double_nearest (tadd fo2 (resize_as (slice0 sb i 1) fo2))
  have bfo3 : fo3.shape = [1, 128, 1024, 1024] :=
    (rescale_double_nearest_shape (tadd fo2 (resize_as (slice0 sb i 1) fo2))
      1 128 512 512 bt5).trans (by norm_num)
  let fo4 : Tensor ℝ := (mkBEN w).upsample2.forward fo3
  have bfo4 : fo4.shape = [1, 128, 1024, 1024] :=
    (cbr_forward_shape (mkBEN w).upsample2 fo3 1 128 1024 1024 bfo3).trans
      (by norm_num [mkBEN, mkCBR])
  have bout : ((mkBEN w).output.forward fo4).shape = [1, 1, 1024, 1024] :=
    (conv2d_forward_shape (mkBEN w).output fo4 1 128 1024 1024 bfo4).trans
      (by norm_num [mkBEN])
  exact bout

end BEN

namespace BEN

/-- C1: `BEN_Base.forward` on a `(B, 3, 1024, 1024)` input (demo.py:515-568,
with `B ≥ 1` so the tile loop of demo.py:522-530 defines `final_input`)
returns a `(B, 1, 1024, 1024)` tensor, and every in-range entry lies in
`[0, 1]` — the final layer is the single-channel `self.output` convolution
followed by `torch.sigmoid` (demo.py:565-566). -/
theorem C1_forward_shape_and_range (w : BENW) (x : Tensor ℝ) (B : ℕ)
    (hB : 0 < B) (hx : x.shape = [B, 3, 1024, 1024]) :
    ((mkBEN w).forward x).shape = [B, 1, 1024, 1024] ∧
    ∀ idx, ValidIdx ((mkBEN w).forward x).shape idx →
      0 ≤ ((mkBEN w).forward x).data idx ∧ ((mkBEN w).forward x).data idx ≤ 1 := by
  obtain ⟨sh, dx⟩ := x
  simp only [Tensor.shape] at hx
  subst hx
  let xx : Tensor ℝ := ⟨[B, 3, 1024, 1024], dx⟩
  let glb : Tensor ℝ := rescale_half_bilinear xx
  let FI : Tensor ℝ :=
    cat0 ((List.range B).map fun i => cat0 [image2patches (slice0 xx i 1), slice0 glb i 1])
  have hg : glb.shape = [B, 3, 512, 512] :=
    (rescale_half_bilinear_shape xx B 3 1024 1024 rfl).trans (by norm_num)
  have hFI : FI.shape = [5 * B, 3, 512, 512] := by
    have hmem : ∀ t ∈ (List.range B).map
        (fun i => cat0 [image2patches (slice0 xx i 1), slice0 glb i 1]),
        t.shape = 5 :: [3, 512, 512] := by
      intro t hm
      simp only [List.mem_map] at hm
      obtain ⟨i, _, rfl⟩ := hm
      have hs1 : (slice0 xx i 1).shape = [1, 3, 1024, 1024] :=
        slice0_shape xx i 1 B [3, 1024, 1024] rfl
      have hp : (image2patches (slice0 xx i 1)).shape = [4, 3, 512, 512] :=
        (image2patches_shape (slice0 xx i 1) 1 3 1024 1024 hs1).trans (by norm_num)
      have hgs : (slice0 glb i 1).shape = [1, 3, 512, 512] :=
        slice0_shape glb i 1 B [3, 512, 512] hg
      exact (cat0_pair_shape _ _ 4 1 [3, 512, 512] hp hgs).trans (by norm_num)
    have hne : ((List.range B).map
        fun i => cat0 [image2patches (slice0 xx i 1), slice0 glb i 1]) ≠ [] := by
      simp only [ne_eq, List.map_eq_nil_iff, List.range_eq_nil]
      omega
    have hlen : ((List.range B).map
        fun i => cat0 [image2patches (slice0 xx i 1), slice0 glb i 1]).length = B := by
      simp
    exact (cat0_shape_const _ 5 [3, 512, 512] hne hmem).trans (by rw [hlen])
  obtain ⟨f0, f1, f2, f3, f4, hfeat, s0, s1, s2, s3, s4⟩ :=
    mkSwinBEN_feature_shapes w.swin FI (5 * B) hFI
  let sb : Tensor ℝ := (mkBEN w).shallow.forward xx
  have hdec : ∀ i : ℕ,
      (BEN_decode (mkBEN w) ((mkSwinBEN w.swin).forward FI) sb i).shape
        = 1 :: [1, 1024, 1024] := by
    intro i
    rw [hfeat]
    exact mkBEN_decode_shape w f0 f1 f2 f3 f4 sb i (5 * B) s0 s1 s2 s3 s4
  have hshape : (cat0 ((List.range B).map fun i =>
      BEN_decode (mkBEN w) ((mkSwinBEN w.swin).forward FI) sb i)).shape
        = [B, 1, 1024, 1024] := by
    have hmem2 : ∀ t ∈ (List.range B).map
        (fun i => BEN_decode (mkBEN w) ((mkSwinBEN w.swin).forward FI) sb i),
        t.shape = 1 :: [1, 1024, 1024] := by
      intro t hm
      simp only [List.mem_map] at hm
      obtain ⟨i, _, rfl⟩ := hm
      exact hdec i
    have hne2 : ((List.range B).map
        fun i => BEN_decode (mkBEN w) ((mkSwinBEN w.swin).forward FI) sb i) ≠ [] := by
      simp only [ne_eq, List.map_eq_nil_iff, List.range_eq_nil]
      omega
    have hlen2 : ((List.range B).map
        fun i => BEN_decode (mkBEN w) ((mkSwinBEN w.swin).forward FI) sb i).length = B := by
      simp
    exact (cat0_shape_const _ 1 [1, 1024, 1024] hne2 hmem2).trans
      (by rw [hlen2, one_mul])
  have hbnd : ∀ idx,
      0 ≤ (cat0 ((List.range B).map fun i =>
            BEN_decode (mkBEN w) ((mkSwinBEN w.swin).forward FI) sb i)).data idx
      ∧ (cat0 ((List.range B).map fun i =>
            BEN_decode (mkBEN w) ((mkSwinBEN w.swin).forward FI) sb i)).data idx ≤ 1 := by
    have hall : ∀ t ∈ (List.range B).map
        (fun i => BEN_decode (mkBEN w) ((mkSwinBEN w.swin).forward FI) sb i),
        ∀ idx2, 0 ≤ t.data idx2 ∧ t.data idx2 ≤ 1 := by
      intro t hm idx2
      simp only [List.mem_map] at hm
      obtain ⟨i, _, rfl⟩ := hm
      exact sigmoid_mem _
    intro idx
    cases idx with
    | nil => exact ⟨le_refl 0, zero_le_one⟩
    | cons b rest => exact cat0_go_bounds _ hall b rest
  exact ⟨hshape, fun idx _ => hbnd idx⟩

/-- Witness for C1: an all-zero `(1, 3, 1024, 1024)` input with all-zero
weights gives a `(1, 1, 1024, 1024)` output with every in-range entry in
`[0, 1]`. -/
theorem C1_witness :
    0 < 1 ∧ (zerosR [1, 3, 1024, 1024]).shape = [1, 3, 1024, 1024] ∧
    (((mkBEN zeroBENW).forward (zerosR [1, 3, 1024, 1024])).shape = [1, 1, 1024, 1024] ∧
      ∀ idx, ValidIdx ((mkBEN zeroBENW).forward (zerosR [1, 3, 1024, 1024])).shape idx →
        0 ≤ ((mkBEN zeroBENW).forward (zerosR [1, 3, 1024, 1024])).data idx ∧
        ((mkBEN zeroBENW).forward (zerosR [1, 3, 1024, 1024])).data idx ≤ 1) :=
  ⟨Nat.one_pos, rfl,
    C1_forward_shape_and_range zeroBENW (zerosR [1, 3, 1024, 1024]) 1 Nat.one_pos rfl⟩

end BEN

namespace BEN

/- ------------------------------------------------------------------ -/
/- Multi-index helpers and block indexing into `torch.cat` (C8).       -/
/- ------------------------------------------------------------------ -/

theorem validIdx_mk2 {a b i j : ℕ} (h1 : i < a) (h2 : j < b) :
    ValidIdx [a, b] [i, j] :=
  List.Forall₂.cons h1 (List.Forall₂.cons h2 List.Forall₂.nil)

theorem validIdx_mk3 {a b c i j k : ℕ} (h1 : i < a) (h2 : j < b) (h3 : k < c) :
    ValidIdx [a, b, c] [i, j, k] :=
  List.Forall₂.cons h1 (List.Forall₂.cons h2 (List.Forall₂.cons h3 List.Forall₂.nil))

theorem validIdx_mk4 {a b c d i j k l : ℕ} (h1 : i < a) (h2 : j < b) (h3 : k < c)
    (h4 : l < d) : ValidIdx [a, b, c, d] [i, j, k, l] :=
  List.Forall₂.cons h1 (List.Forall₂.cons h2 (List.Forall₂.cons h3
    (List.Forall₂.cons h4 List.Forall₂.nil)))

theorem validIdx_three {a b c : ℕ} {idx : List ℕ} (h : ValidIdx [a, b, c] idx) :
    ∃ i j k, idx = [i, j, k] ∧ i < a ∧ j < b ∧ k < c := by
  cases h with
  | cons h1 h2 =>
    cases h2 with
    | cons h3 h4 =>
      cases h4 with
      | cons h5 h6 =>
        cases h6
        exact ⟨_, _, _, rfl, h1, h3, h5⟩

theorem validIdx_four {a b c d : ℕ} {idx : List ℕ} (h : ValidIdx [a, b, c, d] idx) :
    ∃ i j k l, idx = [i, j, k, l] ∧ i < a ∧ j < b ∧ k < c ∧ l < d := by
  cases h with
  | cons h1 h2 =>
    cases h2 with
    | cons h3 h4 =>
      cases h4 with
      | cons h5 h6 =>
        cases h6 with
        | cons h7 h8 =>
          cases h8
          exact ⟨_, _, _, _, rfl, h1, h3, h5, h7⟩

/-- Indexing into a `torch.cat(dim=0)` of equally sized blocks: entry
`n·i + k` of the concatenation is entry `k` of block `i`. -/
theorem cat0_go_uniform {α : Type} [Zero α] (n : ℕ) :
    ∀ (ts : List (Tensor α)), (∀ t ∈ ts, t.shape.headD 0 = n) →
    ∀ (i k : ℕ) (hi : i < ts.length), k < n →
    ∀ rest : List ℕ,
      cat0.go ts (n * i + k) rest = (ts.get ⟨i, hi⟩).data (k :: rest) := by
  intro ts
  induction ts with
  | nil =>
      intro _ i k hi
      exact absurd hi (by simp)
  | cons t ts ih =>
      intro h i k hi hk rest
      match i with
      | 0 =>
          have e : n * 0 + k = k := by ring
          rw [e]
          simp only [cat0.go]
          rw [h t (List.mem_cons_self t ts), if_pos hk]
          rfl
      | Nat.succ j =>
          rw [Nat.mul_succ]
          simp only [cat0.go]
          rw [h t (List.mem_cons_self t ts)]
          rw [if_neg (by omega)]
          have e2 : n * j + n + k - n = n * j + k := by omega
          rw [e2]
          exact ih (fun u hu => h u (List.mem_cons_of_mem t hu)) j k
            (by simpa using hi) hk rest

end BEN

namespace BEN

/-- Indexing a `torch.cat(dim=0)` over a mapped range of equal blocks. -/
theorem cat0_go_range {α : Type} [Zero α] (n B : ℕ) (f : ℕ → Tensor α)
    (h : ∀ j < B, (f j).shape.headD 0 = n) (i k : ℕ) (hi : i < B) (hk : k < n)
    (rest : List ℕ) :
    cat0.go ((List.range B).map f) (n * i + k) rest = (f i).data (k :: rest) := by
  have hmem : ∀ t ∈ (List.range B).map f, t.shape.headD 0 = n := by
    intro t hm
    simp only [List.mem_map, List.mem_range] at hm
    obtain ⟨j, hj, rfl⟩ := hm
    exact h j hj
  have hlen : i < ((List.range B).map f).length := by simpa using hi
  rw [cat0_go_uniform n _ hmem i k hlen hk rest]
  congr 1
  simp [List.get_eq_getElem]

/-- The shape of one image's five-tile group (demo.py:523-526): the four
quadrants and the half-scale global view. -/
theorem tile_group_shape (x : Tensor ℝ) (B C H W : ℕ) (hx : x.shape = [B, C, H, W])
    (i : ℕ) :
    (cat0 [image2patches (slice0 x i 1), slice0 (rescale_half_bilinear x) i 1]).shape
      = [5, C, H / 2, W / 2] := by
  have hs1 : (slice0 x i 1).shape = [1, C, H, W] := slice0_shape x i 1 B [C, H, W] hx
  have hp : (image2patches (slice0 x i 1)).shape = [4, C, H / 2, W / 2] :=
    (image2patches_shape _ 1 C H W hs1).trans (by norm_num)
  have hg : (rescale_half_bilinear x).shape = [B, C, H / 2, W / 2] :=
    rescale_half_bilinear_shape x B C H W hx
  have hgs : (slice0 (rescale_half_bilinear x) i 1).shape = [1, C, H / 2, W / 2] :=
    slice0_shape _ i 1 B [C, H / 2, W / 2] hg
  exact (cat0_pair_shape _ _ 4 1 [C, H / 2, W / 2] hp hgs).trans (by norm_num)

/-- Tile `k < 4` of image `i`'s group is quadrant `k` of the image, in
row-major quadrant order (`rearrange 'b c (hg h) (wg w) -> (hg wg b) c h w'`
with a single image). -/
theorem tile_group_quadrant (x : Tensor ℝ) (B C H W : ℕ) (hx : x.shape = [B, C, H, W])
    (i k c h v : ℕ) (hk : k < 4) :
    (cat0 [image2patches (slice0 x i 1),
           slice0 (rescale_half_bilinear x) i 1]).data [k, c, h, v]
      = x.data [i, c, k / 2 * (H / 2) + h, k % 2 * (W / 2) + v] := by
  obtain ⟨sh, d⟩ := x
  simp only [Tensor.shape] at hx
  subst hx
  have hP : (image2patches (slice0 (⟨[B, C, H, W], d⟩ : Tensor ℝ) i 1)).shape.headD 0
      = 4 := rfl
  show cat0.go [image2patches (slice0 (⟨[B, C, H, W], d⟩ : Tensor ℝ) i 1),
      slice0 (rescale_half_bilinear (⟨[B, C, H, W], d⟩ : Tensor ℝ)) i 1] k [c, h, v] = _
  simp only [cat0.go]
  rw [hP, if_pos hk]
  show (⟨[B, C, H, W], d⟩ : Tensor ℝ).data
      [i + k % 1, c, k / (2 * 1) * (H / 2) + h, k / 1 % 2 * (W / 2) + v] = _
  simp [Nat.mod_one, Nat.div_one]

/-- Tile `4` of image `i`'s group is the half-resolution bilinear global
view of the image. -/
theorem tile_group_global (x : Tensor ℝ) (B C H W : ℕ) (hx : x.shape = [B, C, H, W])
    (i c h v : ℕ) :
    (cat0 [image2patches (slice0 x i 1),
           slice0 (rescale_half_bilinear x) i 1]).data [4, c, h, v]
      = (rescale_half_bilinear x).data [i, c, h, v] := by
  obtain ⟨sh, d⟩ := x
  simp only [Tensor.shape] at hx
  subst hx
  have hP : (image2patches (slice0 (⟨[B, C, H, W], d⟩ : Tensor ℝ) i 1)).shape.headD 0
      = 4 := rfl
  have hG : (slice0 (rescale_half_bilinear (⟨[B, C, H, W], d⟩ : Tensor ℝ)) i 1).shape.headD 0
      = 1 := rfl
  show cat0.go [image2patches (slice0 (⟨[B, C, H, W], d⟩ : Tensor ℝ) i 1),
      slice0 (rescale_half_bilinear (⟨[B, C, H, W], d⟩ : Tensor ℝ)) i 1] 4 [c, h, v] = _
  simp only [cat0.go]
  rw [hP, if_neg (by omega), hG, if_pos (by norm_num)]
  show (rescale_half_bilinear (⟨[B, C, H, W], d⟩ : Tensor ℝ)).data [i + (4 - 4), c, h, v]
      = _
  congr 1

/-- The shape of the five-tile batch (demo.py:522-530). -/
theorem final_input_shape (x : Tensor ℝ) (B C H W : ℕ) (hB : 0 < B)
    (hx : x.shape = [B, C, H, W]) :
    (BEN_final_input x).shape = [5 * B, C, H / 2, W / 2] := by
  have hhd : x.shape.headD 0 = B := by
    rw [hx]
    rfl
  show (cat0 ((List.range (x.shape.headD 0)).map fun i =>
      cat0 [image2patches (slice0 x i 1),
            slice0 (rescale_half_bilinear x) i 1])).shape = _
  rw [hhd]
  have hmem : ∀ t ∈ (List.range B).map (fun i =>
      cat0 [image2patches (slice0 x i 1), slice0 (rescale_half_bilinear x) i 1]),
      t.shape = 5 :: [C, H / 2, W / 2] := by
    intro t hm
    simp only [List.mem_map] at hm
    obtain ⟨j, _, rfl⟩ := hm
    exact tile_group_shape x B C H W hx j
  have hne : ((List.range B).map fun i =>
      cat0 [image2patches (slice0 x i 1), slice0 (rescale_half_bilinear x) i 1]) ≠ [] := by
    simp only [ne_eq, List.map_eq_nil_iff, List.range_eq_nil]
    omega
  have hlen : ((List.range B).map fun i =>
      cat0 [image2patches (slice0 x i 1), slice0 (rescale_half_bilinear x) i 1]).length
      = B := by simp
  exact (cat0_shape_const _ 5 [C, H / 2, W / 2] hne hmem).trans (by rw [hlen])

/-- Entry `5·i + k` of the five-tile batch is entry `k` of image `i`'s
group. -/
theorem final_input_data (x : Tensor ℝ) (B C H W : ℕ) (hx : x.shape = [B, C, H, W])
    (i k : ℕ) (hi : i < B) (hk : k < 5) (rest : List ℕ) :
    (BEN_final_input x).data ((5 * i + k) :: rest)
      = (cat0 [image2patches (slice0 x i 1),
               slice0 (rescale_half_bilinear x) i 1]).data (k :: rest) := by
  have hhd : x.shape.headD 0 = B := by
    rw [hx]
    rfl
  show cat0.go ((List.range (x.shape.headD 0)).map fun j =>
      cat0 [image2patches (slice0 x j 1),
            slice0 (rescale_half_bilinear x) j 1]) (5 * i + k) rest = _
  rw [hhd]
  exact cat0_go_range 5 B _ (fun j _ => by rw [tile_group_shape x B C H W hx j]; rfl)
    i k hi hk rest

end BEN

namespace BEN

/- ------------------------------------------------------------------ -/
/- Batch-offset data agreement (C8: per-image independence).           -/
/- ------------------------------------------------------------------ -/

/-- `a` agrees with the batch-offset slice of `b`: every in-range entry of
`a` at batch index `i` equals `b`'s entry at batch index `S + i`.
(The shapes of `a` and `b` agree on the trailing axes; that is tracked by
separate shape hypotheses.) -/
def OffEq (S : ℕ) (a b : Tensor ℝ) : Prop :=
  ∀ (i : ℕ) (rest : List ℕ), ValidIdx a.shape (i :: rest) →
    a.data (i :: rest) = b.data ((S + i) :: rest)

/-- Entry-wise agreement at every in-range index of `a`. -/
def DEq (a b : Tensor ℝ) : Prop :=
  ∀ idx, ValidIdx a.shape idx → a.data idx = b.data idx

theorem offEq_zero_of_dEq {a b : Tensor ℝ} (h : DEq a b) : OffEq 0 a b := by
  intro i rest hv
  rw [h (i :: rest) hv]
  congr 1
  simp

theorem dEq_of_offEq_zero {a b : Tensor ℝ} {hd : ℕ} {tl : List ℕ}
    (ha : a.shape = hd :: tl) (h : OffEq 0 a b) : DEq a b := by
  intro idx hv
  match idx, hv with
  | i :: rest, hv =>
      rw [h i rest hv]
      congr 1
      simp
  | [], hv =>
      rw [ha] at hv
      cases hv

theorem validIdx_cons_two {a b i : ℕ} {rest : List ℕ}
    (h : ValidIdx [a, b] (i :: rest)) :
    ∃ j, rest = [j] ∧ i < a ∧ j < b := by
  cases h with
  | cons h1 h2 =>
    cases h2 with
    | cons h3 h4 =>
      cases h4
      exact ⟨_, rfl, h1, h3⟩

theorem validIdx_cons_three {a b c i : ℕ} {rest : List ℕ}
    (h : ValidIdx [a, b, c] (i :: rest)) :
    ∃ j k, rest = [j, k] ∧ i < a ∧ j < b ∧ k < c := by
  cases h with
  | cons h1 h2 =>
    cases h2 with
    | cons h3 h4 =>
      cases h4 with
      | cons h5 h6 =>
        cases h6
        exact ⟨_, _, rfl, h1, h3, h5⟩

theorem validIdx_cons_four {a b c d i : ℕ} {rest : List ℕ}
    (h : ValidIdx [a, b, c, d] (i :: rest)) :
    ∃ j k l, rest = [j, k, l] ∧ i < a ∧ j < b ∧ k < c ∧ l < d := by
  cases h with
  | cons h1 h2 =>
    cases h2 with
    | cons h3 h4 =>
      cases h4 with
      | cons h5 h6 =>
        cases h6 with
        | cons h7 h8 =>
          cases h8
          exact ⟨_, _, _, rfl, h1, h3, h5, h7⟩

/-- `slice0` of the batch side at the shifted start agrees with `slice0` of
the single side. -/
theorem slice0_offEq (a b : Tensor ℝ) (S s1 s2 l Ba : ℕ) (tl : List ℕ)
    (ha : a.shape = Ba :: tl) (h : OffEq S a b) (hl : s1 + l ≤ Ba)
    (hs : S + s1 = s2) :
    OffEq 0 (slice0 a s1 l) (slice0 b s2 l) := by
  intro i rest hv
  have hv' : ValidIdx (l :: a.shape.tail) (i :: rest) := hv
  cases hv' with
  | cons h1 h2 =>
    show a.data ((s1 + i) :: rest) = b.data ((s2 + (0 + i)) :: rest)
    have hvi : ValidIdx a.shape ((s1 + i) :: rest) := by
      rw [ha]
      exact List.Forall₂.cons (by omega) (by rw [ha] at h2; exact h2)
    rw [h (s1 + i) rest hvi]
    congr 2
    omega

/-- The base case: a contiguous batch slice agrees with the original at
its offset. -/
theorem slice0_self_offEq (x : Tensor ℝ) (s l : ℕ) : OffEq s (slice0 x s l) x := by
  intro i rest _
  rfl

theorem tmap_offEq (f : ℝ → ℝ) {S : ℕ} {a b : Tensor ℝ} (h : OffEq S a b) :
    OffEq S (tmap f a) (tmap f b) := by
  intro i rest hv
  show f (a.data (i :: rest)) = f (b.data ((S + i) :: rest))
  rw [h i rest hv]

theorem tadd_offEq {S : ℕ} {a b a2 b2 : Tensor ℝ} (h : OffEq S a b)
    (h2 : OffEq S a2 b2) (hsh : a2.shape = a.shape) :
    OffEq S (tadd a a2) (tadd b b2) := by
  intro i rest hv
  show a.data (i :: rest) + a2.data (i :: rest)
      = b.data ((S + i) :: rest) + b2.data ((S + i) :: rest)
  have hv2 : ValidIdx a2.shape (i :: rest) := by rw [hsh]; exact hv
  rw [h i rest hv, h2 i rest hv2]

theorem linear_offEq (inF outF : ℕ) (w : ℕ → ℕ → ℝ) (bias : ℕ → ℝ)
    {S : ℕ} {a b : Tensor ℝ} (Ba L C : ℕ) (ha : a.shape = [Ba, L, C])
    (hC : inF ≤ C) (h : OffEq S a b) :
    OffEq S (linear inF outF w bias a) (linear inF outF w bias b) := by
  intro i rest hv
  have hv' : ValidIdx (a.shape.dropLast ++ [outF]) (i :: rest) := hv
  rw [ha] at hv'
  obtain ⟨t', o, rfl, hi, ht, _⟩ := validIdx_cons_three hv'
  show (∑ k ∈ Finset.range inF, w o k * a.data [i, t', k]) + bias o
      = (∑ k ∈ Finset.range inF, w o k * b.data [S + i, t', k]) + bias o
  congr 1
  refine Finset.sum_congr rfl fun k hk => ?_
  rw [h i [t', k] (by
    rw [ha]
    exact validIdx_mk3 hi ht (lt_of_lt_of_le (Finset.mem_range.mp hk) hC))]

theorem layerNorm_offEq (n : ℕ) (p : LayerNormW) {S : ℕ} {a b : Tensor ℝ}
    (Ba L C : ℕ) (ha : a.shape = [Ba, L, C]) (hC : n ≤ C) (h : OffEq S a b) :
    OffEq S (layerNorm n p a) (layerNorm n p b) := by
  intro i rest hv
  have hv' : ValidIdx a.shape (i :: rest) := hv
  rw [ha] at hv'
  obtain ⟨t', o, rfl, hi, ht, ho⟩ := validIdx_cons_three hv'
  have hval : ∀ k, k < n → a.data [i, t', k] = b.data [S + i, t', k] := fun k hk =>
    h i [t', k] (by rw [ha]; exact validIdx_mk3 hi ht (lt_of_lt_of_le hk hC))
  show (a.data [i, t', o] - (∑ k ∈ Finset.range n, a.data [i, t', k]) / n)
        / Real.sqrt ((∑ k ∈ Finset.range n,
            (a.data [i, t', k] - (∑ j ∈ Finset.range n, a.data [i, t', j]) / n) ^ 2) / n
          + 1 / 100000) * p.weight o + p.bias o
      = (b.data [S + i, t', o] - (∑ k ∈ Finset.range n, b.data [S + i, t', k]) / n)
        / Real.sqrt ((∑ k ∈ Finset.range n,
            (b.data [S + i, t', k]
              - (∑ j ∈ Finset.range n, b.data [S + i, t', j]) / n) ^ 2) / n
          + 1 / 100000) * p.weight o + p.bias o
  have hsum : (∑ k ∈ Finset.range n, a.data [i, t', k])
      = ∑ k ∈ Finset.range n, b.data [S + i, t', k] :=
    Finset.sum_congr rfl fun k hk => hval k (Finset.mem_range.mp hk)
  have hsum2 : (∑ k ∈ Finset.range n,
        (a.data [i, t', k] - (∑ j ∈ Finset.range n, a.data [i, t', j]) / n) ^ 2)
      = ∑ k ∈ Finset.range n,
        (b.data [S + i, t', k] - (∑ j ∈ Finset.range n, b.data [S + i, t', j]) / n) ^ 2 :=
    Finset.sum_congr rfl fun k hk => by rw [hval k (Finset.mem_range.mp hk), hsum]
  have hread : a.data [i, t', o] = b.data [S + i, t', o] :=
    h i [t', o] (by rw [ha]; exact validIdx_mk3 hi ht ho)
  rw [hread, hsum2, hsum]

end BEN

namespace BEN

theorem idx_flatten_lt {h w H W : ℕ} (hh : h < H) (hw : w < W) : h * W + w < H * W :=
  calc h * W + w < h * W + W := by omega
  _ = (h + 1) * W := by ring
  _ ≤ H * W := Nat.mul_le_mul_right W hh

theorem off_div (S q n : ℕ) (hn : 0 < n) : (S * n + q) / n = S + q / n := by
  rw [Nat.add_comm, Nat.mul_comm, Nat.add_mul_div_left q S hn, Nat.add_comm]

theorem off_mod (S q n : ℕ) : (S * n + q) % n = q % n := by
  rw [Nat.add_comm, Nat.mul_comm, Nat.add_mul_mod_self_left]

theorem view_grid_offEq {S : ℕ} (a b : Tensor ℝ) (Ba Bb H W C : ℕ)
    (ha : a.shape = [Ba, H * W, C]) (hb : b.shape = [Bb, H * W, C])
    (h : OffEq S a b) :
    OffEq S (view_grid a H W) (view_grid b H W) := by
  obtain ⟨sha, da⟩ := a
  obtain ⟨shb, db⟩ := b
  simp only [Tensor.shape] at ha hb
  subst ha
  subst hb
  intro i rest hv
  have hv' : ValidIdx [Ba, H, W, C] (i :: rest) := hv
  obtain ⟨h', w', c', rfl, hi, hh, hw, hc⟩ := validIdx_cons_four hv'
  show (⟨[Ba, H * W, C], da⟩ : Tensor ℝ).data [i, h' * W + w', c']
      = (⟨[Bb, H * W, C], db⟩ : Tensor ℝ).data [S + i, h' * W + w', c']
  exact h i [h' * W + w', c'] (validIdx_mk3 hi (idx_flatten_lt hh hw) hc)

theorem pad_hw_offEq {S : ℕ} (a b : Tensor ℝ) (Ba Bb H W C pl pr pt pb : ℕ)
    (ha : a.shape = [Ba, H, W, C]) (hb : b.shape = [Bb, H, W, C])
    (h : OffEq S a b) :
    OffEq S (pad_hw a pl pr pt pb) (pad_hw b pl pr pt pb) := by
  obtain ⟨sha, da⟩ := a
  obtain ⟨shb, db⟩ := b
  simp only [Tensor.shape] at ha hb
  subst ha
  subst hb
  intro i rest hv
  have hv' : ValidIdx [Ba, H + pt + pb, W + pl + pr, C] (i :: rest) := hv
  obtain ⟨h', w', c', rfl, hi, hh, hw, hc⟩ := validIdx_cons_four hv'
  show (if pt ≤ h' ∧ h' < pt + H ∧ pl ≤ w' ∧ w' < pl + W then
        (⟨[Ba, H, W, C], da⟩ : Tensor ℝ).data [i, h' - pt, w' - pl, c'] else 0)
      = (if pt ≤ h' ∧ h' < pt + H ∧ pl ≤ w' ∧ w' < pl + W then
        (⟨[Bb, H, W, C], db⟩ : Tensor ℝ).data [S + i, h' - pt, w' - pl, c'] else 0)
  split_ifs with hg
  · exact h i [h' - pt, w' - pl, c'] (validIdx_mk4 hi (by omega) (by omega) hc)
  · rfl

theorem pad_chw_offEq {S : ℕ} (a b : Tensor ℝ) (Ba Bb C H W pl pr pt pb : ℕ)
    (ha : a.shape = [Ba, C, H, W]) (hb : b.shape = [Bb, C, H, W])
    (h : OffEq S a b) :
    OffEq S (pad_chw a pl pr pt pb) (pad_chw b pl pr pt pb) := by
  obtain ⟨sha, da⟩ := a
  obtain ⟨shb, db⟩ := b
  simp only [Tensor.shape] at ha hb
  subst ha
  subst hb
  intro i rest hv
  have hv' : ValidIdx [Ba, C, H + pt + pb, W + pl + pr] (i :: rest) := hv
  obtain ⟨c', h', w', rfl, hi, hc, hh, hw⟩ := validIdx_cons_four hv'
  show (if pt ≤ h' ∧ h' < pt + H ∧ pl ≤ w' ∧ w' < pl + W then
        (⟨[Ba, C, H, W], da⟩ : Tensor ℝ).data [i, c', h' - pt, w' - pl] else 0)
      = (if pt ≤ h' ∧ h' < pt + H ∧ pl ≤ w' ∧ w' < pl + W then
        (⟨[Bb, C, H, W], db⟩ : Tensor ℝ).data [S + i, c', h' - pt, w' - pl] else 0)
  split_ifs with hg
  · exact h i [c', h' - pt, w' - pl] (validIdx_mk4 hi hc (by omega) (by omega))
  · rfl

theorem roll_hw_offEq {S : ℕ} (a b : Tensor ℝ) (Ba Bb H W C : ℕ) (s1 s2 : ℤ)
    (ha : a.shape = [Ba, H, W, C]) (hb : b.shape = [Bb, H, W, C])
    (hH : 0 < H) (hW : 0 < W) (h : OffEq S a b) :
    OffEq S (roll_hw a s1 s2) (roll_hw b s1 s2) := by
  obtain ⟨sha, da⟩ := a
  obtain ⟨shb, db⟩ := b
  simp only [Tensor.shape] at ha hb
  subst ha
  subst hb
  intro i rest hv
  have hv' : ValidIdx [Ba, H, W, C] (i :: rest) := hv
  obtain ⟨h', w', c', rfl, hi, hh, hw, hc⟩ := validIdx_cons_four hv'
  show (⟨[Ba, H, W, C], da⟩ : Tensor ℝ).data
        [i, (((h' : ℤ) - s1).emod (H : ℤ)).toNat, (((w' : ℤ) - s2).emod (W : ℤ)).toNat, c']
      = (⟨[Bb, H, W, C], db⟩ : Tensor ℝ).data
        [S + i, (((h' : ℤ) - s1).emod (H : ℤ)).toNat, (((w' : ℤ) - s2).emod (W : ℤ)).toNat, c']
  have e1 : (((h' : ℤ) - s1).emod (H : ℤ)).toNat < H := by
    have r1 : (0 : ℤ) ≤ ((h' : ℤ) - s1).emod (H : ℤ) :=
      Int.emod_nonneg ((h' : ℤ) - s1) (by exact_mod_cast hH.ne' : (H : ℤ) ≠ 0)
    have r2 : ((h' : ℤ) - s1).emod (H : ℤ) < (H : ℤ) :=
      Int.emod_lt_of_pos ((h' : ℤ) - s1) (by exact_mod_cast hH : (0 : ℤ) < (H : ℤ))
    omega
  have e2 : (((w' : ℤ) - s2).emod (W : ℤ)).toNat < W := by
    have r1 : (0 : ℤ) ≤ ((w' : ℤ) - s2).emod (W : ℤ) :=
      Int.emod_nonneg ((w' : ℤ) - s2) (by exact_mod_cast hW.ne' : (W : ℤ) ≠ 0)
    have r2 : ((w' : ℤ) - s2).emod (W : ℤ) < (W : ℤ) :=
      Int.emod_lt_of_pos ((w' : ℤ) - s2) (by exact_mod_cast hW : (0 : ℤ) < (W : ℤ))
    omega
  exact h i _ (validIdx_mk4 hi e1 e2 hc)

theorem crop_hw_offEq {S : ℕ} (a b : Tensor ℝ) (Ba Bb H0 W0 C H W : ℕ)
    (ha : a.shape = [Ba, H0, W0, C]) (hb : b.shape = [Bb, H0, W0, C])
    (hH : H ≤ H0) (hW : W ≤ W0) (h : OffEq S a b) :
    OffEq S (crop_hw a H W) (crop_hw b H W) := by
  obtain ⟨sha, da⟩ := a
  obtain ⟨shb, db⟩ := b
  simp only [Tensor.shape] at ha hb
  subst ha
  subst hb
  intro i rest hv
  have hv' : ValidIdx [Ba, H, W, C] (i :: rest) := hv
  obtain ⟨h', w', c', rfl, hi, hh, hw, hc⟩ := validIdx_cons_four hv'
  show (⟨[Ba, H0, W0, C], da⟩ : Tensor ℝ).data [i, h', w', c']
      = (⟨[Bb, H0, W0, C], db⟩ : Tensor ℝ).data [S + i, h', w', c']
  exact h i [h', w', c']
    (validIdx_mk4 hi (lt_of_lt_of_le hh hH) (lt_of_lt_of_le hw hW) hc)

theorem view_tokens_offEq {S : ℕ} (a b : Tensor ℝ) (Ba Bb H W C : ℕ)
    (ha : a.shape = [Ba, H, W, C]) (hb : b.shape = [Bb, H, W, C])
    (hW : 0 < W) (h : OffEq S a b) :
    OffEq S (view_tokens a) (view_tokens b) := by
  obtain ⟨sha, da⟩ := a
  obtain ⟨shb, db⟩ := b
  simp only [Tensor.shape] at ha hb
  subst ha
  subst hb
  intro i rest hv
  have hv' : ValidIdx [Ba, H * W, C] (i :: rest) := hv
  obtain ⟨l, c', rfl, hi, hl, hc⟩ := validIdx_cons_three hv'
  show (⟨[Ba, H, W, C], da⟩ : Tensor ℝ).data [i, l / W, l % W, c']
      = (⟨[Bb, H, W, C], db⟩ : Tensor ℝ).data [S + i, l / W, l % W, c']
  have hdiv : l / W < H := Nat.div_lt_of_lt_mul (by rw [Nat.mul_comm]; exact hl)
  exact h i [l / W, l % W, c'] (validIdx_mk4 hi hdiv (Nat.mod_lt _ hW) hc)

theorem win_to_tokens_offEq {S : ℕ} (a b : Tensor ℝ) (Na Nb C ws : ℕ)
    (ha : a.shape = [Na, ws, ws, C]) (hb : b.shape = [Nb, ws, ws, C])
    (hws : 0 < ws) (h : OffEq S a b) :
    OffEq S (win_to_tokens a ws) (win_to_tokens b ws) := by
  obtain ⟨sha, da⟩ := a
  obtain ⟨shb, db⟩ := b
  simp only [Tensor.shape] at ha hb
  subst ha
  subst hb
  intro i rest hv
  have hv' : ValidIdx [Na, ws * ws, C] (i :: rest) := hv
  obtain ⟨l, c', rfl, hi, hl, hc⟩ := validIdx_cons_three hv'
  show (⟨[Na, ws, ws, C], da⟩ : Tensor ℝ).data [i, l / ws, l % ws, c']
      = (⟨[Nb, ws, ws, C], db⟩ : Tensor ℝ).data [S + i, l / ws, l % ws, c']
  have hdiv : l / ws < ws := Nat.div_lt_of_lt_mul (by rw [Nat.mul_comm]; exact hl)
  exact h i [l / ws, l % ws, c'] (validIdx_mk4 hi hdiv (Nat.mod_lt _ hws) hc)

theorem tokens_to_win_offEq {S : ℕ} (a b : Tensor ℝ) (Na Nb C ws : ℕ)
    (ha : a.shape = [Na, ws * ws, C]) (hb : b.shape = [Nb, ws * ws, C])
    (h : OffEq S a b) :
    OffEq S (tokens_to_win a ws) (tokens_to_win b ws) := by
  obtain ⟨sha, da⟩ := a
  obtain ⟨shb, db⟩ := b
  simp only [Tensor.shape] at ha hb
  subst ha
  subst hb
  intro i rest hv
  have hv' : ValidIdx [Na, ws, ws, C] (i :: rest) := hv
  obtain ⟨i', j', c', rfl, hi, hii, hjj, hc⟩ := validIdx_cons_four hv'
  show (⟨[Na, ws * ws, C], da⟩ : Tensor ℝ).data [i, i' * ws + j', c']
      = (⟨[Nb, ws * ws, C], db⟩ : Tensor ℝ).data [S + i, i' * ws + j', c']
  exact h i [i' * ws + j', c'] (validIdx_mk3 hi (idx_flatten_lt hii hjj) hc)

theorem window_partition_offEq {S : ℕ} (a b : Tensor ℝ) (Ba Bb H W C ws : ℕ)
    (ha : a.shape = [Ba, H, W, C]) (hb : b.shape = [Bb, H, W, C])
    (hnH : 0 < H / ws) (hnW : 0 < W / ws) (h : OffEq S a b) :
    OffEq (S * (H / ws * (W / ws))) (window_partition a ws) (window_partition b ws) := by
  obtain ⟨sha, da⟩ := a
  obtain ⟨shb, db⟩ := b
  simp only [Tensor.shape] at ha hb
  subst ha
  subst hb
  intro q rest hv
  have hv' : ValidIdx [Ba * (H / ws) * (W / ws), ws, ws, C] (q :: rest) := hv
  obtain ⟨i', j', c', rfl, hq, hi, hj, hc⟩ := validIdx_cons_four hv'
  have e1 : (S * (H / ws * (W / ws)) + q) / (H / ws * (W / ws)) = S + q / (H / ws * (W / ws)) :=
    off_div S q _ (Nat.mul_pos hnH hnW)
  have e2 : (S * (H / ws * (W / ws)) + q) / (W / ws) % (H / ws) = q / (W / ws) % (H / ws) := by
    rw [show S * (H / ws * (W / ws)) = S * (H / ws) * (W / ws) from by ring,
      off_div (S * (H / ws)) q (W / ws) hnW,
      show S * (H / ws) + q / (W / ws) = H / ws * S + q / (W / ws) from by ring,
      Nat.mul_add_mod]
  have e3 : (S * (H / ws * (W / ws)) + q) % (W / ws) = q % (W / ws) := by
    rw [show S * (H / ws * (W / ws)) = S * (H / ws) * (W / ws) from by ring]
    exact off_mod (S * (H / ws)) q (W / ws)
  show (⟨[Ba, H, W, C], da⟩ : Tensor ℝ).data
        [q / (H / ws * (W / ws)), q / (W / ws) % (H / ws) * ws + i',
         q % (W / ws) * ws + j', c']
      = (⟨[Bb, H, W, C], db⟩ : Tensor ℝ).data
        [(S * (H / ws * (W / ws)) + q) / (H / ws * (W / ws)),
         (S * (H / ws * (W / ws)) + q) / (W / ws) % (H / ws) * ws + i',
         (S * (H / ws * (W / ws)) + q) % (W / ws) * ws + j', c']
  rw [e1, e2, e3]
  have hvq : q / (H / ws * (W / ws)) < Ba :=
    Nat.div_lt_of_lt_mul (by rw [Nat.mul_comm]; rw [Nat.mul_assoc] at hq; exact hq)
  have hrow : q / (W / ws) % (H / ws) * ws + i' < H :=
    lt_of_lt_of_le (idx_flatten_lt (Nat.mod_lt _ hnH) hi) (Nat.div_mul_le_self H ws)
  have hcol : q % (W / ws) * ws + j' < W :=
    lt_of_lt_of_le (idx_flatten_lt (Nat.mod_lt _ hnW) hj) (Nat.div_mul_le_self W ws)
  exact h (q / (H / ws * (W / ws))) _ (validIdx_mk4 hvq hrow hcol hc)

theorem window_reverse_offEq {S : ℕ} (a b : Tensor ℝ) (Ba Nb C ws H W : ℕ)
    (ha : a.shape = [Ba * (H / ws * (W / ws)), ws, ws, C])
    (hb : b.shape = [Nb, ws, ws, C])
    (hnH : 0 < H / ws) (hnW : 0 < W / ws) (hdH : ws ∣ H) (hdW : ws ∣ W)
    (hws : 0 < ws) (h : OffEq (S * (H / ws * (W / ws))) a b) :
    OffEq S (window_reverse a ws H W) (window_reverse b ws H W) := by
  obtain ⟨sha, da⟩ := a
  obtain ⟨shb, db⟩ := b
  simp only [Tensor.shape] at ha hb
  subst ha
  subst hb
  intro i rest hv
  have hv' : ValidIdx [Ba * (H / ws * (W / ws)) / (H / ws * (W / ws)), H, W, C]
      (i :: rest) := hv
  obtain ⟨h', w', c', rfl, hi, hh, hw, hc⟩ := validIdx_cons_four hv'
  have hBa : Ba * (H / ws * (W / ws)) / (H / ws * (W / ws)) = Ba :=
    Nat.mul_div_cancel Ba (Nat.mul_pos hnH hnW)
  rw [hBa] at hi
  show (⟨[Ba * (H / ws * (W / ws)), ws, ws, C], da⟩ : Tensor ℝ).data
        [(i * (H / ws) + h' / ws) * (W / ws) + w' / ws, h' % ws, w' % ws, c']
      = (⟨[Nb, ws, ws, C], db⟩ : Tensor ℝ).data
        [((S + i) * (H / ws) + h' / ws) * (W / ws) + w' / ws, h' % ws, w' % ws, c']
  have e : S * (H / ws * (W / ws)) + ((i * (H / ws) + h' / ws) * (W / ws) + w' / ws)
      = ((S + i) * (H / ws) + h' / ws) * (W / ws) + w' / ws := by ring
  rw [show ((S + i) * (H / ws) + h' / ws) * (W / ws) + w' / ws
      = S * (H / ws * (W / ws)) + ((i * (H / ws) + h' / ws) * (W / ws) + w' / ws)
      from e.symm]
  have hwin : (i * (H / ws) + h' / ws) * (W / ws) + w' / ws
      < Ba * (H / ws * (W / ws)) := by
    have h1 : h' / ws < H / ws := Nat.div_lt_div_of_lt_of_dvd hdH hh
    have h2 : w' / ws < W / ws := Nat.div_lt_div_of_lt_of_dvd hdW hw
    have h3 : i * (H / ws) + h' / ws < Ba * (H / ws) := idx_flatten_lt hi h1
    have h4 := idx_flatten_lt h3 h2
    calc (i * (H / ws) + h' / ws) * (W / ws) + w' / ws
        < Ba * (H / ws) * (W / ws) := h4
    _ = Ba * (H / ws * (W / ws)) := by ring
  exact h _ _ (validIdx_mk4 hwin (Nat.mod_lt _ hws) (Nat.mod_lt _ hws) hc)

end BEN

namespace BEN

theorem conv2d_forward_offEq (m : Conv2d) {S : ℕ} (a b : Tensor ℝ) (Ba Bb C H W : ℕ)
    (ha : a.shape = [Ba, C, H, W]) (hb : b.shape = [Bb, C, H, W])
    (hic : m.in_channels ≤ C) (h : OffEq S a b) :
    OffEq S (m.forward a) (m.forward b) := by
  obtain ⟨sha, da⟩ := a
  obtain ⟨shb, db⟩ := b
  simp only [Tensor.shape] at ha hb
  subst ha
  subst hb
  intro q rest hv
  have hv' : ValidIdx [Ba, m.out_channels, (H + 2 * m.padding - m.kernel) / m.stride + 1,
      (W + 2 * m.padding - m.kernel) / m.stride + 1] (q :: rest) := hv
  obtain ⟨o, y, z, rfl, hq, _, _, _⟩ := validIdx_cons_four hv'
  show m.bias o + (∑ c ∈ Finset.range m.in_channels, ∑ u ∈ Finset.range m.kernel,
        ∑ v ∈ Finset.range m.kernel, m.weight o c u v *
          (if m.padding ≤ y * m.stride + u ∧ y * m.stride + u < H + m.padding
              ∧ m.padding ≤ z * m.stride + v ∧ z * m.stride + v < W + m.padding then
            (⟨[Ba, C, H, W], da⟩ : Tensor ℝ).data
              [q, c, y * m.stride + u - m.padding, z * m.stride + v - m.padding]
          else 0))
      = m.bias o + (∑ c ∈ Finset.range m.in_channels, ∑ u ∈ Finset.range m.kernel,
        ∑ v ∈ Finset.range m.kernel, m.weight o c u v *
          (if m.padding ≤ y * m.stride + u ∧ y * m.stride + u < H + m.padding
              ∧ m.padding ≤ z * m.stride + v ∧ z * m.stride + v < W + m.padding then
            (⟨[Bb, C, H, W], db⟩ : Tensor ℝ).data
              [S + q, c, y * m.stride + u - m.padding, z * m.stride + v - m.padding]
          else 0))
  congr 1
  refine Finset.sum_congr rfl fun c hc => ?_
  refine Finset.sum_congr rfl fun u _ => ?_
  refine Finset.sum_congr rfl fun v _ => ?_
  congr 1
  split_ifs with hg
  · exact h q [c, y * m.stride + u - m.padding, z * m.stride + v - m.padding]
      (validIdx_mk4 hq (lt_of_lt_of_le (Finset.mem_range.mp hc) hic)
        (by omega) (by omega))
  · rfl

theorem instance_norm2d_offEq {S : ℕ} (a b : Tensor ℝ) (Ba Bb C H W : ℕ)
    (ha : a.shape = [Ba, C, H, W]) (hb : b.shape = [Bb, C, H, W])
    (h : OffEq S a b) :
    OffEq S (instance_norm2d a) (instance_norm2d b) := by
  obtain ⟨sha, da⟩ := a
  obtain ⟨shb, db⟩ := b
  simp only [Tensor.shape] at ha hb
  subst ha
  subst hb
  intro q rest hv
  have hv' : ValidIdx [Ba, C, H, W] (q :: rest) := hv
  obtain ⟨c', y, z, rfl, hq, hc, hy, hz⟩ := validIdx_cons_four hv'
  have hval : ∀ u v, u < H → v < W →
      (⟨[Ba, C, H, W], da⟩ : Tensor ℝ).data [q, c', u, v]
        = (⟨[Bb, C, H, W], db⟩ : Tensor ℝ).data [S + q, c', u, v] := fun u v hu hw =>
    h q [c', u, v] (validIdx_mk4 hq hc hu hw)
  show ((⟨[Ba, C, H, W], da⟩ : Tensor ℝ).data [q, c', y, z]
        - (∑ u ∈ Finset.range H, ∑ v ∈ Finset.range W,
            (⟨[Ba, C, H, W], da⟩ : Tensor ℝ).data [q, c', u, v]) / ((H * W : ℕ) : ℝ))
      / Real.sqrt ((∑ u ∈ Finset.range H, ∑ v ∈ Finset.range W,
            ((⟨[Ba, C, H, W], da⟩ : Tensor ℝ).data [q, c', u, v]
              - (∑ u2 ∈ Finset.range H, ∑ v2 ∈ Finset.range W,
                  (⟨[Ba, C, H, W], da⟩ : Tensor ℝ).data [q, c', u2, v2])
                / ((H * W : ℕ) : ℝ)) ^ 2) / ((H * W : ℕ) : ℝ) + 1 / 100000)
      = ((⟨[Bb, C, H, W], db⟩ : Tensor ℝ).data [S + q, c', y, z]
        - (∑ u ∈ Finset.range H, ∑ v ∈ Finset.range W,
            (⟨[Bb, C, H, W], db⟩ : Tensor ℝ).data [S + q, c', u, v]) / ((H * W : ℕ) : ℝ))
      / Real.sqrt ((∑ u ∈ Finset.range H, ∑ v ∈ Finset.range W,
            ((⟨[Bb, C, H, W], db⟩ : Tensor ℝ).data [S + q, c', u, v]
              - (∑ u2 ∈ Finset.range H, ∑ v2 ∈ Finset.range W,
                  (⟨[Bb, C, H, W], db⟩ : Tensor ℝ).data [S + q, c', u2, v2])
                / ((H * W : ℕ) : ℝ)) ^ 2) / ((H * W : ℕ) : ℝ) + 1 / 100000)
  have hsum : (∑ u ∈ Finset.range H, ∑ v ∈ Finset.range W,
        (⟨[Ba, C, H, W], da⟩ : Tensor ℝ).data [q, c', u, v])
      = ∑ u ∈ Finset.range H, ∑ v ∈ Finset.range W,
        (⟨[Bb, C, H, W], db⟩ : Tensor ℝ).data [S + q, c', u, v] :=
    Finset.sum_congr rfl fun u hu => Finset.sum_congr rfl fun v hw =>
      hval u v (Finset.mem_range.mp hu) (Finset.mem_range.mp hw)
  have hsum2 : (∑ u ∈ Finset.range H, ∑ v ∈ Finset.range W,
        ((⟨[Ba, C, H, W], da⟩ : Tensor ℝ).data [q, c', u, v]
          - (∑ u2 ∈ Finset.range H, ∑ v2 ∈ Finset.range W,
              (⟨[Ba, C, H, W], da⟩ : Tensor ℝ).data [q, c', u2, v2]) / ((H * W : ℕ) : ℝ)) ^ 2)
      = ∑ u ∈ Finset.range H, ∑ v ∈ Finset.range W,
        ((⟨[Bb, C, H, W], db⟩ : Tensor ℝ).data [S + q, c', u, v]
          - (∑ u2 ∈ Finset.range H, ∑ v2 ∈ Finset.range W,
              (⟨[Bb, C, H, W], db⟩ : Tensor ℝ).data [S + q, c', u2, v2])
            / ((H * W : ℕ) : ℝ)) ^ 2 :=
    Finset.sum_congr rfl fun u hu => Finset.sum_congr rfl fun v hw => by
      rw [hval u v (Finset.mem_range.mp hu) (Finset.mem_range.mp hw), hsum]
  rw [hval y z hy hz, hsum2, hsum]

theorem bilinear_resize_offEq {S : ℕ} (a b : Tensor ℝ) (Ba Bb C H W outH outW : ℕ)
    (ha : a.shape = [Ba, C, H, W]) (hb : b.shape = [Bb, C, H, W])
    (hH : 0 < H) (hW : 0 < W) (h : OffEq S a b) :
    OffEq S (bilinear_resize a outH outW) (bilinear_resize b outH outW) := by
  obtain ⟨sha, da⟩ := a
  obtain ⟨shb, db⟩ := b
  simp only [Tensor.shape] at ha hb
  subst ha
  subst hb
  intro q rest hv
  have hv' : ValidIdx [Ba, C, outH, outW] (q :: rest) := hv
  obtain ⟨c', y, z, rfl, hq, hc, _, _⟩ := validIdx_cons_four hv'
  simp only [bilinear_resize]
  generalize hsh : (max 0 (((y : ℝ) + 1 / 2) * ((H : ℝ) / (outH : ℝ)) - 1 / 2)) = s1
  generalize hsw : (max 0 (((z : ℝ) + 1 / 2) * ((W : ℝ) / (outW : ℝ)) - 1 / 2)) = s2
  generalize hi0 : min (⌊s1⌋.toNat) (H - 1) = i0
  generalize hj0 : min (⌊s2⌋.toNat) (W - 1) = j0
  have bi0 : i0 < H := by
    have := min_le_right (⌊s1⌋.toNat) (H - 1)
    omega
  have bj0 : j0 < W := by
    have := min_le_right (⌊s2⌋.toNat) (W - 1)
    omega
  have bi1 : min (i0 + 1) (H - 1) < H := by
    have := min_le_right (i0 + 1) (H - 1)
    omega
  have bj1 : min (j0 + 1) (W - 1) < W := by
    have := min_le_right (j0 + 1) (W - 1)
    omega
  have hval : ∀ (i : ℕ) (rest : List ℕ), ValidIdx [Ba, C, H, W] (i :: rest) →
      da (i :: rest) = db ((S + i) :: rest) := h
  rw [hval q [c', i0, j0] (validIdx_mk4 hq hc bi0 bj0),
    hval q [c', i0, min (j0 + 1) (W - 1)] (validIdx_mk4 hq hc bi0 bj1),
    hval q [c', min (i0 + 1) (H - 1), j0] (validIdx_mk4 hq hc bi1 bj0),
    hval q [c', min (i0 + 1) (H - 1), min (j0 + 1) (W - 1)] (validIdx_mk4 hq hc bi1 bj1)]

theorem nearest_resize_offEq {S : ℕ} (a b : Tensor ℝ) (Ba Bb C H W outH outW : ℕ)
    (ha : a.shape = [Ba, C, H, W]) (hb : b.shape = [Bb, C, H, W])
    (hH : 0 < H) (hW : 0 < W) (h : OffEq S a b) :
    OffEq S (nearest_resize a outH outW) (nearest_resize b outH outW) := by
  obtain ⟨sha, da⟩ := a
  obtain ⟨shb, db⟩ := b
  simp only [Tensor.shape] at ha hb
  subst ha
  subst hb
  intro q rest hv
  have hv' : ValidIdx [Ba, C, outH, outW] (q :: rest) := hv
  obtain ⟨c', y, z, rfl, hq, hc, _, _⟩ := validIdx_cons_four hv'
  show (⟨[Ba, C, H, W], da⟩ : Tensor ℝ).data
        [q, c', min (y * H / outH) (H - 1), min (z * W / outW) (W - 1)]
      = (⟨[Bb, C, H, W], db⟩ : Tensor ℝ).data
        [S + q, c', min (y * H / outH) (H - 1), min (z * W / outW) (W - 1)]
  have b1 : min (y * H / outH) (H - 1) < H := by
    have := min_le_right (y * H / outH) (H - 1)
    omega
  have b2 : min (z * W / outW) (W - 1) < W := by
    have := min_le_right (z * W / outW) (W - 1)
    omega
  exact h q _ (validIdx_mk4 hq hc b1 b2)

/-- `Mlp.forward` preserves batch-offset agreement. -/
theorem mlp_forward_offEq (m : Mlp) {S : ℕ} (a b : Tensor ℝ) (Ba Bb L C : ℕ)
    (ha : a.shape = [Ba, L, C]) (hb : b.shape = [Bb, L, C])
    (hin : m.in_features ≤ C) (h : OffEq S a b) :
    OffEq S (m.forward a) (m.forward b) := by
  have h1 := linear_offEq m.in_features m.hidden_features m.fc1_w m.fc1_b Ba L C ha hin h
  have h2 := tmap_offEq gelu h1
  have hsh : (tmap gelu (linear m.in_features m.hidden_features m.fc1_w m.fc1_b a)).shape
      = [Ba, L, m.hidden_features] := by
    show a.shape.dropLast ++ [m.hidden_features] = [Ba, L, m.hidden_features]
    rw [ha]
    rfl
  exact linear_offEq m.hidden_features m.in_features m.fc2_w m.fc2_b
    Ba L m.hidden_features hsh (le_refl _) h2

end BEN

namespace BEN

/-- Batch extensionality of `WindowAttention.forward` with a mask: the
output row of window-batch entry `bx` depends only on that entry's data and
on `bx % nW` (the mask is indexed by the window position within a tile,
demo.py:102-106). -/
theorem wattn_forward_data_ext (m : WindowAttention)
    (x y : Tensor ℝ) (msk : Tensor ℝ) (Bx By N C : ℕ) (bx b2 : ℕ)
    (hx : x.shape = [Bx, N, C]) (hy : y.shape = [By, N, C])
    (hread : ∀ n k, n < N → k < C → x.data [bx, n, k] = y.data [b2, n, k])
    (hmod : bx % msk.shape.headD 0 = b2 % msk.shape.headD 0) :
    ∀ n c, n < N →
      (m.forward x (some msk)).data [bx, n, c]
        = (m.forward y (some msk)).data [b2, n, c] := by
  obtain ⟨shx, dx⟩ := x
  obtain ⟨shy, dy⟩ := y
  simp only [Tensor.shape] at hx hy
  subst hx
  subst hy
  intro n c hn
  let qkvx : Tensor ℝ := linear C (3 * C) m.qkv_w m.qkv_b ⟨[Bx, N, C], dx⟩
  let qkvy : Tensor ℝ := linear C (3 * C) m.qkv_w m.qkv_b ⟨[By, N, C], dy⟩
  have hqkv : ∀ n2 z, n2 < N → qkvx.data [bx, n2, z] = qkvy.data [b2, n2, z] := by
    intro n2 z hn2
    show (∑ k ∈ Finset.range C,
          m.qkv_w z k * (⟨[Bx, N, C], dx⟩ : Tensor ℝ).data [bx, n2, k]) + m.qkv_b z
        = (∑ k ∈ Finset.range C,
          m.qkv_w z k * (⟨[By, N, C], dy⟩ : Tensor ℝ).data [b2, n2, k]) + m.qkv_b z
    congr 1
    exact Finset.sum_congr rfl fun k hk => by
      rw [hread n2 k hn2 (Finset.mem_range.mp hk)]
  let qx : Tensor ℝ :=
    ⟨[Bx, m.num_heads, N, C / m.num_heads], fun idx =>
      match idx with
      | [b, h, n2, d] => qkvx.data
          [b, n2, 0 * (m.num_heads * (C / m.num_heads)) + h * (C / m.num_heads) + d]
          * (Real.sqrt (((C / m.num_heads : ℕ)) : ℝ))⁻¹
      | _ => 0⟩
  let qy : Tensor ℝ :=
    ⟨[By, m.num_heads, N, C / m.num_heads], fun idx =>
      match idx with
      | [b, h, n2, d] => qkvy.data
          [b, n2, 0 * (m.num_heads * (C / m.num_heads)) + h * (C / m.num_heads) + d]
          * (Real.sqrt (((C / m.num_heads : ℕ)) : ℝ))⁻¹
      | _ => 0⟩
  let kx : Tensor ℝ :=
    ⟨[Bx, m.num_heads, N, C / m.num_heads], fun idx =>
      match idx with
      | [b, h, n2, d] => qkvx.data
          [b, n2, 1 * (m.num_heads * (C / m.num_heads)) + h * (C / m.num_heads) + d]
      | _ => 0⟩
  let ky : Tensor ℝ :=
    ⟨[By, m.num_heads, N, C / m.num_heads], fun idx =>
      match idx with
      | [b, h, n2, d] => qkvy.data
          [b, n2, 1 * (m.num_heads * (C / m.num_heads)) + h * (C / m.num_heads) + d]
      | _ => 0⟩
  let vx : Tensor ℝ :=
    ⟨[Bx, m.num_heads, N, C / m.num_heads], fun idx =>
      match idx with
      | [b, h, n2, d] => qkvx.data
          [b, n2, 2 * (m.num_heads * (C / m.num_heads)) + h * (C / m.num_heads) + d]
      | _ => 0⟩
  let vy : Tensor ℝ :=
    ⟨[By, m.num_heads, N, C / m.num_heads], fun idx =>
      match idx with
      | [b, h, n2, d] => qkvy.data
          [b, n2, 2 * (m.num_heads * (C / m.num_heads)) + h * (C / m.num_heads) + d]
      | _ => 0⟩
  have hq : ∀ h2 n2 d, n2 < N → qx.data [bx, h2, n2, d] = qy.data [b2, h2, n2, d] := by
    intro h2 n2 d hn2
    show qkvx.data
        [bx, n2, 0 * (m.num_heads * (C / m.num_heads)) + h2 * (C / m.num_heads) + d]
        * (Real.sqrt (((C / m.num_heads : ℕ)) : ℝ))⁻¹
      = qkvy.data
        [b2, n2, 0 * (m.num_heads * (C / m.num_heads)) + h2 * (C / m.num_heads) + d]
        * (Real.sqrt (((C / m.num_heads : ℕ)) : ℝ))⁻¹
    rw [hqkv n2 _ hn2]
  have hk : ∀ h2 n2 d, n2 < N → kx.data [bx, h2, n2, d] = ky.data [b2, h2, n2, d] := by
    intro h2 n2 d hn2
    show qkvx.data
        [bx, n2, 1 * (m.num_heads * (C / m.num_heads)) + h2 * (C / m.num_heads) + d]
      = qkvy.data
        [b2, n2, 1 * (m.num_heads * (C / m.num_heads)) + h2 * (C / m.num_heads) + d]
    rw [hqkv n2 _ hn2]
  have hv : ∀ h2 n2 d, n2 < N → vx.data [bx, h2, n2, d] = vy.data [b2, h2, n2, d] := by
    intro h2 n2 d hn2
    show qkvx.data
        [bx, n2, 2 * (m.num_heads * (C / m.num_heads)) + h2 * (C / m.num_heads) + d]
      = qkvy.data
        [b2, n2, 2 * (m.num_heads * (C / m.num_heads)) + h2 * (C / m.num_heads) + d]
    rw [hqkv n2 _ hn2]
  let attnx : Tensor ℝ := matmulLast qx (transposeLast2 kx)
  let attny : Tensor ℝ := matmulLast qy (transposeLast2 ky)
  have hattn : ∀ h2 i2 j2, i2 < N → j2 < N →
      attnx.data [bx, h2, i2, j2] = attny.data [b2, h2, i2, j2] := by
    intro h2 i2 j2 hi hj
    show (∑ k2 ∈ Finset.range (C / m.num_heads),
          qx.data [bx, h2, i2, k2] * kx.data [bx, h2, j2, k2])
        = ∑ k2 ∈ Finset.range (C / m.num_heads),
          qy.data [b2, h2, i2, k2] * ky.data [b2, h2, j2, k2]
    exact Finset.sum_congr rfl fun k2 _ => by
      rw [hq h2 i2 k2 hi, hk h2 j2 k2 hj]
  let attn1x : Tensor ℝ :=
    ⟨attnx.shape, fun idx =>
      match idx with
      | [b, h, i2, j2] => attnx.data [b, h, i2, j2]
          + m.rpb_table (relative_position_index m.window_size i2 j2).toNat h
      | _ => attnx.data idx⟩
  let attn1y : Tensor ℝ :=
    ⟨attny.shape, fun idx =>
      match idx with
      | [b, h, i2, j2] => attny.data [b, h, i2, j2]
          + m.rpb_table (relative_position_index m.window_size i2 j2).toNat h
      | _ => attny.data idx⟩
  have hattn1 : ∀ h2 i2 j2, i2 < N → j2 < N →
      attn1x.data [bx, h2, i2, j2] = attn1y.data [b2, h2, i2, j2] := by
    intro h2 i2 j2 hi hj
    show attnx.data [bx, h2, i2, j2]
          + m.rpb_table (relative_position_index m.window_size i2 j2).toNat h2
        = attny.data [b2, h2, i2, j2]
          + m.rpb_table (relative_position_index m.window_size i2 j2).toNat h2
    rw [hattn h2 i2 j2 hi hj]
  let maskedx : Tensor ℝ :=
    ⟨attn1x.shape, fun idx =>
      match idx with
      | [b, h, i2, j2] => attn1x.data [b, h, i2, j2]
          + msk.data [b % msk.shape.headD 0, i2, j2]
      | _ => attn1x.data idx⟩
  let maskedy : Tensor ℝ :=
    ⟨attn1y.shape, fun idx =>
      match idx with
      | [b, h, i2, j2] => attn1y.data [b, h, i2, j2]
          + msk.data [b % msk.shape.headD 0, i2, j2]
      | _ => attn1y.data idx⟩
  have hmasked : ∀ h2 i2 j2, i2 < N → j2 < N →
      maskedx.data [bx, h2, i2, j2] = maskedy.data [b2, h2, i2, j2] := by
    intro h2 i2 j2 hi hj
    show attn1x.data [bx, h2, i2, j2] + msk.data [bx % msk.shape.headD 0, i2, j2]
        = attn1y.data [b2, h2, i2, j2] + msk.data [b2 % msk.shape.headD 0, i2, j2]
    rw [hattn1 h2 i2 j2 hi hj, hmod]
  have hattn2 : ∀ h2 i2 j2, i2 < N → j2 < N →
      (softmaxLast N maskedx).data [bx, h2, i2, j2]
        = (softmaxLast N maskedy).data [b2, h2, i2, j2] := by
    intro h2 i2 j2 hi hj
    show Real.exp (maskedx.data [bx, h2, i2, j2])
          / ∑ k2 ∈ Finset.range N, Real.exp (maskedx.data [bx, h2, i2, k2])
        = Real.exp (maskedy.data [b2, h2, i2, j2])
          / ∑ k2 ∈ Finset.range N, Real.exp (maskedy.data [b2, h2, i2, k2])
    rw [hmasked h2 i2 j2 hi hj]
    congr 1
    exact Finset.sum_congr rfl fun k2 hk2 => by
      rw [hmasked h2 i2 k2 hi (Finset.mem_range.mp hk2)]
  have hout : ∀ h2 n2 d, n2 < N →
      (matmulLast (softmaxLast N maskedx) vx).data [bx, h2, n2, d]
        = (matmulLast (softmaxLast N maskedy) vy).data [b2, h2, n2, d] := by
    intro h2 n2 d hn2
    show (∑ k2 ∈ Finset.range N,
          (softmaxLast N maskedx).data [bx, h2, n2, k2] * vx.data [bx, h2, k2, d])
        = ∑ k2 ∈ Finset.range N,
          (softmaxLast N maskedy).data [b2, h2, n2, k2] * vy.data [b2, h2, k2, d]
    exact Finset.sum_congr rfl fun k2 hk2 => by
      rw [hattn2 h2 n2 k2 hn2 (Finset.mem_range.mp hk2),
        hv h2 k2 d (Finset.mem_range.mp hk2)]
  let mergedx : Tensor ℝ :=
    ⟨[Bx, N, C], fun idx =>
      match idx with
      | [b, n2, c2] => (matmulLast (softmaxLast N maskedx) vx).data
          [b, c2 / (C / m.num_heads), n2, c2 % (C / m.num_heads)]
      | _ => 0⟩
  let mergedy : Tensor ℝ :=
    ⟨[By, N, C], fun idx =>
      match idx with
      | [b, n2, c2] => (matmulLast (softmaxLast N maskedy) vy).data
          [b, c2 / (C / m.num_heads), n2, c2 % (C / m.num_heads)]
      | _ => 0⟩
  have hmerged : ∀ n2 c2, n2 < N → mergedx.data [bx, n2, c2] = mergedy.data [b2, n2, c2] := by
    intro n2 c2 hn2
    show (matmulLast (softmaxLast N maskedx) vx).data
          [bx, c2 / (C / m.num_heads), n2, c2 % (C / m.num_heads)]
        = (matmulLast (softmaxLast N maskedy) vy).data
          [b2, c2 / (C / m.num_heads), n2, c2 % (C / m.num_heads)]
    exact hout _ n2 _ hn2
  show (∑ k ∈ Finset.range C, m.proj_w c k * mergedx.data [bx, n, k]) + m.proj_b c
      = (∑ k ∈ Finset.range C, m.proj_w c k * mergedy.data [b2, n, k]) + m.proj_b c
  congr 1
  exact Finset.sum_congr rfl fun k _ => by rw [hmerged n k hn]

end BEN

namespace BEN

/-- Batch extensionality of `WindowAttention.forward` without a mask. -/
theorem wattn_forward_data_ext_none (m : WindowAttention)
    (x y : Tensor ℝ) (Bx By N C : ℕ) (bx b2 : ℕ)
    (hx : x.shape = [Bx, N, C]) (hy : y.shape = [By, N, C])
    (hread : ∀ n k, n < N → k < C → x.data [bx, n, k] = y.data [b2, n, k]) :
    ∀ n c, n < N →
      (m.forward x none).data [bx, n, c] = (m.forward y none).data [b2, n, c] := by
  obtain ⟨shx, dx⟩ := x
  obtain ⟨shy, dy⟩ := y
  simp only [Tensor.shape] at hx hy
  subst hx
  subst hy
  intro n c hn
  let qkvx : Tensor ℝ := linear C (3 * C) m.qkv_w m.qkv_b ⟨[Bx, N, C], dx⟩
  let qkvy : Tensor ℝ := linear C (3 * C) m.qkv_w m.qkv_b ⟨[By, N, C], dy⟩
  have hqkv : ∀ n2 z, n2 < N → qkvx.data [bx, n2, z] = qkvy.data [b2, n2, z] := by
    intro n2 z hn2
    show (∑ k ∈ Finset.range C,
          m.qkv_w z k * (⟨[Bx, N, C], dx⟩ : Tensor ℝ).data [bx, n2, k]) + m.qkv_b z
        = (∑ k ∈ Finset.range C,
          m.qkv_w z k * (⟨[By, N, C], dy⟩ : Tensor ℝ).data [b2, n2, k]) + m.qkv_b z
    congr 1
    exact Finset.sum_congr rfl fun k hk => by
      rw [hread n2 k hn2 (Finset.mem_range.mp hk)]
  let qx : Tensor ℝ :=
    ⟨[Bx, m.num_heads, N, C / m.num_heads], fun idx =>
      match idx with
      | [b, h, n2, d] => qkvx.data
          [b, n2, 0 * (m.num_heads * (C / m.num_heads)) + h * (C / m.num_heads) + d]
          * (Real.sqrt (((C / m.num_heads : ℕ)) : ℝ))⁻¹
      | _ => 0⟩
  let qy : Tensor ℝ :=
    ⟨[By, m.num_heads, N, C / m.num_heads], fun idx =>
      match idx with
      | [b, h, n2, d] => qkvy.data
          [b, n2, 0 * (m.num_heads * (C / m.num_heads)) + h * (C / m.num_heads) + d]
          * (Real.sqrt (((C / m.num_heads : ℕ)) : ℝ))⁻¹
      | _ => 0⟩
  let kx : Tensor ℝ :=
    ⟨[Bx, m.num_heads, N, C / m.num_heads], fun idx =>
      match idx with
      | [b, h, n2, d] => qkvx.data
          [b, n2, 1 * (m.num_heads * (C / m.num_heads)) + h * (C / m.num_heads) + d]
      | _ => 0⟩
  let ky : Tensor ℝ :=
    ⟨[By, m.num_heads, N, C / m.num_heads], fun idx =>
      match idx with
      | [b, h, n2, d] => qkvy.data
          [b, n2, 1 * (m.num_heads * (C / m.num_heads)) + h * (C / m.num_heads) + d]
      | _ => 0⟩
  let vx : Tensor ℝ :=
    ⟨[Bx, m.num_heads, N, C / m.num_heads], fun idx =>
      match idx with
      | [b, h, n2, d] => qkvx.data
          [b, n2, 2 * (m.num_heads * (C / m.num_heads)) + h * (C / m.num_heads) + d]
      | _ => 0⟩
  let vy : Tensor ℝ :=
    ⟨[By, m.num_heads, N, C / m.num_heads], fun idx =>
      match idx with
      | [b, h, n2, d] => qkvy.data
          [b, n2, 2 * (m.num_heads * (C / m.num_heads)) + h * (C / m.num_heads) + d]
      | _ => 0⟩
  have hq : ∀ h2 n2 d, n2 < N → qx.data [bx, h2, n2, d] = qy.data [b2, h2, n2, d] := by
    intro h2 n2 d hn2
    show qkvx.data
        [bx, n2, 0 * (m.num_heads * (C / m.num_heads)) + h2 * (C / m.num_heads) + d]
        * (Real.sqrt (((C / m.num_heads : ℕ)) : ℝ))⁻¹
      = qkvy.data
        [b2, n2, 0 * (m.num_heads * (C / m.num_heads)) + h2 * (C / m.num_heads) + d]
        * (Real.sqrt (((C / m.num_heads : ℕ)) : ℝ))⁻¹
    rw [hqkv n2 _ hn2]
  have hk : ∀ h2 n2 d, n2 < N → kx.data [bx, h2, n2, d] = ky.data [b2, h2, n2, d] := by
    intro h2 n2 d hn2
    show qkvx.data
        [bx, n2, 1 * (m.num_heads * (C / m.num_heads)) + h2 * (C / m.num_heads) + d]
      = qkvy.data
        [b2, n2, 1 * (m.num_heads * (C / m.num_heads)) + h2 * (C / m.num_heads) + d]
    rw [hqkv n2 _ hn2]
  have hv : ∀ h2 n2 d, n2 < N → vx.data [bx, h2, n2, d] = vy.data [b2, h2, n2, d] := by
    intro h2 n2 d hn2
    show qkvx.data
        [bx, n2, 2 * (m.num_heads * (C / m.num_heads)) + h2 * (C / m.num_heads) + d]
      = qkvy.data
        [b2, n2, 2 * (m.num_heads * (C / m.num_heads)) + h2 * (C / m.num_heads) + d]
    rw [hqkv n2 _ hn2]
  let attnx : Tensor ℝ := matmulLast qx (transposeLast2 kx)
  let attny : Tensor ℝ := matmulLast qy (transposeLast2 ky)
  have hattn : ∀ h2 i2 j2, i2 < N → j2 < N →
      attnx.data [bx, h2, i2, j2] = attny.data [b2, h2, i2, j2] := by
    intro h2 i2 j2 hi hj
    show (∑ k2 ∈ Finset.range (C / m.num_heads),
          qx.data [bx, h2, i2, k2] * kx.data [bx, h2, j2, k2])
        = ∑ k2 ∈ Finset.range (C / m.num_heads),
          qy.data [b2, h2, i2, k2] * ky.data [b2, h2, j2, k2]
    exact Finset.sum_congr rfl fun k2 _ => by
      rw [hq h2 i2 k2 hi, hk h2 j2 k2 hj]
  let attn1x : Tensor ℝ :=
    ⟨attnx.shape, fun idx =>
      match idx with
      | [b, h, i2, j2] => attnx.data [b, h, i2, j2]
          + m.rpb_table (relative_position_index m.window_size i2 j2).toNat h
      | _ => attnx.data idx⟩
  let attn1y : Tensor ℝ :=
    ⟨attny.shape, fun idx =>
      match idx with
      | [b, h, i2, j2] => attny.data [b, h, i2, j2]
          + m.rpb_table (relative_position_index m.window_size i2 j2).toNat h
      | _ => attny.data idx⟩
  have hattn1 : ∀ h2 i2 j2, i2 < N → j2 < N →
      attn1x.data [bx, h2, i2, j2] = attn1y.data [b2, h2, i2, j2] := by
    intro h2 i2 j2 hi hj
    show attnx.data [bx, h2, i2, j2]
          + m.rpb_table (relative_position_index m.window_size i2 j2).toNat h2
        = attny.data [b2, h2, i2, j2]
          + m.rpb_table (relative_position_index m.window_size i2 j2).toNat h2
    rw [hattn h2 i2 j2 hi hj]
  have hattn2 : ∀ h2 i2 j2, i2 < N → j2 < N →
      (softmaxLast N attn1x).data [bx, h2, i2, j2]
        = (softmaxLast N attn1y).data [b2, h2, i2, j2] := by
    intro h2 i2 j2 hi hj
    show Real.exp (attn1x.data [bx, h2, i2, j2])
          / ∑ k2 ∈ Finset.range N, Real.exp (attn1x.data [bx, h2, i2, k2])
        = Real.exp (attn1y.data [b2, h2, i2, j2])
          / ∑ k2 ∈ Finset.range N, Real.exp (attn1y.data [b2, h2, i2, k2])
    rw [hattn1 h2 i2 j2 hi hj]
    congr 1
    exact Finset.sum_congr rfl fun k2 hk2 => by
      rw [hattn1 h2 i2 k2 hi (Finset.mem_range.mp hk2)]
  have hout : ∀ h2 n2 d, n2 < N →
      (matmulLast (softmaxLast N attn1x) vx).data [bx, h2, n2, d]
        = (matmulLast (softmaxLast N attn1y) vy).data [b2, h2, n2, d] := by
    intro h2 n2 d hn2
    show (∑ k2 ∈ Finset.range N,
          (softmaxLast N attn1x).data [bx, h2, n2, k2] * vx.data [bx, h2, k2, d])
        = ∑ k2 ∈ Finset.range N,
          (softmaxLast N attn1y).data [b2, h2, n2, k2] * vy.data [b2, h2, k2, d]
    exact Finset.sum_congr rfl fun k2 hk2 => by
      rw [hattn2 h2 n2 k2 hn2 (Finset.mem_range.mp hk2),
        hv h2 k2 d (Finset.mem_range.mp hk2)]
  let mergedx : Tensor ℝ :=
    ⟨[Bx, N, C], fun idx =>
      match idx with
      | [b, n2, c2] => (matmulLast (softmaxLast N attn1x) vx).data
          [b, c2 / (C / m.num_heads), n2, c2 % (C / m.num_heads)]
      | _ => 0⟩
  let mergedy : Tensor ℝ :=
    ⟨[By, N, C], fun idx =>
      match idx with
      | [b, n2, c2] => (matmulLast (softmaxLast N attn1y) vy).data
          [b, c2 / (C / m.num_heads), n2, c2 % (C / m.num_heads)]
      | _ => 0⟩
  have hmerged : ∀ n2 c2, n2 < N → mergedx.data [bx, n2, c2] = mergedy.data [b2, n2, c2] := by
    intro n2 c2 hn2
    show (matmulLast (softmaxLast N attn1x) vx).data
          [bx, c2 / (C / m.num_heads), n2, c2 % (C / m.num_heads)]
        = (matmulLast (softmaxLast N attn1y) vy).data
          [b2, c2 / (C / m.num_heads), n2, c2 % (C / m.num_heads)]
    exact hout _ n2 _ hn2
  show (∑ k ∈ Finset.range C, m.proj_w c k * mergedx.data [bx, n, k]) + m.proj_b c
      = (∑ k ∈ Finset.range C, m.proj_w c k * mergedy.data [b2, n, k]) + m.proj_b c
  congr 1
  exact Finset.sum_congr rfl fun k _ => by rw [hmerged n k hn]

/-- `WindowAttention.forward` with a shared mask preserves batch-offset
agreement when the offset is a multiple of the window count. -/
theorem wattn_forward_offEq_some (m : WindowAttention) {S : ℕ}
    (a b msk : Tensor ℝ) (Ba Bb N C : ℕ)
    (ha : a.shape = [Ba, N, C]) (hb : b.shape = [Bb, N, C])
    (hdvd : msk.shape.headD 0 ∣ S) (h : OffEq S a b) :
    OffEq S (m.forward a (some msk)) (m.forward b (some msk)) := by
  intro q rest hv
  have hsh := wattn_forward_shape m a (some msk) Ba N C ha
  rw [hsh] at hv
  obtain ⟨n, c', rfl, hq, hn, _⟩ := validIdx_cons_three hv
  have hread : ∀ n2 k, n2 < N → k < C → a.data [q, n2, k] = b.data [S + q, n2, k] :=
    fun n2 k h1 h2 => h q [n2, k] (by rw [ha]; exact validIdx_mk3 hq h1 h2)
  have hmod : q % msk.shape.headD 0 = (S + q) % msk.shape.headD 0 := by
    obtain ⟨e, rfl⟩ := hdvd
    rw [Nat.mul_add_mod]
  exact wattn_forward_data_ext m a b msk Ba Bb N C q (S + q)
    ha hb hread hmod n c' hn

/-- `WindowAttention.forward` without a mask preserves batch-offset
agreement. -/
theorem wattn_forward_offEq_none (m : WindowAttention) {S : ℕ}
    (a b : Tensor ℝ) (Ba Bb N C : ℕ)
    (ha : a.shape = [Ba, N, C]) (hb : b.shape = [Bb, N, C]) (h : OffEq S a b) :
    OffEq S (m.forward a none) (m.forward b none) := by
  intro q rest hv
  have hsh := wattn_forward_shape m a none Ba N C ha
  rw [hsh] at hv
  obtain ⟨n, c', rfl, hq, hn, _⟩ := validIdx_cons_three hv
  have hread : ∀ n2 k, n2 < N → k < C → a.data [q, n2, k] = b.data [S + q, n2, k] :=
    fun n2 k h1 h2 => h q [n2, k] (by rw [ha]; exact validIdx_mk3 hq h1 h2)
  exact wattn_forward_data_ext_none m a b Ba Bb N C q (S + q)
    ha hb hread n c' hn

end BEN

namespace BEN

/-- The windowed-attention branch of a Swin block preserves batch-offset
agreement: the shared attention mask is indexed modulo the per-tile window
count, so tiles at offset `S` see the same mask. -/
theorem attn_branch_offEq (m : SwinTransformerBlock) {S : ℕ} (H W : ℕ)
    (a b mask_matrix : Tensor ℝ) (Ba Bb C : ℕ)
    (ha : a.shape = [Ba, H * W, C]) (hb : b.shape = [Bb, H * W, C])
    (hH : 0 < H) (hW : 0 < W) (hws : 0 < m.window_size) (hdim : m.dim ≤ C)
    (hmsk : mask_matrix.shape.headD 0
      = (H + (m.window_size - H % m.window_size) % m.window_size) / m.window_size
        * ((W + (m.window_size - W % m.window_size) % m.window_size) / m.window_size))
    (h : OffEq S a b) :
    OffEq S (m.attn_branch H W a mask_matrix) (m.attn_branch H W b mask_matrix) := by
  have hpdh := pad_dvd H m.window_size hws
  have hpdw := pad_dvd W m.window_size hws
  have hnH : 0 < (H + (m.window_size - H % m.window_size) % m.window_size)
      / m.window_size := Nat.div_pos (Nat.le_of_dvd (by omega) hpdh) hws
  have hnW : 0 < (W + (m.window_size - W % m.window_size) % m.window_size)
      / m.window_size := Nat.div_pos (Nat.le_of_dvd (by omega) hpdw) hws
  have s1a : (layerNorm m.dim m.norm1 a).shape = [Ba, H * W, C] := ha
  have s1b : (layerNorm m.dim m.norm1 b).shape = [Bb, H * W, C] := hb
  have e1 := layerNorm_offEq m.dim m.norm1 Ba (H * W) C ha hdim h
  have s2a := view_grid_shape _ Ba (H * W) C H W s1a
  have s2b := view_grid_shape _ Bb (H * W) C H W s1b
  have e2 := view_grid_offEq _ _ Ba Bb H W C s1a s1b e1
  have s3a : (pad_hw (view_grid (layerNorm m.dim m.norm1 a) H W) 0
      ((m.window_size - W % m.window_size) % m.window_size) 0
      ((m.window_size - H % m.window_size) % m.window_size)).shape
      = [Ba, H + (m.window_size - H % m.window_size) % m.window_size,
         W + (m.window_size - W % m.window_size) % m.window_size, C] := by
    simpa using pad_hw_shape _ Ba H W C 0
      ((m.window_size - W % m.window_size) % m.window_size) 0
      ((m.window_size - H % m.window_size) % m.window_size) s2a
  have s3b : (pad_hw (view_grid (layerNorm m.dim m.norm1 b) H W) 0
      ((m.window_size - W % m.window_size) % m.window_size) 0
      ((m.window_size - H % m.window_size) % m.window_size)).shape
      = [Bb, H + (m.window_size - H % m.window_size) % m.window_size,
         W + (m.window_size - W % m.window_size) % m.window_size, C] := by
    simpa using pad_hw_shape _ Bb H W C 0
      ((m.window_size - W % m.window_size) % m.window_size) 0
      ((m.window_size - H % m.window_size) % m.window_size) s2b
  have e3 := pad_hw_offEq _ _ Ba Bb H W C 0
    ((m.window_size - W % m.window_size) % m.window_size) 0
    ((m.window_size - H % m.window_size) % m.window_size) s2a s2b e2
  have hdvd : mask_matrix.shape.headD 0
      ∣ S * ((H + (m.window_size - H % m.window_size) % m.window_size) / m.window_size
        * ((W + (m.window_size - W % m.window_size) % m.window_size) / m.window_size)) := by
    rw [hmsk]
    exact dvd_mul_left _ S
  by_cases hs : 0 < m.shift_size
  · have s4a := roll_hw_shape _ Ba _ _ C (-(m.shift_size : ℤ)) (-(m.shift_size : ℤ)) s3a
    have s4b := roll_hw_shape _ Bb _ _ C (-(m.shift_size : ℤ)) (-(m.shift_size : ℤ)) s3b
    have e4 := roll_hw_offEq _ _ Ba Bb _ _ C (-(m.shift_size : ℤ)) (-(m.shift_size : ℤ))
      s3a s3b (by omega) (by omega) e3
    have s5a := window_partition_shape _ Ba _ _ C m.window_size s4a
    have s5b := window_partition_shape _ Bb _ _ C m.window_size s4b
    have e5 := window_partition_offEq _ _ Ba Bb _ _ C m.window_size s4a s4b hnH hnW e4
    have s6a := win_to_tokens_shape _ _ m.window_size m.window_size C m.window_size s5a
    have s6b := win_to_tokens_shape _ _ m.window_size m.window_size C m.window_size s5b
    have e6 := win_to_tokens_offEq _ _ _ _ C m.window_size s5a s5b hws e5
    have s7a := wattn_forward_shape m.attn _ (some mask_matrix) _ _ C s6a
    have s7b := wattn_forward_shape m.attn _ (some mask_matrix) _ _ C s6b
    have e7 := wattn_forward_offEq_some m.attn _ _ mask_matrix _ _ _ C
      s6a s6b hdvd e6
    have s8a := tokens_to_win_shape _ _ _ C m.window_size s7a
    have s8b := tokens_to_win_shape _ _ _ C m.window_size s7b
    have e8 := tokens_to_win_offEq _ _ _ _ C m.window_size s7a s7b e7
    have s8a' : (tokens_to_win (m.attn.forward (win_to_tokens (window_partition
        (roll_hw (pad_hw (view_grid (layerNorm m.dim m.norm1 a) H W) 0
          ((m.window_size - W % m.window_size) % m.window_size) 0
          ((m.window_size - H % m.window_size) % m.window_size))
          (-(m.shift_size : ℤ)) (-(m.shift_size : ℤ))) m.window_size) m.window_size)
        (some mask_matrix)) m.window_size).shape
        = [Ba * ((H + (m.window_size - H % m.window_size) % m.window_size) / m.window_size
            * ((W + (m.window_size - W % m.window_size) % m.window_size) / m.window_size)),
           m.window_size, m.window_size, C] := by
      rw [s8a, Nat.mul_assoc]
    have s8b' : (tokens_to_win (m.attn.forward (win_to_tokens (window_partition
        (roll_hw (pad_hw (view_grid (layerNorm m.dim m.norm1 b) H W) 0
          ((m.window_size - W % m.window_size) % m.window_size) 0
          ((m.window_size - H % m.window_size) % m.window_size))
          (-(m.shift_size : ℤ)) (-(m.shift_size : ℤ))) m.window_size) m.window_size)
        (some mask_matrix)) m.window_size).shape
        = [Bb * ((H + (m.window_size - H % m.window_size) % m.window_size) / m.window_size
            * ((W + (m.window_size - W % m.window_size) % m.window_size) / m.window_size)),
           m.window_size, m.window_size, C] := by
      rw [s8b, Nat.mul_assoc]
    have e9 := window_reverse_offEq _ _ Ba _ C m.window_size
      (H + (m.window_size - H % m.window_size) % m.window_size)
      (W + (m.window_size - W % m.window_size) % m.window_size)
      s8a' s8b' hnH hnW hpdh hpdw hws e8
    have s9a := window_reverse_shape _ _ m.window_size m.window_size C m.window_size
      (H + (m.window_size - H % m.window_size) % m.window_size)
      (W + (m.window_size - W % m.window_size) % m.window_size) s8a
    have s9b := window_reverse_shape _ _ m.window_size m.window_size C m.window_size
      (H + (m.window_size - H % m.window_size) % m.window_size)
      (W + (m.window_size - W % m.window_size) % m.window_size) s8b
    have hNwa : Ba * ((H + (m.window_size - H % m.window_size) % m.window_size)
          / m.window_size)
        * ((W + (m.window_size - W % m.window_size) % m.window_size) / m.window_size)
        / ((H + (m.window_size - H % m.window_size) % m.window_size) / m.window_size
           * ((W + (m.window_size - W % m.window_size) % m.window_size) / m.window_size))
        = Ba := by
      rw [Nat.mul_assoc]
      exact Nat.mul_div_cancel Ba (Nat.mul_pos hnH hnW)
    have hNwb : Bb * ((H + (m.window_size - H % m.window_size) % m.window_size)
          / m.window_size)
        * ((W + (m.window_size - W % m.window_size) % m.window_size) / m.window_size)
        / ((H + (m.window_size - H % m.window_size) % m.window_size) / m.window_size
           * ((W + (m.window_size - W % m.window_size) % m.window_size) / m.window_size))
        = Bb := by
      rw [Nat.mul_assoc]
      exact Nat.mul_div_cancel Bb (Nat.mul_pos hnH hnW)
    rw [hNwa] at s9a
    rw [hNwb] at s9b
    have e10 := roll_hw_offEq _ _ Ba Bb _ _ C (m.shift_size : ℤ) (m.shift_size : ℤ)
      s9a s9b (by omega) (by omega) e9
    have s10a := roll_hw_shape _ Ba _ _ C (m.shift_size : ℤ) (m.shift_size : ℤ) s9a
    have s10b := roll_hw_shape _ Bb _ _ C (m.shift_size : ℤ) (m.shift_size : ℤ) s9b
    have e11 := crop_hw_offEq _ _ Ba Bb _ _ C H W s10a s10b
      (Nat.le_add_right H _) (Nat.le_add_right W _) e10
    have s11a := crop_hw_shape _ Ba _ _ C H W s10a
    have s11b := crop_hw_shape _ Bb _ _ C H W s10b
    have e12 := view_tokens_offEq _ _ Ba Bb H W C s11a s11b hW e11
    simp only [SwinTransformerBlock.attn_branch, if_pos hs]
    exact e12
  · have s5a := window_partition_shape _ Ba _ _ C m.window_size s3a
    have s5b := window_partition_shape _ Bb _ _ C m.window_size s3b
    have e5 := window_partition_offEq _ _ Ba Bb _ _ C m.window_size s3a s3b hnH hnW e3
    have s6a := win_to_tokens_shape _ _ m.window_size m.window_size C m.window_size s5a
    have s6b := win_to_tokens_shape _ _ m.window_size m.window_size C m.window_size s5b
    have e6 := win_to_tokens_offEq _ _ _ _ C m.window_size s5a s5b hws e5
    have s7a := wattn_forward_shape m.attn _ none _ _ C s6a
    have s7b := wattn_forward_shape m.attn _ none _ _ C s6b
    have e7 := wattn_forward_offEq_none m.attn _ _ _ _ _ C s6a s6b e6
    have s8a := tokens_to_win_shape _ _ _ C m.window_size s7a
    have s8b := tokens_to_win_shape _ _ _ C m.window_size s7b
    have e8 := tokens_to_win_offEq _ _ _ _ C m.window_size s7a s7b e7
    have s8a' : (tokens_to_win (m.attn.forward (win_to_tokens (window_partition
        (pad_hw (view_grid (layerNorm m.dim m.norm1 a) H W) 0
          ((m.window_size - W % m.window_size) % m.window_size) 0
          ((m.window_size - H % m.window_size) % m.window_size)) m.window_size)
          m.window_size) none) m.window_size).shape
        = [Ba * ((H + (m.window_size - H % m.window_size) % m.window_size) / m.window_size
            * ((W + (m.window_size - W % m.window_size) % m.window_size) / m.window_size)),
           m.window_size, m.window_size, C] := by
      rw [s8a, Nat.mul_assoc]
    have s8b' : (tokens_to_win (m.attn.forward (win_to_tokens (window_partition
        (pad_hw (view_grid (layerNorm m.dim m.norm1 b) H W) 0
          ((m.window_size - W % m.window_size) % m.window_size) 0
          ((m.window_size - H % m.window_size) % m.window_size)) m.window_size)
          m.window_size) none) m.window_size).shape
        = [Bb * ((H + (m.window_size - H % m.window_size) % m.window_size) / m.window_size
            * ((W + (m.window_size - W % m.window_size) % m.window_size) / m.window_size)),
           m.window_size, m.window_size, C] := by
      rw [s8b, Nat.mul_assoc]
    have e9 := window_reverse_offEq _ _ Ba _ C m.window_size
      (H + (m.window_size - H % m.window_size) % m.window_size)
      (W + (m.window_size - W % m.window_size) % m.window_size)
      s8a' s8b' hnH hnW hpdh hpdw hws e8
    have s9a := window_reverse_shape _ _ m.window_size m.window_size C m.window_size
      (H + (m.window_size - H % m.window_size) % m.window_size)
      (W + (m.window_size - W % m.window_size) % m.window_size) s8a
    have s9b := window_reverse_shape _ _ m.window_size m.window_size C m.window_size
      (H + (m.window_size - H % m.window_size) % m.window_size)
      (W + (m.window_size - W % m.window_size) % m.window_size) s8b
    have hNwa : Ba * ((H + (m.window_size - H % m.window_size) % m.window_size)
          / m.window_size)
        * ((W + (m.window_size - W % m.window_size) % m.window_size) / m.window_size)
        / ((H + (m.window_size - H % m.window_size) % m.window_size) / m.window_size
           * ((W + (m.window_size - W % m.window_size) % m.window_size) / m.window_size))
        = Ba := by
      rw [Nat.mul_assoc]
      exact Nat.mul_div_cancel Ba (Nat.mul_pos hnH hnW)
    have hNwb : Bb * ((H + (m.window_size - H % m.window_size) % m.window_size)
          / m.window_size)
        * ((W + (m.window_size - W % m.window_size) % m.window_size) / m.window_size)
        / ((H + (m.window_size - H % m.window_size) % m.window_size) / m.window_size
           * ((W + (m.window_size - W % m.window_size) % m.window_size) / m.window_size))
        = Bb := by
      rw [Nat.mul_assoc]
      exact Nat.mul_div_cancel Bb (Nat.mul_pos hnH hnW)
    rw [hNwa] at s9a
    rw [hNwb] at s9b
    have e11 := crop_hw_offEq _ _ Ba Bb _ _ C H W s9a s9b
      (Nat.le_add_right H _) (Nat.le_add_right W _) e9
    have s11a := crop_hw_shape _ Ba _ _ C H W s9a
    have s11b := crop_hw_shape _ Bb _ _ C H W s9b
    have e12 := view_tokens_offEq _ _ Ba Bb H W C s11a s11b hW e11
    simp only [SwinTransformerBlock.attn_branch, if_neg hs]
    exact e12

end BEN

namespace BEN

/-- A full Swin block (attention branch plus the two residual adds) preserves
batch-offset agreement. -/
theorem swin_block_offEq (m : SwinTransformerBlock) {S : ℕ} (H W : ℕ)
    (a b mask_matrix : Tensor ℝ) (Ba Bb C : ℕ)
    (ha : a.shape = [Ba, H * W, C]) (hb : b.shape = [Bb, H * W, C])
    (hH : 0 < H) (hW : 0 < W) (hws : 0 < m.window_size)
    (hshift : m.shift_size < m.window_size)
    (hdim : m.dim ≤ C) (hmlp : m.mlp.in_features = C)
    (hmsk : mask_matrix.shape.headD 0
      = (H + (m.window_size - H % m.window_size) % m.window_size) / m.window_size
        * ((W + (m.window_size - W % m.window_size) % m.window_size) / m.window_size))
    (h : OffEq S a b) :
    OffEq S (m.forward H W a mask_matrix) (m.forward H W b mask_matrix) := by
  have hbr := attn_branch_offEq m H W a b mask_matrix Ba Bb C ha hb hH hW hws hdim hmsk h
  have hbsha := (swin_block_shape m Ba H W C a mask_matrix ha hH hW hws hshift).2
  have h1 := tadd_offEq h hbr (hbsha.trans ha.symm)
  have s1a : (tadd a (m.attn_branch H W a mask_matrix)).shape = [Ba, H * W, C] := ha
  have s1b : (tadd b (m.attn_branch H W b mask_matrix)).shape = [Bb, H * W, C] := hb
  have h2 := layerNorm_offEq m.dim m.norm2 Ba (H * W) C s1a hdim h1
  have s2a : (layerNorm m.dim m.norm2
      (tadd a (m.attn_branch H W a mask_matrix))).shape = [Ba, H * W, C] := s1a
  have s2b : (layerNorm m.dim m.norm2
      (tadd b (m.attn_branch H W b mask_matrix))).shape = [Bb, H * W, C] := s1b
  have h3 := mlp_forward_offEq m.mlp _ _ Ba Bb (H * W) C s2a s2b (le_of_eq hmlp) h2
  have smlpa : (m.mlp.forward (layerNorm m.dim m.norm2
      (tadd a (m.attn_branch H W a mask_matrix)))).shape = [Ba, H * W, C] := by
    show (a.shape.dropLast ++ [m.mlp.hidden_features]).dropLast ++ [m.mlp.in_features]
        = [Ba, H * W, C]
    rw [ha, hmlp]
    rfl
  exact tadd_offEq h1 h3 (smlpa.trans s1a.symm)

end BEN

namespace BEN

/-- The `ceil`-style padded extent used by `BasicLayer.forward` for the mask
equals the extent produced by the block's own padding. -/
theorem pad_total (H ws : ℕ) (hws : 0 < ws) :
    (H + ws - 1) / ws * ws = H + (ws - H % ws) % ws := by
  obtain ⟨k, hk⟩ := pad_dvd H ws hws
  have hm : (ws - H % ws) % ws < ws := Nat.mod_lt _ hws
  have hP1 : H ≤ ws * k := by
    rw [← hk]
    exact Nat.le_add_right H _
  have hP2 : ws * k < H + ws := by
    rw [← hk]
    exact Nat.add_lt_add_left hm H
  have hdiv : (H + ws - 1) / ws = k := by
    apply Nat.div_eq_of_lt_le
    · have h1 : k * ws = ws * k := Nat.mul_comm k ws
      omega
    · have h1 : (k + 1) * ws = ws * k + ws := by ring
      omega
  rw [hdiv]
  have h2 : k * ws = ws * k := Nat.mul_comm k ws
  omega

/-- The window count (leading extent) of the shared attention mask. -/
theorem attention_mask_headD (Hp Wp ws shift : ℕ) :
    (attention_mask ℝ Hp Wp ws shift).shape.headD 0
      = 1 * (Hp / ws) * (Wp / ws) := rfl

/-- Folding a stage's blocks over two batches preserves batch-offset
agreement when every block's window/shift/width configuration is admissible
and the shared mask has one tile's window count. -/
theorem blocks_foldl_offEq (blocks : List SwinTransformerBlock) (M : Tensor ℝ)
    {S : ℕ} (Ba Bb H W C : ℕ) (hH : 0 < H) (hW : 0 < W) :
    ∀ a b : Tensor ℝ, a.shape = [Ba, H * W, C] → b.shape = [Bb, H * W, C] →
    OffEq S a b →
    (∀ blk ∈ blocks, 0 < blk.window_size ∧ blk.shift_size < blk.window_size
      ∧ blk.dim ≤ C ∧ blk.mlp.in_features = C
      ∧ M.shape.headD 0
        = (H + (blk.window_size - H % blk.window_size) % blk.window_size)
            / blk.window_size
          * ((W + (blk.window_size - W % blk.window_size) % blk.window_size)
            / blk.window_size)) →
    OffEq S (blocks.foldl (fun acc blk => blk.forward H W acc M) a)
      (blocks.foldl (fun acc blk => blk.forward H W acc M) b) := by
  induction blocks with
  | nil =>
      intro a b _ _ h _
      simpa using h
  | cons blk rest ih =>
      intro a b hxa hxb h hb
      simp only [List.foldl_cons]
      have hc := hb blk (List.mem_cons_self blk rest)
      exact ih _ _
        ((swin_block_shape blk Ba H W C a M hxa hH hW hc.1 hc.2.1).1)
        ((swin_block_shape blk Bb H W C b M hxb hH hW hc.1 hc.2.1).1)
        (swin_block_offEq blk H W a b M Ba Bb C hxa hxb hH hW hc.1 hc.2.1
          hc.2.2.1 hc.2.2.2.1 hc.2.2.2.2 h)
        fun b' hm => hb b' (List.mem_cons_of_mem blk hm)

/-- Every block of `mkBasicLayer dim …` satisfies the conditions of
`blocks_foldl_offEq` at width `dim`, against the stage's own mask. -/
theorem mkBasicLayer_blocks_cond2 (dim depth nh ws : ℕ) (hws : 0 < ws)
    (bw : ℕ → BlockW) (ds : Option PatchMerging) (H W : ℕ) :
    ∀ blk ∈ (mkBasicLayer dim depth nh ws bw ds).blocks,
      0 < blk.window_size ∧ blk.shift_size < blk.window_size
      ∧ blk.dim ≤ dim ∧ blk.mlp.in_features = dim
      ∧ (attention_mask ℝ ((H + ws - 1) / ws * ws) ((W + ws - 1) / ws * ws)
          ws (ws / 2)).shape.headD 0
        = (H + (blk.window_size - H % blk.window_size) % blk.window_size)
            / blk.window_size
          * ((W + (blk.window_size - W % blk.window_size) % blk.window_size)
            / blk.window_size) := by
  intro blk hm
  simp only [mkBasicLayer, List.mem_map] at hm
  obtain ⟨i, _, rfl⟩ := hm
  refine ⟨hws, ?_, le_refl dim, rfl, ?_⟩
  · show (if i % 2 = 0 then 0 else ws / 2) < ws
    split
    · exact hws
    · exact Nat.div_lt_self hws (by norm_num)
  · show (attention_mask ℝ ((H + ws - 1) / ws * ws) ((W + ws - 1) / ws * ws)
        ws (ws / 2)).shape.headD 0
      = (H + (ws - H % ws) % ws) / ws * ((W + (ws - W % ws) % ws) / ws)
    rw [attention_mask_headD, pad_total H ws hws, pad_total W ws hws, one_mul]

/-- The `flatten(2).transpose(1, 2)` reshape of a `(B, C, H, W)` feature map
into `(B, H·W, E)` tokens (reading only the first `E ≤ C` channels)
preserves batch-offset agreement. -/
theorem tokens_in_offEq {S : ℕ} (xa xb : Tensor ℝ) (Ba Bb C H W E : ℕ)
    (hxa : xa.shape = [Ba, C, H, W]) (hxb : xb.shape = [Bb, C, H, W])
    (hW : 0 < W) (hE : E ≤ C) (h : OffEq S xa xb) :
    OffEq S
      (⟨[Ba, H * W, E], fun idx =>
        match idx with
        | [bb, t, cc] => xa.data [bb, cc, t / W, t % W]
        | _ => 0⟩ : Tensor ℝ)
      (⟨[Bb, H * W, E], fun idx =>
        match idx with
        | [bb, t, cc] => xb.data [bb, cc, t / W, t % W]
        | _ => 0⟩ : Tensor ℝ) := by
  intro i rest hv
  obtain ⟨t, cc, rfl, hi, ht, hcc⟩ := validIdx_cons_three hv
  show xa.data [i, cc, t / W, t % W] = xb.data [S + i, cc, t / W, t % W]
  exact h i [cc, t / W, t % W] (by
    rw [hxa]
    exact validIdx_mk4 hi (lt_of_lt_of_le hcc hE)
      ((Nat.div_lt_iff_lt_mul hW).mpr ht) (Nat.mod_lt _ hW))

/-- The `view(-1, H, W, C).permute(0, 3, 1, 2)` reshape of a `(B, L, C)`
token tensor into a `(B, nf, H, W)` grid (with `H·W ≤ L` and `nf ≤ C`)
preserves batch-offset agreement. -/
theorem grid_out_offEq {S : ℕ} (xa xb : Tensor ℝ) (Ba Bb L C nf H W : ℕ)
    (hxa : xa.shape = [Ba, L, C]) (hxb : xb.shape = [Bb, L, C])
    (hL : H * W ≤ L) (hnf : nf ≤ C) (h : OffEq S xa xb) :
    OffEq S
      (⟨[xa.shape.headD 0, nf, H, W], fun idx =>
        match idx with
        | [bb, cc, ii, jj] => xa.data [bb, ii * W + jj, cc]
        | _ => 0⟩ : Tensor ℝ)
      (⟨[xb.shape.headD 0, nf, H, W], fun idx =>
        match idx with
        | [bb, cc, ii, jj] => xb.data [bb, ii * W + jj, cc]
        | _ => 0⟩ : Tensor ℝ) := by
  intro i rest hv
  rw [hxa] at hv
  obtain ⟨cc, ii, jj, rfl, hi, hcc, hii, hjj⟩ := validIdx_cons_four hv
  have hi' : i < Ba := by simpa using hi
  show xa.data [i, ii * W + jj, cc] = xb.data [S + i, ii * W + jj, cc]
  exact h i [ii * W + jj, cc] (by
    rw [hxa]
    exact validIdx_mk3 hi' (lt_of_lt_of_le (idx_flatten_lt hii hjj) hL)
      (lt_of_lt_of_le hcc hnf))

end BEN

namespace BEN

/-- `PatchMerging.forward` (pad-to-even, 2×2 gather, flatten, norm,
bias-free projection) preserves batch-offset agreement. -/
theorem patch_merging_forward_offEq (m : PatchMerging) {S : ℕ} (a b : Tensor ℝ)
    (Ba Bb H W C : ℕ) (ha : a.shape = [Ba, H * W, C]) (hb : b.shape = [Bb, H * W, C])
    (hW : 0 < W) (h : OffEq S a b) :
    OffEq S (m.forward a H W) (m.forward b H W) := by
  obtain ⟨sha, da⟩ := a
  obtain ⟨shb, db⟩ := b
  simp only [Tensor.shape] at ha hb
  subst ha
  subst hb
  have e1 := view_grid_offEq (⟨[Ba, H * W, C], da⟩ : Tensor ℝ)
    (⟨[Bb, H * W, C], db⟩ : Tensor ℝ) Ba Bb H W C rfl rfl h
  have e2 := pad_hw_offEq _ _ Ba Bb H W C 0 (W % 2) 0 (H % 2)
    (view_grid_shape _ Ba (H * W) C H W rfl) (view_grid_shape _ Bb (H * W) C H W rfl) e1
  have hpsa : (pad_hw (view_grid (⟨[Ba, H * W, C], da⟩ : Tensor ℝ) H W)
      0 (W % 2) 0 (H % 2)).shape = [Ba, H + H % 2, W + W % 2, C] := by
    simpa using pad_hw_shape _ Ba H W C 0 (W % 2) 0 (H % 2)
      (view_grid_shape _ Ba (H * W) C H W rfl)
  have hpsb : (pad_hw (view_grid (⟨[Bb, H * W, C], db⟩ : Tensor ℝ) H W)
      0 (W % 2) 0 (H % 2)).shape = [Bb, H + H % 2, W + W % 2, C] := by
    simpa using pad_hw_shape _ Bb H W C 0 (W % 2) 0 (H % 2)
      (view_grid_shape _ Bb (H * W) C H W rfl)
  have e3 : OffEq S
      (⟨[Ba, (H + H % 2) / 2, (W + W % 2) / 2, 4 * C], fun idx =>
        match idx with
        | [bb, ii, jj, c4] =>
            (pad_hw (view_grid (⟨[Ba, H * W, C], da⟩ : Tensor ℝ) H W)
              0 (W % 2) 0 (H % 2)).data
              [bb, 2 * ii + c4 / C % 2, 2 * jj + c4 / C / 2, c4 % C]
        | _ => 0⟩ : Tensor ℝ)
      (⟨[Bb, (H + H % 2) / 2, (W + W % 2) / 2, 4 * C], fun idx =>
        match idx with
        | [bb, ii, jj, c4] =>
            (pad_hw (view_grid (⟨[Bb, H * W, C], db⟩ : Tensor ℝ) H W)
              0 (W % 2) 0 (H % 2)).data
              [bb, 2 * ii + c4 / C % 2, 2 * jj + c4 / C / 2, c4 % C]
        | _ => 0⟩ : Tensor ℝ) := by
    intro i rest hv
    obtain ⟨ii, jj, c4, rfl, hi, hii, hjj, hc4⟩ := validIdx_cons_four hv
    have hC : 0 < C := by omega
    have hq4 : c4 / C < 4 := (Nat.div_lt_iff_lt_mul hC).mpr (by omega)
    show (pad_hw (view_grid (⟨[Ba, H * W, C], da⟩ : Tensor ℝ) H W)
        0 (W % 2) 0 (H % 2)).data
        [i, 2 * ii + c4 / C % 2, 2 * jj + c4 / C / 2, c4 % C]
      = (pad_hw (view_grid (⟨[Bb, H * W, C], db⟩ : Tensor ℝ) H W)
        0 (W % 2) 0 (H % 2)).data
        [S + i, 2 * ii + c4 / C % 2, 2 * jj + c4 / C / 2, c4 % C]
    refine e2 i [2 * ii + c4 / C % 2, 2 * jj + c4 / C / 2, c4 % C] ?_
    rw [hpsa]
    exact validIdx_mk4 hi (by omega) (by omega) (Nat.mod_lt _ hC)
  have e4 : OffEq S
      (⟨[Ba, (H + H % 2) / 2 * ((W + W % 2) / 2), 4 * C], fun idx =>
        match idx with
        | [bb, l, c4] =>
            (⟨[Ba, (H + H % 2) / 2, (W + W % 2) / 2, 4 * C], fun idx2 =>
              match idx2 with
              | [bb2, ii, jj, c42] =>
                  (pad_hw (view_grid (⟨[Ba, H * W, C], da⟩ : Tensor ℝ) H W)
                    0 (W % 2) 0 (H % 2)).data
                    [bb2, 2 * ii + c42 / C % 2, 2 * jj + c42 / C / 2, c42 % C]
              | _ => 0⟩ : Tensor ℝ).data
              [bb, l / ((W + W % 2) / 2), l % ((W + W % 2) / 2), c4]
        | _ => 0⟩ : Tensor ℝ)
      (⟨[Bb, (H + H % 2) / 2 * ((W + W % 2) / 2), 4 * C], fun idx =>
        match idx with
        | [bb, l, c4] =>
            (⟨[Bb, (H + H % 2) / 2, (W + W % 2) / 2, 4 * C], fun idx2 =>
              match idx2 with
              | [bb2, ii, jj, c42] =>
                  (pad_hw (view_grid (⟨[Bb, H * W, C], db⟩ : Tensor ℝ) H W)
                    0 (W % 2) 0 (H % 2)).data
                    [bb2, 2 * ii + c42 / C % 2, 2 * jj + c42 / C / 2, c42 % C]
              | _ => 0⟩ : Tensor ℝ).data
              [bb, l / ((W + W % 2) / 2), l % ((W + W % 2) / 2), c4]
        | _ => 0⟩ : Tensor ℝ) := by
    intro i rest hv
    obtain ⟨l, c4, rfl, hi, hl, hc4⟩ := validIdx_cons_three hv
    have hw2 : 0 < (W + W % 2) / 2 := by omega
    refine e3 i [l / ((W + W % 2) / 2), l % ((W + W % 2) / 2), c4]
      (validIdx_mk4 hi ((Nat.div_lt_iff_lt_mul hw2).mpr hl) (Nat.mod_lt _ hw2) hc4)
  have e5 := layerNorm_offEq (4 * C) m.norm Ba ((H + H % 2) / 2 * ((W + W % 2) / 2))
    (4 * C) rfl (le_refl _) e4
  have e6 := linear_offEq (4 * C) (2 * C) m.reduction_w (fun _ => 0)
    Ba ((H + H % 2) / 2 * ((W + W % 2) / 2)) (4 * C) rfl (le_refl _) e5
  exact e6

end BEN

namespace BEN

/-- `PatchEmbed.forward` (pad to patch multiples, strided convolution,
token norm, grid reshape) preserves batch-offset agreement. -/
theorem patch_embed_forward_offEq (m : PatchEmbed) {S : ℕ} (a b : Tensor ℝ)
    (Ba Bb C H W : ℕ) (ha : a.shape = [Ba, C, H, W]) (hb : b.shape = [Bb, C, H, W])
    (hic : m.proj.in_channels ≤ C) (hemb : m.embed_dim ≤ m.proj.out_channels)
    (h : OffEq S a b) :
    OffEq S (m.forward a) (m.forward b) := by
  obtain ⟨sha, da⟩ := a
  obtain ⟨shb, db⟩ := b
  simp only [Tensor.shape] at ha hb
  subst ha
  subst hb
  have e1 := pad_chw_offEq _ _ Ba Bb C H W
    0 ((m.patch_size - W % m.patch_size) % m.patch_size)
    0 ((m.patch_size - H % m.patch_size) % m.patch_size) rfl rfl h
  have e2 := conv2d_forward_offEq m.proj _ _ Ba Bb C
    (H + 0 + (m.patch_size - H % m.patch_size) % m.patch_size)
    (W + 0 + (m.patch_size - W % m.patch_size) % m.patch_size) rfl rfl hic e1
  have e3 := tokens_in_offEq _ _ Ba Bb m.proj.out_channels
    ((H + 0 + (m.patch_size - H % m.patch_size) % m.patch_size
        + 2 * m.proj.padding - m.proj.kernel) / m.proj.stride + 1)
    ((W + 0 + (m.patch_size - W % m.patch_size) % m.patch_size
        + 2 * m.proj.padding - m.proj.kernel) / m.proj.stride + 1)
    m.embed_dim rfl rfl (Nat.succ_pos _) hemb e2
  have e4 := layerNorm_offEq m.embed_dim m.norm Ba
    (((H + 0 + (m.patch_size - H % m.patch_size) % m.patch_size
        + 2 * m.proj.padding - m.proj.kernel) / m.proj.stride + 1)
      * ((W + 0 + (m.patch_size - W % m.patch_size) % m.patch_size
        + 2 * m.proj.padding - m.proj.kernel) / m.proj.stride + 1))
    m.embed_dim rfl (le_refl _) e3
  have e5 := grid_out_offEq _ _ Ba Bb
    (((H + 0 + (m.patch_size - H % m.patch_size) % m.patch_size
        + 2 * m.proj.padding - m.proj.kernel) / m.proj.stride + 1)
      * ((W + 0 + (m.patch_size - W % m.patch_size) % m.patch_size
        + 2 * m.proj.padding - m.proj.kernel) / m.proj.stride + 1))
    m.embed_dim m.embed_dim
    ((H + 0 + (m.patch_size - H % m.patch_size) % m.patch_size
        + 2 * m.proj.padding - m.proj.kernel) / m.proj.stride + 1)
    ((W + 0 + (m.patch_size - W % m.patch_size) % m.patch_size
        + 2 * m.proj.padding - m.proj.kernel) / m.proj.stride + 1)
    rfl rfl (le_refl _) (le_refl _) e4
  exact e5

end BEN

namespace BEN

/-- One downsampling stage of the `SwinTransformer` loop, run on two
batches that agree at batch offset `S`: the stage outputs and the merged
tokens also agree at offset `S`. -/
theorem run_stage_some_offEq (layer : BasicLayer) (ds : PatchMerging)
    (nrm : LayerNormW) (nf : ℕ) (rest : List (BasicLayer × LayerNormW × ℕ))
    {S : ℕ} (xa xb : Tensor ℝ) (Wh Ww Ba Bb C : ℕ)
    (hxa : xa.shape = [Ba, Wh * Ww, C]) (hxb : xb.shape = [Bb, Wh * Ww, C])
    (hWh : 0 < Wh) (hWw : 0 < Ww) (hds : layer.downsample = some ds)
    (hb : ∀ blk ∈ layer.blocks,
      0 < blk.window_size ∧ blk.shift_size < blk.window_size
      ∧ blk.dim ≤ C ∧ blk.mlp.in_features = C
      ∧ (attention_mask ℝ
          ((Wh + layer.window_size - 1) / layer.window_size * layer.window_size)
          ((Ww + layer.window_size - 1) / layer.window_size * layer.window_size)
          layer.window_size (layer.window_size / 2)).shape.headD 0
        = (Wh + (blk.window_size - Wh % blk.window_size) % blk.window_size)
            / blk.window_size
          * ((Ww + (blk.window_size - Ww % blk.window_size) % blk.window_size)
            / blk.window_size))
    (hnf : nf ≤ C) (h : OffEq S xa xb) :
    ∃ outa xda outb xdb,
      SwinTransformer.run ((layer, nrm, nf) :: rest) xa Wh Ww
        = outa :: SwinTransformer.run rest xda ((Wh + 1) / 2) ((Ww + 1) / 2)
      ∧ SwinTransformer.run ((layer, nrm, nf) :: rest) xb Wh Ww
        = outb :: SwinTransformer.run rest xdb ((Wh + 1) / 2) ((Ww + 1) / 2)
      ∧ outa.shape = [Ba, nf, Wh, Ww] ∧ outb.shape = [Bb, nf, Wh, Ww]
      ∧ xda.shape = [Ba, (Wh + 1) / 2 * ((Ww + 1) / 2), 2 * C]
      ∧ xdb.shape = [Bb, (Wh + 1) / 2 * ((Ww + 1) / 2), 2 * C]
      ∧ OffEq S outa outb ∧ OffEq S xda xdb := by
  obtain ⟨Fa, hFa, hFas⟩ : ∃ F : Tensor ℝ,
      (layer.blocks.foldl (fun acc blk => blk.forward Wh Ww acc
        (attention_mask ℝ
          ((Wh + layer.window_size - 1) / layer.window_size * layer.window_size)
          ((Ww + layer.window_size - 1) / layer.window_size * layer.window_size)
          layer.window_size (layer.window_size / 2))) xa) = F
        ∧ F.shape = [Ba, Wh * Ww, C] :=
    ⟨_, rfl, blocks_foldl_shape layer.blocks _ Ba Wh Ww C hWh hWw xa hxa
      fun blk hm => ⟨(hb blk hm).1, (hb blk hm).2.1⟩⟩
  obtain ⟨Fb, hFb, hFbs⟩ : ∃ F : Tensor ℝ,
      (layer.blocks.foldl (fun acc blk => blk.forward Wh Ww acc
        (attention_mask ℝ
          ((Wh + layer.window_size - 1) / layer.window_size * layer.window_size)
          ((Ww + layer.window_size - 1) / layer.window_size * layer.window_size)
          layer.window_size (layer.window_size / 2))) xb) = F
        ∧ F.shape = [Bb, Wh * Ww, C] :=
    ⟨_, rfl, blocks_foldl_shape layer.blocks _ Bb Wh Ww C hWh hWw xb hxb
      fun blk hm => ⟨(hb blk hm).1, (hb blk hm).2.1⟩⟩
  have hfo : OffEq S Fa Fb := by
    have h0 := blocks_foldl_offEq layer.blocks
      (attention_mask ℝ
        ((Wh + layer.window_size - 1) / layer.window_size * layer.window_size)
        ((Ww + layer.window_size - 1) / layer.window_size * layer.window_size)
        layer.window_size (layer.window_size / 2))
      Ba Bb Wh Ww C hWh hWw xa xb hxa hxb h hb
    rw [hFa, hFb] at h0
    exact h0
  have hfwa := basic_layer_forward_eq_some layer ds hds xa Wh Ww
  have hfwb := basic_layer_forward_eq_some layer ds hds xb Wh Ww
  rw [hFa] at hfwa
  rw [hFb] at hfwb
  have hlna : (layerNorm nf nrm Fa).shape = [Ba, Wh * Ww, C] := hFas
  have hlnb : (layerNorm nf nrm Fb).shape = [Bb, Wh * Ww, C] := hFbs
  have hln := layerNorm_offEq nf nrm Ba (Wh * Ww) C hFas hnf hfo
  refine ⟨⟨[(layerNorm nf nrm Fa).shape.headD 0, nf, Wh, Ww], fun idx =>
      match idx with
      | [b, cc, i, j] => (layerNorm nf nrm Fa).data [b, i * Ww + j, cc]
      | _ => 0⟩,
    ds.forward Fa Wh Ww,
    ⟨[(layerNorm nf nrm Fb).shape.headD 0, nf, Wh, Ww], fun idx =>
      match idx with
      | [b, cc, i, j] => (layerNorm nf nrm Fb).data [b, i * Ww + j, cc]
      | _ => 0⟩,
    ds.forward Fb Wh Ww, ?_, ?_, ?_, ?_, ?_, ?_, ?_, ?_⟩
  · simp only [SwinTransformer.run, hfwa]
  · simp only [SwinTransformer.run, hfwb]
  · show [(layerNorm nf nrm Fa).shape.headD 0, nf, Wh, Ww] = [Ba, nf, Wh, Ww]
    rw [hlna]
    rfl
  · show [(layerNorm nf nrm Fb).shape.headD 0, nf, Wh, Ww] = [Bb, nf, Wh, Ww]
    rw [hlnb]
    rfl
  · exact patch_merging_shape ds Ba Wh Ww C Fa hFas
  · exact patch_merging_shape ds Bb Wh Ww C Fb hFbs
  · exact grid_out_offEq _ _ Ba Bb (Wh * Ww) C nf Wh Ww hlna hlnb (le_refl _) hnf hln
  · exact patch_merging_forward_offEq ds Fa Fb Ba Bb Wh Ww C hFas hFbs hWw hfo

/-- The final (no-downsample) stage of the `SwinTransformer` loop, run on
two batches that agree at batch offset `S`. -/
theorem run_stage_none_offEq (layer : BasicLayer) (nrm : LayerNormW) (nf : ℕ)
    {S : ℕ} (xa xb : Tensor ℝ) (Wh Ww Ba Bb C : ℕ)
    (hxa : xa.shape = [Ba, Wh * Ww, C]) (hxb : xb.shape = [Bb, Wh * Ww, C])
    (hWh : 0 < Wh) (hWw : 0 < Ww) (hds : layer.downsample = none)
    (hb : ∀ blk ∈ layer.blocks,
      0 < blk.window_size ∧ blk.shift_size < blk.window_size
      ∧ blk.dim ≤ C ∧ blk.mlp.in_features = C
      ∧ (attention_mask ℝ
          ((Wh + layer.window_size - 1) / layer.window_size * layer.window_size)
          ((Ww + layer.window_size - 1) / layer.window_size * layer.window_size)
          layer.window_size (layer.window_size / 2)).shape.headD 0
        = (Wh + (blk.window_size - Wh % blk.window_size) % blk.window_size)
            / blk.window_size
          * ((Ww + (blk.window_size - Ww % blk.window_size) % blk.window_size)
            / blk.window_size))
    (hnf : nf ≤ C) (h : OffEq S xa xb) :
    ∃ outa outb,
      SwinTransformer.run [(layer, nrm, nf)] xa Wh Ww = [outa]
      ∧ SwinTransformer.run [(layer, nrm, nf)] xb Wh Ww = [outb]
      ∧ outa.shape = [Ba, nf, Wh, Ww] ∧ outb.shape = [Bb, nf, Wh, Ww]
      ∧ OffEq S outa outb := by
  obtain ⟨Fa, hFa, hFas⟩ : ∃ F : Tensor ℝ,
      (layer.blocks.foldl (fun acc blk => blk.forward Wh Ww acc
        (attention_mask ℝ
          ((Wh + layer.window_size - 1) / layer.window_size * layer.window_size)
          ((Ww + layer.window_size - 1) / layer.window_size * layer.window_size)
          layer.window_size (layer.window_size / 2))) xa) = F
        ∧ F.shape = [Ba, Wh * Ww, C] :=
    ⟨_, rfl, blocks_foldl_shape layer.blocks _ Ba Wh Ww C hWh hWw xa hxa
      fun blk hm => ⟨(hb blk hm).1, (hb blk hm).2.1⟩⟩
  obtain ⟨Fb, hFb, hFbs⟩ : ∃ F : Tensor ℝ,
      (layer.blocks.foldl (fun acc blk => blk.forward Wh Ww acc
        (attention_mask ℝ
          ((Wh + layer.window_size - 1) / layer.window_size * layer.window_size)
          ((Ww + layer.window_size - 1) / layer.window_size * layer.window_size)
          layer.window_size (layer.window_size / 2))) xb) = F
        ∧ F.shape = [Bb, Wh * Ww, C] :=
    ⟨_, rfl, blocks_foldl_shape layer.blocks _ Bb Wh Ww C hWh hWw xb hxb
      fun blk hm => ⟨(hb blk hm).1, (hb blk hm).2.1⟩⟩
  have hfo : OffEq S Fa Fb := by
    have h0 := blocks_foldl_offEq layer.blocks
      (attention_mask ℝ
        ((Wh + layer.window_size - 1) / layer.window_size * layer.window_size)
        ((Ww + layer.window_size - 1) / layer.window_size * layer.window_size)
        layer.window_size (layer.window_size / 2))
      Ba Bb Wh Ww C hWh hWw xa xb hxa hxb h hb
    rw [hFa, hFb] at h0
    exact h0
  have hfwa := basic_layer_forward_eq_none layer hds xa Wh Ww
  have hfwb := basic_layer_forward_eq_none layer hds xb Wh Ww
  rw [hFa] at hfwa
  rw [hFb] at hfwb
  have hlna : (layerNorm nf nrm Fa).shape = [Ba, Wh * Ww, C] := hFas
  have hlnb : (layerNorm nf nrm Fb).shape = [Bb, Wh * Ww, C] := hFbs
  have hln := layerNorm_offEq nf nrm Ba (Wh * Ww) C hFas hnf hfo
  refine ⟨⟨[(layerNorm nf nrm Fa).shape.headD 0, nf, Wh, Ww], fun idx =>
      match idx with
      | [b, cc, i, j] => (layerNorm nf nrm Fa).data [b, i * Ww + j, cc]
      | _ => 0⟩,
    ⟨[(layerNorm nf nrm Fb).shape.headD 0, nf, Wh, Ww], fun idx =>
      match idx with
      | [b, cc, i, j] => (layerNorm nf nrm Fb).data [b, i * Ww + j, cc]
      | _ => 0⟩, ?_, ?_, ?_, ?_, ?_⟩
  · simp only [SwinTransformer.run, hfwa]
  · simp only [SwinTransformer.run, hfwb]
  · show [(layerNorm nf nrm Fa).shape.headD 0, nf, Wh, Ww] = [Ba, nf, Wh, Ww]
    rw [hlna]
    rfl
  · show [(layerNorm nf nrm Fb).shape.headD 0, nf, Wh, Ww] = [Bb, nf, Wh, Ww]
    rw [hlnb]
    rfl
  · exact grid_out_offEq _ _ Ba Bb (Wh * Ww) C nf Wh Ww hlna hlnb (le_refl _) hnf hln

end BEN

namespace BEN

/-- The full BEN backbone run on two `512×512` tile batches that agree at
batch offset `S`: all five pyramid features agree at offset `S` as well. -/
theorem mkSwinBEN_features_offEq (w : SwinW) {S : ℕ} (xa xb : Tensor ℝ)
    (na nb : ℕ) (hxa : xa.shape = [na, 3, 512, 512])
    (hxb : xb.shape = [nb, 3, 512, 512]) (h : OffEq S xa xb) :
    ∃ f0 f1 f2 f3 f4 g0 g1 g2 g3 g4,
      (mkSwinBEN w).forward xa = [f0, f1, f2, f3, f4]
      ∧ (mkSwinBEN w).forward xb = [g0, g1, g2, g3, g4]
      ∧ f0.shape = [na, 128, 128, 128] ∧ f1.shape = [na, 128, 128, 128]
      ∧ f2.shape = [na, 256, 64, 64] ∧ f3.shape = [na, 512, 32, 32]
      ∧ f4.shape = [na, 1024, 16, 16]
      ∧ g0.shape = [nb, 128, 128, 128] ∧ g1.shape = [nb, 128, 128, 128]
      ∧ g2.shape = [nb, 256, 64, 64] ∧ g3.shape = [nb, 512, 32, 32]
      ∧ g4.shape = [nb, 1024, 16, 16]
      ∧ OffEq S f0 g0 ∧ OffEq S f1 g1 ∧ OffEq S f2 g2 ∧ OffEq S f3 g3
      ∧ OffEq S f4 g4 := by
  have hxea : ((mkSwinBEN w).patch_embed.forward xa).shape = [na, 128, 128, 128] := by
    rw [patch_embed_forward_shape (mkSwinBEN w).patch_embed xa na 3 512 512 hxa]
    norm_num [mkSwinBEN]
  have hxeb : ((mkSwinBEN w).patch_embed.forward xb).shape = [nb, 128, 128, 128] := by
    rw [patch_embed_forward_shape (mkSwinBEN w).patch_embed xb nb 3 512 512 hxb]
    norm_num [mkSwinBEN]
  have hpe : OffEq S ((mkSwinBEN w).patch_embed.forward xa)
      ((mkSwinBEN w).patch_embed.forward xb) :=
    patch_embed_forward_offEq (mkSwinBEN w).patch_embed xa xb na nb 3 512 512
      hxa hxb (le_refl 3) (le_refl 128) h
  have hhda : ((mkSwinBEN w).patch_embed.forward xa).shape.headD 0 = na := by
    rw [hxea]
    rfl
  have hg1a : ((mkSwinBEN w).patch_embed.forward xa).shape.getD 1 0 = 128 := by
    rw [hxea]
    rfl
  have hg2a : ((mkSwinBEN w).patch_embed.forward xa).shape.getD 2 0 = 128 := by
    rw [hxea]
    rfl
  have hg3a : ((mkSwinBEN w).patch_embed.forward xa).shape.getD 3 0 = 128 := by
    rw [hxea]
    rfl
  have hhdb : ((mkSwinBEN w).patch_embed.forward xb).shape.headD 0 = nb := by
    rw [hxeb]
    rfl
  have hg1b : ((mkSwinBEN w).patch_embed.forward xb).shape.getD 1 0 = 128 := by
    rw [hxeb]
    rfl
  have hg2b : ((mkSwinBEN w).patch_embed.forward xb).shape.getD 2 0 = 128 := by
    rw [hxeb]
    rfl
  have hg3b : ((mkSwinBEN w).patch_embed.forward xb).shape.getD 3 0 = 128 := by
    rw [hxeb]
    rfl
  have hlay : (mkSwinBEN w).layers = [
      (mkBasicLayer 128 2 4 12 (w.blocks 0)
        (some { dim := 128, norm := w.merge_norm 0, reduction_w := w.merge_w 0 }),
       w.out_norm 0, 128),
      (mkBasicLayer 256 2 8 12 (w.blocks 1)
        (some { dim := 256, norm := w.merge_norm 1, reduction_w := w.merge_w 1 }),
       w.out_norm 1, 256),
      (mkBasicLayer 512 18 16 12 (w.blocks 2)
        (some { dim := 512, norm := w.merge_norm 2, reduction_w := w.merge_w 2 }),
       w.out_norm 2, 512),
      (mkBasicLayer 1024 2 32 12 (w.blocks 3) none, w.out_norm 3, 1024)] := rfl
  rw [swin_forward_eq (mkSwinBEN w) xa, hhda, hg1a, hg2a, hg3a,
    swin_forward_eq (mkSwinBEN w) xb, hhdb, hg1b, hg2b, hg3b, hlay]
  have htok : OffEq S
      (⟨[na, 128 * 128, 128], fun idx =>
        match idx with
        | [b, t, cc] => ((mkSwinBEN w).patch_embed.forward xa).data
            [b, cc, t / 128, t % 128]
        | _ => 0⟩ : Tensor ℝ)
      (⟨[nb, 128 * 128, 128], fun idx =>
        match idx with
        | [b, t, cc] => ((mkSwinBEN w).patch_embed.forward xb).data
            [b, cc, t / 128, t % 128]
        | _ => 0⟩ : Tensor ℝ) :=
    tokens_in_offEq _ _ na nb 128 128 128 128 hxea hxeb (by norm_num)
      (le_refl 128) hpe
  obtain ⟨out0a, xd0a, out0b, xd0b, he0a, he0b, ho0a, ho0b, hd0a, hd0b, hoo0, hdd0⟩ :=
    run_stage_some_offEq
      (mkBasicLayer 128 2 4 12 (w.blocks 0)
        (some { dim := 128, norm := w.merge_norm 0, reduction_w := w.merge_w 0 }))
      { dim := 128, norm := w.merge_norm 0, reduction_w := w.merge_w 0 }
      (w.out_norm 0) 128
      [(mkBasicLayer 256 2 8 12 (w.blocks 1)
          (some { dim := 256, norm := w.merge_norm 1, reduction_w := w.merge_w 1 }),
        w.out_norm 1, 256),
       (mkBasicLayer 512 18 16 12 (w.blocks 2)
          (some { dim := 512, norm := w.merge_norm 2, reduction_w := w.merge_w 2 }),
        w.out_norm 2, 512),
       (mkBasicLayer 1024 2 32 12 (w.blocks 3) none, w.out_norm 3, 1024)]
      (⟨[na, 128 * 128, 128], fun idx =>
        match idx with
        | [b, t, cc] => ((mkSwinBEN w).patch_embed.forward xa).data
            [b, cc, t / 128, t % 128]
        | _ => 0⟩ : Tensor ℝ)
      (⟨[nb, 128 * 128, 128], fun idx =>
        match idx with
        | [b, t, cc] => ((mkSwinBEN w).patch_embed.forward xb).data
            [b, cc, t / 128, t % 128]
        | _ => 0⟩ : Tensor ℝ)
      128 128 na nb 128 rfl rfl (by norm_num) (by norm_num) rfl
      (mkBasicLayer_blocks_cond2 128 2 4 12 (by norm_num) (w.blocks 0) _ 128 128)
      (le_refl 128) htok
  rw [he0a, he0b, show (128 + 1) / 2 = 64 from by norm_num]
  have hd0a' : xd0a.shape = [na, 64 * 64, 256] := by
    rw [hd0a]
  have hd0b' : xd0b.shape = [nb, 64 * 64, 256] := by
    rw [hd0b]
  obtain ⟨out1a, xd1a, out1b, xd1b, he1a, he1b, ho1a, ho1b, hd1a, hd1b, hoo1, hdd1⟩ :=
    run_stage_some_offEq
      (mkBasicLayer 256 2 8 12 (w.blocks 1)
        (some { dim := 256, norm := w.merge_norm 1, reduction_w := w.merge_w 1 }))
      { dim := 256, norm := w.merge_norm 1, reduction_w := w.merge_w 1 }
      (w.out_norm 1) 256
      [(mkBasicLayer 512 18 16 12 (w.blocks 2)
          (some { dim := 512, norm := w.merge_norm 2, reduction_w := w.merge_w 2 }),
        w.out_norm 2, 512),
       (mkBasicLayer 1024 2 32 12 (w.blocks 3) none, w.out_norm 3, 1024)]
      xd0a xd0b 64 64 na nb 256 hd0a' hd0b' (by norm_num) (by norm_num) rfl
      (mkBasicLayer_blocks_cond2 256 2 8 12 (by norm_num) (w.blocks 1) _ 64 64)
      (le_refl 256) hdd0
  rw [he1a, he1b, show (64 + 1) / 2 = 32 from by norm_num]
  have hd1a' : xd1a.shape = [na, 32 * 32, 512] := by
    rw [hd1a]
  have hd1b' : xd1b.shape = [nb, 32 * 32, 512] := by
    rw [hd1b]
  obtain ⟨out2a, xd2a, out2b, xd2b, he2a, he2b, ho2a, ho2b, hd2a, hd2b, hoo2, hdd2⟩ :=
    run_stage_some_offEq
      (mkBasicLayer 512 18 16 12 (w.blocks 2)
        (some { dim := 512, norm := w.merge_norm 2, reduction_w := w.merge_w 2 }))
      { dim := 512, norm := w.merge_norm 2, reduction_w := w.merge_w 2 }
      (w.out_norm 2) 512
      [(mkBasicLayer 1024 2 32 12 (w.blocks 3) none, w.out_norm 3, 1024)]
      xd1a xd1b 32 32 na nb 512 hd1a' hd1b' (by norm_num) (by norm_num) rfl
      (mkBasicLayer_blocks_cond2 512 18 16 12 (by norm_num) (w.blocks 2) _ 32 32)
      (le_refl 512) hdd1
  rw [he2a, he2b, show (32 + 1) / 2 = 16 from by norm_num]
  have hd2a' : xd2a.shape = [na, 16 * 16, 1024] := by
    rw [hd2a]
  have hd2b' : xd2b.shape = [nb, 16 * 16, 1024] := by
    rw [hd2b]
  obtain ⟨out3a, out3b, he3a, he3b, ho3a, ho3b, hoo3⟩ :=
    run_stage_none_offEq (mkBasicLayer 1024 2 32 12 (w.blocks 3) none)
      (w.out_norm 3) 1024 xd2a xd2b 16 16 na nb 1024 hd2a' hd2b'
      (by norm_num) (by norm_num) rfl
      (mkBasicLayer_blocks_cond2 1024 2 32 12 (by norm_num) (w.blocks 3) _ 16 16)
      (le_refl 1024) hdd2
  rw [he3a, he3b]
  exact ⟨_, _, _, _, _, _, _, _, _, _, rfl, rfl, hxea, ho0a, ho1a, ho2a, ho3a,
    hxeb, ho0b, ho1b, ho2b, ho3b, hpe, hoo0, hoo1, hoo2, hoo3⟩

end BEN

namespace BEN

/-- `resize_as` only uses the target's last two axis sizes. -/
theorem resize_as_eq (a y : Tensor ℝ) (c0 c1 H W : ℕ)
    (hy : y.shape = [c0, c1, H, W]) :
    resize_as a y = bilinear_resize a H W := by
  show bilinear_resize a (y.shape.getD 2 0) (y.shape.getD 3 0) = bilinear_resize a H W
  rw [hy]
  rfl

/-- `rescale_to(x)` with scale 2 is a nearest-neighbour resize to the
doubled spatial size. -/
theorem rescale_double_eq (x : Tensor ℝ) (c0 c1 H W : ℕ)
    (hx : x.shape = [c0, c1, H, W]) :
    rescale_double_nearest x = nearest_resize x (2 * H) (2 * W) := by
  show nearest_resize x (2 * x.shape.getD 2 0) (2 * x.shape.getD 3 0)
      = nearest_resize x (2 * H) (2 * W)
  rw [hx]
  rfl

/-- A `make_cbr` block preserves batch-offset agreement. -/
theorem cbr_forward_offEq (m : CBR) {S : ℕ} (a b : Tensor ℝ) (Ba Bb C H W : ℕ)
    (ha : a.shape = [Ba, C, H, W]) (hb : b.shape = [Bb, C, H, W])
    (hic : m.conv.in_channels ≤ C) (h : OffEq S a b) :
    OffEq S (m.forward a) (m.forward b) := by
  have e1 := conv2d_forward_offEq m.conv a b Ba Bb C H W ha hb hic h
  have e2 := instance_norm2d_offEq _ _ Ba Bb m.conv.out_channels
    ((H + 2 * m.conv.padding - m.conv.kernel) / m.conv.stride + 1)
    ((W + 2 * m.conv.padding - m.conv.kernel) / m.conv.stride + 1)
    (conv2d_forward_shape m.conv a Ba C H W ha)
    (conv2d_forward_shape m.conv b Bb C H W hb) e1
  exact tmap_offEq gelu e2

/-- The 2×2 quadrant split preserves batch-offset agreement between
equal-batch tensors (offset `0`: both sides see the same quadrant layout). -/
theorem image2patches_offEq (a b : Tensor ℝ) (N C H W : ℕ)
    (ha : a.shape = [N, C, H, W]) (hb : b.shape = [N, C, H, W])
    (h : OffEq 0 a b) : OffEq 0 (image2patches a) (image2patches b) := by
  obtain ⟨sha, da⟩ := a
  obtain ⟨shb, db⟩ := b
  simp only [Tensor.shape] at ha hb
  subst ha
  subst hb
  intro i rest hv
  rw [Nat.zero_add]
  have hv' : ValidIdx [2 * 2 * N, C, H / 2, W / 2] (i :: rest) := hv
  obtain ⟨cc, h', w', rfl, hi, hcc, hh, hw⟩ := validIdx_cons_four hv'
  have hN : 0 < N := by omega
  have hq : i / (2 * N) < 2 := (Nat.div_lt_iff_lt_mul (by omega)).mpr (by omega)
  show (⟨[N, C, H, W], da⟩ : Tensor ℝ).data
      [i % N, cc, i / (2 * N) * (H / 2) + h', i / N % 2 * (W / 2) + w']
    = (⟨[N, C, H, W], db⟩ : Tensor ℝ).data
      [i % N, cc, i / (2 * N) * (H / 2) + h', i / N % 2 * (W / 2) + w']
  have h0 := h (i % N) [cc, i / (2 * N) * (H / 2) + h', i / N % 2 * (W / 2) + w']
    (validIdx_mk4 (Nat.mod_lt _ hN) hcc
      (lt_of_lt_of_le (idx_flatten_lt hq hh) (by omega))
      (lt_of_lt_of_le (idx_flatten_lt (Nat.mod_lt _ (by norm_num)) hw) (by omega)))
  rwa [Nat.zero_add] at h0

/-- The quadrant reassembly preserves batch-offset agreement between
equal-batch tensors. -/
theorem patches2image_offEq (a b : Tensor ℝ) (N C hh ww : ℕ)
    (ha : a.shape = [N, C, hh, ww]) (hb : b.shape = [N, C, hh, ww])
    (h : OffEq 0 a b) : OffEq 0 (patches2image a) (patches2image b) := by
  obtain ⟨sha, da⟩ := a
  obtain ⟨shb, db⟩ := b
  simp only [Tensor.shape] at ha hb
  subst ha
  subst hb
  intro i rest hv
  rw [Nat.zero_add]
  have hv' : ValidIdx [N / (2 * 2), C, 2 * hh, 2 * ww] (i :: rest) := hv
  obtain ⟨cc, y, z, rfl, hi, hcc, hy, hz⟩ := validIdx_cons_four hv'
  have hhp : 0 < hh := by omega
  have hwp : 0 < ww := by omega
  have hyq : y / hh < 2 := (Nat.div_lt_iff_lt_mul hhp).mpr (by omega)
  have hzq : z / ww < 2 := (Nat.div_lt_iff_lt_mul hwp).mpr (by omega)
  show (⟨[N, C, hh, ww], da⟩ : Tensor ℝ).data
      [(y / hh * 2 + z / ww) * (N / (2 * 2)) + i, cc, y % hh, z % ww]
    = (⟨[N, C, hh, ww], db⟩ : Tensor ℝ).data
      [(y / hh * 2 + z / ww) * (N / (2 * 2)) + i, cc, y % hh, z % ww]
  have hrow : (y / hh * 2 + z / ww) * (N / (2 * 2)) + i < N := by
    have h1 : y / hh * 2 + z / ww < 4 := by omega
    have h2 : (y / hh * 2 + z / ww) * (N / (2 * 2)) + i < 4 * (N / (2 * 2)) :=
      idx_flatten_lt h1 hi
    omega
  have h0 := h ((y / hh * 2 + z / ww) * (N / (2 * 2)) + i) [cc, y % hh, z % ww]
    (validIdx_mk4 hrow hcc (Nat.mod_lt _ hhp) (Nat.mod_lt _ hwp))
  rwa [Nat.zero_add] at h0

/-- Adaptive average pooling preserves batch-offset agreement. -/
theorem adaptive_avg_pool2d_offEq {S : ℕ} (a b : Tensor ℝ)
    (Ba Bb C H W outH outW : ℕ)
    (ha : a.shape = [Ba, C, H, W]) (hb : b.shape = [Bb, C, H, W])
    (h : OffEq S a b) :
    OffEq S (adaptive_avg_pool2d a outH outW) (adaptive_avg_pool2d b outH outW) := by
  obtain ⟨sha, da⟩ := a
  obtain ⟨shb, db⟩ := b
  simp only [Tensor.shape] at ha hb
  subst ha
  subst hb
  intro q rest hv
  have hv' : ValidIdx [Ba, C, outH, outW] (q :: rest) := hv
  obtain ⟨c', y, z, rfl, hq, hc, hy, hz⟩ := validIdx_cons_four hv'
  have houtH : 0 < outH := by omega
  have houtW : 0 < outW := by omega
  have hup : ((y + 1) * H + outH - 1) / outH ≤ H := by
    have h1 : (y + 1) * H ≤ outH * H := Nat.mul_le_mul_right H (by omega)
    have h2 : (H + 1) * outH = H * outH + outH := by ring
    have h3 : outH * H = H * outH := Nat.mul_comm outH H
    have h4 : (y + 1) * H + outH - 1 < (H + 1) * outH := by omega
    have h5 := (Nat.div_lt_iff_lt_mul houtH).mpr h4
    omega
  have hvp : ((z + 1) * W + outW - 1) / outW ≤ W := by
    have h1 : (z + 1) * W ≤ outW * W := Nat.mul_le_mul_right W (by omega)
    have h2 : (W + 1) * outW = W * outW + outW := by ring
    have h3 : outW * W = W * outW := Nat.mul_comm outW W
    have h4 : (z + 1) * W + outW - 1 < (W + 1) * outW := by omega
    have h5 := (Nat.div_lt_iff_lt_mul houtW).mpr h4
    omega
  show (∑ u ∈ Finset.Ico (y * H / outH) (((y + 1) * H + outH - 1) / outH),
        ∑ v ∈ Finset.Ico (z * W / outW) (((z + 1) * W + outW - 1) / outW),
          (⟨[Ba, C, H, W], da⟩ : Tensor ℝ).data [q, c', u, v])
        / (((((y + 1) * H + outH - 1) / outH - y * H / outH)
            * (((z + 1) * W + outW - 1) / outW - z * W / outW) : ℕ) : ℝ)
      = (∑ u ∈ Finset.Ico (y * H / outH) (((y + 1) * H + outH - 1) / outH),
        ∑ v ∈ Finset.Ico (z * W / outW) (((z + 1) * W + outW - 1) / outW),
          (⟨[Bb, C, H, W], db⟩ : Tensor ℝ).data [S + q, c', u, v])
        / (((((y + 1) * H + outH - 1) / outH - y * H / outH)
            * (((z + 1) * W + outW - 1) / outW - z * W / outW) : ℕ) : ℝ)
  congr 1
  refine Finset.sum_congr rfl fun u hu => ?_
  refine Finset.sum_congr rfl fun v hw => ?_
  have hu' := Finset.mem_Ico.mp hu
  have hw' := Finset.mem_Ico.mp hw
  exact h q [c', u, v] (validIdx_mk4 hq hc (by omega) (by omega))

/-- `unbind(dim=0)[i]` preserves batch-offset agreement between equal-batch
tensors. -/
theorem unbind0_cong (a b : Tensor ℝ) (n0 : ℕ) (tl : List ℕ)
    (ha : a.shape = n0 :: tl) (hb : b.shape = n0 :: tl) (i : ℕ) (hi : i < n0)
    (h : OffEq 0 a b) : OffEq 0 (unbind0 a i) (unbind0 b i) := by
  intro j rest hv
  rw [Nat.zero_add]
  have hv0 : ValidIdx a.shape.tail (j :: rest) := hv
  rw [ha] at hv0
  have hv' : ValidIdx tl (j :: rest) := hv0
  have h0 := h i (j :: rest) (by rw [ha]; exact List.Forall₂.cons hi hv')
  rwa [Nat.zero_add] at h0

/-- A width slice (`narrow`) along axis 1 of a `(T, n, c)` tensor preserves
batch-offset agreement between equal-shaped tensors. -/
theorem narrowD1_cong (a b : Tensor ℝ) (T n c start len : ℕ)
    (ha : a.shape = [T, n, c]) (hb : b.shape = [T, n, c])
    (hlen : start + len ≤ n) (h : OffEq 0 a b) :
    OffEq 0 (narrowD 1 a start len) (narrowD 1 b start len) := by
  intro i rest hv
  rw [Nat.zero_add]
  have hv0 : ValidIdx (a.shape.set 1 len) (i :: rest) := hv
  rw [ha] at hv0
  have hv' : ValidIdx [T, len, c] (i :: rest) := hv0
  obtain ⟨bb, cc, rfl, hiT, hbb, hcc⟩ := validIdx_cons_three hv'
  show a.data [i, start + bb, cc] = b.data [i, start + bb, cc]
  have h0 := h i [start + bb, cc] (by
    rw [ha]
    exact validIdx_mk3 hiT (by omega) hcc)
  rwa [Nat.zero_add] at h0

end BEN

namespace BEN

/-- `catD.go` at axis 0: pointwise agreement of matching block lists. -/
theorem catD0_go_cong (tl : List ℕ) :
    ∀ (ts us : List (Tensor ℝ)),
    List.Forall₂ (fun t u => (∃ n, t.shape = n :: tl ∧ u.shape = n :: tl)
      ∧ OffEq 0 t u) ts us →
    ∀ (X j : ℕ) (rest : List ℕ), ValidIdx tl rest →
    j < (ts.map fun t => t.shape.getD 0 0).sum →
    catD.go 0 ts j (X :: rest) = catD.go 0 us j (X :: rest) := by
  intro ts us hF
  induction hF with
  | nil =>
      intro X j rest _ hj
      simp at hj
  | @cons t u ts' us' hp htail ih =>
      intro X j rest hrest hj
      obtain ⟨⟨n, hts, hus⟩, hoe⟩ := hp
      have hgt : t.shape.getD 0 0 = n := by rw [hts]; rfl
      have hgu : u.shape.getD 0 0 = n := by rw [hus]; rfl
      simp only [catD.go, hgt, hgu]
      split_ifs with hlt
      · show t.data (j :: rest) = u.data (j :: rest)
        have h0 := hoe j rest (by rw [hts]; exact List.Forall₂.cons hlt hrest)
        rwa [Nat.zero_add] at h0
      · refine ih X (j - n) rest hrest ?_
        have hsum : ((t :: ts').map fun t => t.shape.getD 0 0).sum
            = n + (ts'.map fun t => t.shape.getD 0 0).sum := by
          simp only [List.map_cons, List.sum_cons]
          rw [hgt]
        omega

/-- Concatenation along the batch axis preserves pointwise agreement. -/
theorem catD0_cong (tl : List ℕ) (ts us : List (Tensor ℝ))
    (hF : List.Forall₂ (fun t u => (∃ n, t.shape = n :: tl ∧ u.shape = n :: tl)
      ∧ OffEq 0 t u) ts us) :
    OffEq 0 (catD 0 ts) (catD 0 us) := by
  cases hF with
  | nil =>
      intro i rest hv
      cases hv
  | @cons t u ts' us' hp htail =>
      intro i rest hv
      rw [Nat.zero_add]
      obtain ⟨⟨n, hts, hus⟩, hoe⟩ := hp
      have hv0 : ValidIdx (t.shape.set 0
          (((t :: ts').map fun t2 => t2.shape.getD 0 0).sum)) (i :: rest) := hv
      rw [hts] at hv0
      have hv1 : ValidIdx ((((t :: ts').map fun t2 => t2.shape.getD 0 0).sum) :: tl)
          (i :: rest) := hv0
      cases hv1 with
      | cons hi hrest =>
        exact catD0_go_cong tl (t :: ts') (u :: us')
          (List.Forall₂.cons ⟨⟨n, hts, hus⟩, hoe⟩ htail) i i rest hrest hi

/-- `catD.go` at axis 1 over `(T, n, c)` tensors. -/
theorem catD1_go_cong3 (T c : ℕ) :
    ∀ (ts us : List (Tensor ℝ)),
    List.Forall₂ (fun t u => (∃ n, t.shape = [T, n, c] ∧ u.shape = [T, n, c])
      ∧ OffEq 0 t u) ts us →
    ∀ (i X j cc : ℕ), i < T → cc < c →
    j < (ts.map fun t => t.shape.getD 1 0).sum →
    catD.go 1 ts j [i, X, cc] = catD.go 1 us j [i, X, cc] := by
  intro ts us hF
  induction hF with
  | nil =>
      intro i X j cc _ _ hj
      simp at hj
  | @cons t u ts' us' hp htail ih =>
      intro i X j cc hi hcc hj
      obtain ⟨⟨n, hts, hus⟩, hoe⟩ := hp
      have hgt : t.shape.getD 1 0 = n := by rw [hts]; rfl
      have hgu : u.shape.getD 1 0 = n := by rw [hus]; rfl
      simp only [catD.go, hgt, hgu]
      split_ifs with hlt
      · show t.data [i, j, cc] = u.data [i, j, cc]
        have h0 := hoe i [j, cc] (by rw [hts]; exact validIdx_mk3 hi hlt hcc)
        rwa [Nat.zero_add] at h0
      · refine ih i X (j - n) cc hi hcc ?_
        have hsum : ((t :: ts').map fun t2 => t2.shape.getD 1 0).sum
            = n + (ts'.map fun t2 => t2.shape.getD 1 0).sum := by
          simp only [List.map_cons, List.sum_cons]
          rw [hgt]
        omega

/-- Concatenation along axis 1 of `(T, n, c)` tensors preserves pointwise
agreement. -/
theorem catD1_cong3 (T c : ℕ) (ts us : List (Tensor ℝ))
    (hF : List.Forall₂ (fun t u => (∃ n, t.shape = [T, n, c] ∧ u.shape = [T, n, c])
      ∧ OffEq 0 t u) ts us) :
    OffEq 0 (catD 1 ts) (catD 1 us) := by
  cases hF with
  | nil =>
      intro i rest hv
      cases hv
  | @cons t u ts' us' hp htail =>
      intro i rest hv
      rw [Nat.zero_add]
      obtain ⟨⟨n, hts, hus⟩, hoe⟩ := hp
      have hv0 : ValidIdx (t.shape.set 1
          (((t :: ts').map fun t2 => t2.shape.getD 1 0).sum)) (i :: rest) := hv
      rw [hts] at hv0
      have hv1 : ValidIdx [T, (((t :: ts').map fun t2 => t2.shape.getD 1 0).sum), c]
          (i :: rest) := hv0
      obtain ⟨j, cc, rfl, hi, hj, hcc⟩ := validIdx_cons_three hv1
      show catD.go 1 (t :: ts') j [i, j, cc] = catD.go 1 (u :: us') j [i, j, cc]
      exact catD1_go_cong3 T c (t :: ts') (u :: us')
        (List.Forall₂.cons ⟨⟨n, hts, hus⟩, hoe⟩ htail) i j j cc hi hcc hj

/-- `catD.go` at axis 1 over `(T, n, c2, c3)` tensors. -/
theorem catD1_go_cong4 (T c2 c3 : ℕ) :
    ∀ (ts us : List (Tensor ℝ)),
    List.Forall₂ (fun t u => (∃ n, t.shape = [T, n, c2, c3] ∧ u.shape = [T, n, c2, c3])
      ∧ OffEq 0 t u) ts us →
    ∀ (i X j y z : ℕ), i < T → y < c2 → z < c3 →
    j < (ts.map fun t => t.shape.getD 1 0).sum →
    catD.go 1 ts j [i, X, y, z] = catD.go 1 us j [i, X, y, z] := by
  intro ts us hF
  induction hF with
  | nil =>
      intro i X j y z _ _ _ hj
      simp at hj
  | @cons t u ts' us' hp htail ih =>
      intro i X j y z hi hy hz hj
      obtain ⟨⟨n, hts, hus⟩, hoe⟩ := hp
      have hgt : t.shape.getD 1 0 = n := by rw [hts]; rfl
      have hgu : u.shape.getD 1 0 = n := by rw [hus]; rfl
      simp only [catD.go, hgt, hgu]
      split_ifs with hlt
      · show t.data [i, j, y, z] = u.data [i, j, y, z]
        have h0 := hoe i [j, y, z] (by rw [hts]; exact validIdx_mk4 hi hlt hy hz)
        rwa [Nat.zero_add] at h0
      · refine ih i X (j - n) y z hi hy hz ?_
        have hsum : ((t :: ts').map fun t2 => t2.shape.getD 1 0).sum
            = n + (ts'.map fun t2 => t2.shape.getD 1 0).sum := by
          simp only [List.map_cons, List.sum_cons]
          rw [hgt]
        omega

/-- Concatenation along axis 1 of `(T, n, c2, c3)` tensors preserves
pointwise agreement. -/
theorem catD1_cong4 (T c2 c3 : ℕ) (ts us : List (Tensor ℝ))
    (hF : List.Forall₂ (fun t u => (∃ n, t.shape = [T, n, c2, c3] ∧ u.shape = [T, n, c2, c3])
      ∧ OffEq 0 t u) ts us) :
    OffEq 0 (catD 1 ts) (catD 1 us) := by
  cases hF with
  | nil =>
      intro i rest hv
      cases hv
  | @cons t u ts' us' hp htail =>
      intro i rest hv
      rw [Nat.zero_add]
      obtain ⟨⟨n, hts, hus⟩, hoe⟩ := hp
      have hv0 : ValidIdx (t.shape.set 1
          (((t :: ts').map fun t2 => t2.shape.getD 1 0).sum)) (i :: rest) := hv
      rw [hts] at hv0
      have hv1 : ValidIdx [T, (((t :: ts').map fun t2 => t2.shape.getD 1 0).sum), c2, c3]
          (i :: rest) := hv0
      obtain ⟨j, y, z, rfl, hi, hj, hy, hz⟩ := validIdx_cons_four hv1
      show catD.go 1 (t :: ts') j [i, j, y, z] = catD.go 1 (u :: us') j [i, j, y, z]
      exact catD1_go_cong4 T c2 c3 (t :: ts') (u :: us')
        (List.Forall₂.cons ⟨⟨n, hts, hus⟩, hoe⟩ htail) i j j y z hi hy hz hj

end BEN

namespace BEN

set_option maxHeartbeats 4000000 in
/-- `nn.MultiheadAttention` on `(L, N, E)` inputs: pointwise-equal query,
key and value streams produce pointwise-equal outputs (the attention mixes
the token and sequence axes but is a pure function of the in-range
entries). -/
theorem mha_forward_cong (m : MultiheadAttention)
    (qa qb ka kb va vb : Tensor ℝ) (L N E S2 Nk E2 Nv Ev : ℕ)
    (hqa : qa.shape = [L, N, E]) (hqb : qb.shape = [L, N, E])
    (hka : ka.shape = [S2, Nk, E2]) (hkb : kb.shape = [S2, Nk, E2])
    (hva : va.shape = [S2, Nv, Ev]) (hvb : vb.shape = [S2, Nv, Ev])
    (hh : 0 < m.num_heads) (hdvd : m.num_heads * (E / m.num_heads) = E)
    (hNk : N ≤ Nk) (hNv : N ≤ Nv) (hEk : E ≤ E2) (hEv : E ≤ Ev)
    (hq : OffEq 0 qa qb) (hk : OffEq 0 ka kb) (hv : OffEq 0 va vb) :
    OffEq 0 (m.forward qa ka va) (m.forward qb kb vb) := by
  obtain ⟨shqa, dqa⟩ := qa
  obtain ⟨shqb, dqb⟩ := qb
  obtain ⟨shka, dka⟩ := ka
  obtain ⟨shkb, dkb⟩ := kb
  obtain ⟨shva, dva⟩ := va
  obtain ⟨shvb, dvb⟩ := vb
  simp only [Tensor.shape] at hqa hqb hka hkb hva hvb
  subst hqa
  subst hqb
  subst hka
  subst hkb
  subst hva
  subst hvb
  have hqd : ∀ l n kk, l < L → n < N → kk < E →
      (⟨[L, N, E], dqa⟩ : Tensor ℝ).data [l, n, kk]
        = (⟨[L, N, E], dqb⟩ : Tensor ℝ).data [l, n, kk] := by
    intro l n kk hl hn hkk
    have h0 := hq l [n, kk] (validIdx_mk3 hl hn hkk)
    rwa [Nat.zero_add] at h0
  have hkd : ∀ s n kk, s < S2 → n < N → kk < E →
      (⟨[S2, Nk, E2], dka⟩ : Tensor ℝ).data [s, n, kk]
        = (⟨[S2, Nk, E2], dkb⟩ : Tensor ℝ).data [s, n, kk] := by
    intro s n kk hs hn hkk
    have h0 := hk s [n, kk]
      (validIdx_mk3 hs (lt_of_lt_of_le hn hNk) (lt_of_lt_of_le hkk hEk))
    rwa [Nat.zero_add] at h0
  have hvd : ∀ s n kk, s < S2 → n < N → kk < E →
      (⟨[S2, Nv, Ev], dva⟩ : Tensor ℝ).data [s, n, kk]
        = (⟨[S2, Nv, Ev], dvb⟩ : Tensor ℝ).data [s, n, kk] := by
    intro s n kk hs hn hkk
    have h0 := hv s [n, kk]
      (validIdx_mk3 hs (lt_of_lt_of_le hn hNv) (lt_of_lt_of_le hkk hEv))
    rwa [Nat.zero_add] at h0
  let qpa : Tensor ℝ := linear E E (fun o i => m.in_proj_weight o i)
    (fun o => m.in_proj_bias o) ⟨[L, N, E], dqa⟩
  let qpb : Tensor ℝ := linear E E (fun o i => m.in_proj_weight o i)
    (fun o => m.in_proj_bias o) ⟨[L, N, E], dqb⟩
  let kpa : Tensor ℝ := linear E E (fun o i => m.in_proj_weight (E + o) i)
    (fun o => m.in_proj_bias (E + o)) ⟨[S2, Nk, E2], dka⟩
  let kpb : Tensor ℝ := linear E E (fun o i => m.in_proj_weight (E + o) i)
    (fun o => m.in_proj_bias (E + o)) ⟨[S2, Nk, E2], dkb⟩
  let vpa : Tensor ℝ := linear E E (fun o i => m.in_proj_weight (2 * E + o) i)
    (fun o => m.in_proj_bias (2 * E + o)) ⟨[S2, Nv, Ev], dva⟩
  let vpb : Tensor ℝ := linear E E (fun o i => m.in_proj_weight (2 * E + o) i)
    (fun o => m.in_proj_bias (2 * E + o)) ⟨[S2, Nv, Ev], dvb⟩
  have hqp : ∀ l n o, l < L → n < N → qpa.data [l, n, o] = qpb.data [l, n, o] := by
    intro l n o hl hn
    show (∑ kk ∈ Finset.range E, m.in_proj_weight o kk
          * (⟨[L, N, E], dqa⟩ : Tensor ℝ).data [l, n, kk]) + m.in_proj_bias o
        = (∑ kk ∈ Finset.range E, m.in_proj_weight o kk
          * (⟨[L, N, E], dqb⟩ : Tensor ℝ).data [l, n, kk]) + m.in_proj_bias o
    congr 1
    exact Finset.sum_congr rfl fun kk hkk => by
      rw [hqd l n kk hl hn (Finset.mem_range.mp hkk)]
  have hkp : ∀ s n o, s < S2 → n < N → kpa.data [s, n, o] = kpb.data [s, n, o] := by
    intro s n o hs hn
    show (∑ kk ∈ Finset.range E, m.in_proj_weight (E + o) kk
          * (⟨[S2, Nk, E2], dka⟩ : Tensor ℝ).data [s, n, kk]) + m.in_proj_bias (E + o)
        = (∑ kk ∈ Finset.range E, m.in_proj_weight (E + o) kk
          * (⟨[S2, Nk, E2], dkb⟩ : Tensor ℝ).data [s, n, kk]) + m.in_proj_bias (E + o)
    congr 1
    exact Finset.sum_congr rfl fun kk hkk => by
      rw [hkd s n kk hs hn (Finset.mem_range.mp hkk)]
  have hvp : ∀ s n o, s < S2 → n < N → vpa.data [s, n, o] = vpb.data [s, n, o] := by
    intro s n o hs hn
    show (∑ kk ∈ Finset.range E, m.in_proj_weight (2 * E + o) kk
          * (⟨[S2, Nv, Ev], dva⟩ : Tensor ℝ).data [s, n, kk]) + m.in_proj_bias (2 * E + o)
        = (∑ kk ∈ Finset.range E, m.in_proj_weight (2 * E + o) kk
          * (⟨[S2, Nv, Ev], dvb⟩ : Tensor ℝ).data [s, n, kk]) + m.in_proj_bias (2 * E + o)
    congr 1
    exact Finset.sum_congr rfl fun kk hkk => by
      rw [hvd s n kk hs hn (Finset.mem_range.mp hkk)]
  let qha : Tensor ℝ :=
    ⟨[N * m.num_heads, L, E / m.num_heads], fun idx =>
      match idx with
      | [bh, l, dd] => qpa.data [l, bh / m.num_heads,
          bh % m.num_heads * (E / m.num_heads) + dd]
          * (Real.sqrt ((E / m.num_heads : ℕ) : ℝ))⁻¹
      | _ => 0⟩
  let qhb : Tensor ℝ :=
    ⟨[N * m.num_heads, L, E / m.num_heads], fun idx =>
      match idx with
      | [bh, l, dd] => qpb.data [l, bh / m.num_heads,
          bh % m.num_heads * (E / m.num_heads) + dd]
          * (Real.sqrt ((E / m.num_heads : ℕ) : ℝ))⁻¹
      | _ => 0⟩
  let kha : Tensor ℝ :=
    ⟨[N * m.num_heads, S2, E / m.num_heads], fun idx =>
      match idx with
      | [bh, s, dd] => kpa.data [s, bh / m.num_heads,
          bh % m.num_heads * (E / m.num_heads) + dd]
      | _ => 0⟩
  let khb : Tensor ℝ :=
    ⟨[N * m.num_heads, S2, E / m.num_heads], fun idx =>
      match idx with
      | [bh, s, dd] => kpb.data [s, bh / m.num_heads,
          bh % m.num_heads * (E / m.num_heads) + dd]
      | _ => 0⟩
  let vha : Tensor ℝ :=
    ⟨[N * m.num_heads, S2, E / m.num_heads], fun idx =>
      match idx with
      | [bh, s, dd] => vpa.data [s, bh / m.num_heads,
          bh % m.num_heads * (E / m.num_heads) + dd]
      | _ => 0⟩
  let vhb : Tensor ℝ :=
    ⟨[N * m.num_heads, S2, E / m.num_heads], fun idx =>
      match idx with
      | [bh, s, dd] => vpb.data [s, bh / m.num_heads,
          bh % m.num_heads * (E / m.num_heads) + dd]
      | _ => 0⟩
  have hbdiv : ∀ bh, bh < N * m.num_heads → bh / m.num_heads < N := fun bh hbh =>
    (Nat.div_lt_iff_lt_mul hh).mpr hbh
  have hqh : ∀ bh l dd, bh < N * m.num_heads → l < L →
      qha.data [bh, l, dd] = qhb.data [bh, l, dd] := by
    intro bh l dd hbh hl
    show qpa.data [l, bh / m.num_heads, bh % m.num_heads * (E / m.num_heads) + dd]
          * (Real.sqrt ((E / m.num_heads : ℕ) : ℝ))⁻¹
        = qpb.data [l, bh / m.num_heads, bh % m.num_heads * (E / m.num_heads) + dd]
          * (Real.sqrt ((E / m.num_heads : ℕ) : ℝ))⁻¹
    rw [hqp l (bh / m.num_heads) _ hl (hbdiv bh hbh)]
  have hkh : ∀ bh s dd, bh < N * m.num_heads → s < S2 →
      kha.data [bh, s, dd] = khb.data [bh, s, dd] := by
    intro bh s dd hbh hs
    show kpa.data [s, bh / m.num_heads, bh % m.num_heads * (E / m.num_heads) + dd]
        = kpb.data [s, bh / m.num_heads, bh % m.num_heads * (E / m.num_heads) + dd]
    rw [hkp s (bh / m.num_heads) _ hs (hbdiv bh hbh)]
  have hvh : ∀ bh s dd, bh < N * m.num_heads → s < S2 →
      vha.data [bh, s, dd] = vhb.data [bh, s, dd] := by
    intro bh s dd hbh hs
    show vpa.data [s, bh / m.num_heads, bh % m.num_heads * (E / m.num_heads) + dd]
        = vpb.data [s, bh / m.num_heads, bh % m.num_heads * (E / m.num_heads) + dd]
    rw [hvp s (bh / m.num_heads) _ hs (hbdiv bh hbh)]
  let mata : Tensor ℝ := matmulLast qha (transposeLast2 kha)
  let matb : Tensor ℝ := matmulLast qhb (transposeLast2 khb)
  have hmm1 : ∀ bh l s, bh < N * m.num_heads → l < L → s < S2 →
      mata.data [bh, l, s] = matb.data [bh, l, s] := by
    intro bh l s hbh hl hs
    show (∑ kk ∈ Finset.range (E / m.num_heads),
          qha.data [bh, l, kk] * kha.data [bh, s, kk])
        = ∑ kk ∈ Finset.range (E / m.num_heads),
          qhb.data [bh, l, kk] * khb.data [bh, s, kk]
    exact Finset.sum_congr rfl fun kk _ => by
      rw [hqh bh l kk hbh hl, hkh bh s kk hbh hs]
  let attna : Tensor ℝ := softmaxLast S2 mata
  let attnb : Tensor ℝ := softmaxLast S2 matb
  have hattn : ∀ bh l s, bh < N * m.num_heads → l < L → s < S2 →
      attna.data [bh, l, s] = attnb.data [bh, l, s] := by
    intro bh l s hbh hl hs
    show Real.exp (mata.data [bh, l, s])
          / ∑ kk ∈ Finset.range S2, Real.exp (mata.data [bh, l, kk])
        = Real.exp (matb.data [bh, l, s])
          / ∑ kk ∈ Finset.range S2, Real.exp (matb.data [bh, l, kk])
    rw [hmm1 bh l s hbh hl hs]
    congr 1
    refine Finset.sum_congr rfl fun kk hkk => ?_
    rw [hmm1 bh l kk hbh hl (Finset.mem_range.mp hkk)]
  let oha : Tensor ℝ := matmulLast attna vha
  let ohb : Tensor ℝ := matmulLast attnb vhb
  have hoh : ∀ bh l dd, bh < N * m.num_heads → l < L →
      oha.data [bh, l, dd] = ohb.data [bh, l, dd] := by
    intro bh l dd hbh hl
    show (∑ kk ∈ Finset.range S2, attna.data [bh, l, kk] * vha.data [bh, kk, dd])
        = ∑ kk ∈ Finset.range S2, attnb.data [bh, l, kk] * vhb.data [bh, kk, dd]
    exact Finset.sum_congr rfl fun kk hkk => by
      rw [hattn bh l kk hbh hl (Finset.mem_range.mp hkk),
        hvh bh kk dd hbh (Finset.mem_range.mp hkk)]
  let mergeda : Tensor ℝ :=
    ⟨[L, N, E], fun idx =>
      match idx with
      | [l, n, e] => oha.data [n * m.num_heads + e / (E / m.num_heads), l,
          e % (E / m.num_heads)]
      | _ => 0⟩
  let mergedb : Tensor ℝ :=
    ⟨[L, N, E], fun idx =>
      match idx with
      | [l, n, e] => ohb.data [n * m.num_heads + e / (E / m.num_heads), l,
          e % (E / m.num_heads)]
      | _ => 0⟩
  have hmerged : ∀ l n e, l < L → n < N → e < E →
      mergeda.data [l, n, e] = mergedb.data [l, n, e] := by
    intro l n e hl hn he
    have hdpos : 0 < E / m.num_heads := by
      rcases Nat.eq_zero_or_pos (E / m.num_heads) with h0 | hp
      · rw [h0, Nat.mul_zero] at hdvd
        omega
      · exact hp
    have hediv : e / (E / m.num_heads) < m.num_heads := by
      refine (Nat.div_lt_iff_lt_mul hdpos).mpr ?_
      have : m.num_heads * (E / m.num_heads) = E := hdvd
      omega
    show oha.data [n * m.num_heads + e / (E / m.num_heads), l, e % (E / m.num_heads)]
        = ohb.data [n * m.num_heads + e / (E / m.num_heads), l, e % (E / m.num_heads)]
    exact hoh _ l _ (idx_flatten_lt hn hediv) hl
  intro l rest hv
  rw [Nat.zero_add]
  have hv' : ValidIdx [L, N, E] (l :: rest) := hv
  obtain ⟨n, o, rfl, hl, hn, _⟩ := validIdx_cons_three hv'
  show (∑ kk ∈ Finset.range E, m.out_proj_w o kk * mergeda.data [l, n, kk])
        + m.out_proj_b o
      = (∑ kk ∈ Finset.range E, m.out_proj_w o kk * mergedb.data [l, n, kk])
        + m.out_proj_b o
  congr 1
  exact Finset.sum_congr rfl fun kk hkk => by
    rw [hmerged l n kk hl hn (Finset.mem_range.mp hkk)]

end BEN

namespace BEN

/-- Output shape of `nn.MultiheadAttention`: the query's `(L, N, E)`. -/
theorem mha_forward_shape (m : MultiheadAttention) (q k v : Tensor ℝ)
    (L N E S2 Nk E2 : ℕ) (hq : q.shape = [L, N, E]) (hk : k.shape = [S2, Nk, E2]) :
    (m.forward q k v).shape = [L, N, E] := by
  obtain ⟨shq, dq⟩ := q
  obtain ⟨shk, dk⟩ := k
  simp only [Tensor.shape] at hq hk
  subst hq
  subst hk
  rfl

/-- Shape of a `torch.cat(dim=0)` via `catD` with a cons-shaped head. -/
theorem catD0_shape_of (ts : List (Tensor ℝ)) (n0 : ℕ) (tl : List ℕ)
    (hhead : (ts.headD ⟨[], fun _ => 0⟩).shape = n0 :: tl) :
    (catD 0 ts).shape = ((ts.map fun t => t.shape.getD 0 0).sum) :: tl := by
  show (ts.headD ⟨[], fun _ => 0⟩).shape.set 0 ((ts.map fun t => t.shape.getD 0 0).sum) = _
  rw [hhead]
  rfl

/-- The token count of a pooled pyramid: sum of the per-ratio grid sizes. -/
theorem pools_sum_eq (hh ww : ℕ) (f : ℕ → Tensor ℝ)
    (hf : ∀ pr, (f pr).shape.getD 0 0 = round_div hh pr * round_div ww pr) :
    ∀ prs : List ℕ, ((prs.map f).map fun t => t.shape.getD 0 0).sum
      = (prs.map fun pr => round_div hh pr * round_div ww pr).sum := by
  intro prs
  induction prs with
  | nil => rfl
  | cons p ps ih =>
      simp only [List.map_cons, List.sum_cons]
      rw [hf p, ih]

end BEN

namespace BEN

/-- Offset-0 agreement is reflexive. -/
theorem offEq_zero_self (t : Tensor ℝ) : OffEq 0 t t := by
  intro i rest _
  rw [Nat.zero_add]

end BEN

namespace BEN

end BEN
